import Mathlib

/-!
# A recursive sphere ray tracer (`src/main.cpp`)

Embedding of `Vec3<T>`, `Sphere`, `mix` and `trace`, and the properties of the specification
that concern sphere intersection and the tracer.

## Conventions of the model

* The C++ program computes in `float`.  The file gives two readings of the same source
  lines.
  - The exact reading (`Vec3`, `Sphere`, `trace`, ...) is the program with every rounding
    removed: it is written over an arbitrary linearly ordered field `T` and takes the square
    root as an explicit parameter `sqrt : T → T`, so every definition is an ordinary
    computable function.  Theorems that need no property of the square root hold for every
    `T` and every `sqrt`; the others are stated over `ℝ` with `Real.sqrt`.  A theorem about
    this reading is a statement in exact arithmetic, or one whose hypotheses and conclusion
    are read off the code's own tests.
  - The `float` reading (namespace `Float32`) is the program as compiled: the same lines
    over the data of IEEE 754 binary32 (`Fl`), every operation rounded to nearest, with
    infinities and NaN.  Statements that the exact reading satisfies and the compiled
    program does not are refuted there, on concrete inputs.
* `INFINITY` is the IEEE infinity of `<cmath>`.  In the exact reading `tnear` ranges over
  `WithTop T` and every distance is below `INFINITY`; in the `float` reading `INFINITY` is
  the datum `+inf`, which a computed distance can equal and NaN never compares below.
* A pointer `&spheres[i]` is the index `i` together with the sphere stored there.
* `trace` is defined by recursion on `MAX_RAY_DEPTH - depth`.  Next to the colour it returns
  the list of its own invocations (`traceCalls`), which is how statements about recursive
  calls and about the sphere that is shaded are expressed.
-/

namespace RayTracer

/-! ## Vec3 -/

/-- Class `Vec3<T>`: the three public members `x, y, z`. -/
@[ext]
structure Vec3 (T : Type) where
  x : T
  y : T
  z : T

namespace Vec3

variable {T : Type} [LinearOrderedField T]

/-- Constructor `Vec3()`: the zero vector. -/
def zero : Vec3 T := ⟨0, 0, 0⟩

/-- Constructor `Vec3(T xx)`: all three components equal to `xx`. -/
def uniform (xx : T) : Vec3 T := ⟨xx, xx, xx⟩

/-- Member `operator * (const T &f)`: scale by a constant. -/
def scale (v : Vec3 T) (f : T) : Vec3 T := ⟨v.x * f, v.y * f, v.z * f⟩

/-- Member `operator * (const Vec3<T> &v)`: component-wise product. -/
def mul (u v : Vec3 T) : Vec3 T := ⟨u.x * v.x, u.y * v.y, u.z * v.z⟩

/-- Member `dot`. -/
def dot (u v : Vec3 T) : T := u.x * v.x + u.y * v.y + u.z * v.z

/-- Member `operator - (const Vec3<T> &v)`: vector subtraction. -/
def sub (u v : Vec3 T) : Vec3 T := ⟨u.x - v.x, u.y - v.y, u.z - v.z⟩

/-- Member `operator + (const Vec3<T> &v)`: vector addition (also used for `+=`). -/
def add (u v : Vec3 T) : Vec3 T := ⟨u.x + v.x, u.y + v.y, u.z + v.z⟩

/-- Member `operator - ()`: negation. -/
def neg (v : Vec3 T) : Vec3 T := ⟨-v.x, -v.y, -v.z⟩

/-- Member `length2`: sum of squares. -/
def length2 (v : Vec3 T) : T := v.x * v.x + v.y * v.y + v.z * v.z

/-- Member `length`: `sqrt(length2())`.  Exact reading: with `Real.sqrt` the square of the
result is `length2()`; the rounded one is `Float32.Vec3.length`. -/
def length (sqrt : T → T) (v : Vec3 T) : T := sqrt (length2 v)

/-- Member `normalize`: the value of `*this` after the call.
The components are scaled by `1 / sqrt(nor2)` when `nor2 > 0` and left alone otherwise.
Exact reading; the rounded one is `Float32.Vec3.normalize`. -/
def normalize (sqrt : T → T) (v : Vec3 T) : Vec3 T :=
  let nor2 := length2 v
  if nor2 > 0 then
    let invNor := 1 / sqrt nor2
    ⟨v.x * invNor, v.y * invNor, v.z * invNor⟩
  else v

instance : Zero (Vec3 T) := ⟨zero⟩

instance : Add (Vec3 T) := ⟨add⟩

/-- Vectors under `operator +` with the zero vector `Vec3()` form a commutative monoid; this
gives the sum of a list of colours its usual meaning. -/
instance : AddCommMonoid (Vec3 T) where
  add_assoc a b c := Vec3.ext (add_assoc _ _ _) (add_assoc _ _ _) (add_assoc _ _ _)
  zero_add a := Vec3.ext (zero_add _) (zero_add _) (zero_add _)
  add_zero a := Vec3.ext (add_zero _) (add_zero _) (add_zero _)
  add_comm a b := Vec3.ext (add_comm _ _) (add_comm _ _) (add_comm _ _)
  nsmul := nsmulRec

instance : Sub (Vec3 T) := ⟨sub⟩
instance : Neg (Vec3 T) := ⟨neg⟩
instance : Mul (Vec3 T) := ⟨mul⟩
instance : HMul (Vec3 T) T (Vec3 T) := ⟨scale⟩

end Vec3

/-! ## Sphere -/

/-- Class `Sphere`: its public data members, in declaration order. -/
structure Sphere (T : Type) where
  center : Vec3 T
  radius : T
  radsquared : T
  surfaceColor : Vec3 T
  emissionColor : Vec3 T
  transparency : T
  reflection : T

namespace Sphere

variable {T : Type} [LinearOrderedField T]

/-- Constructor `Sphere::Sphere(c, r, sc, refl, transp, ec)`; `radsquared` is `r * r`.
The C++ defaults are `refl = 0`, `transp = 0`, `ec = 0`. -/
def new (c : Vec3 T) (r : T) (sc : Vec3 T) (refl transp : T) (ec : Vec3 T) : Sphere T :=
  ⟨c, r, r * r, sc, ec, transp, refl⟩

/-- Member `Sphere::intersect`: `none` for `return false`, `some (t0, t1)` for `return true`
with the two output parameters.  Exact reading; the rounded one is
`Float32.Sphere.intersect`. -/
def intersect (sqrt : T → T) (s : Sphere T) (rayorig raydir : Vec3 T) : Option (T × T) :=
  let dist := s.center - rayorig
  let norm := dist.dot raydir
  if norm < 0 then none
  else
    let d2 := dist.dot dist - norm * norm
    if d2 > s.radsquared then none
    else
      let thc := sqrt (s.radsquared - d2)
      some (norm - thc, norm + thc)

end Sphere

/-! ## Tracer -/

/-- Macro `MAX_RAY_DEPTH`. -/
def MAX_RAY_DEPTH : Int := 5

/-- Macro `INFINITY` of `<cmath>` (the Linux / Apple branch of the preprocessor test):
the IEEE infinity, above every number.  Exact reading; the `float` datum is
`Float32.INFINITY`. -/
def INFINITY {T : Type} : WithTop T := ⊤

section Tracer

variable {T : Type} [LinearOrderedField T]

/-- Function `mix`. -/
def mix (a b mix : T) : T := b * mix + a * (1 - mix)

/-- The two locals of the search loop of `trace`: `tnear` and the pointer `sphere`.
A non-null pointer `&spheres[i]` is the index `i` together with the sphere it points to. -/
structure Nearest (T : Type) where
  tnear : WithTop T
  sphere : Option (Nat × Sphere T)

/-- Body of the search loop of `trace` for the sphere `s = spheres[i]`.  Exact reading: every
reported distance is a number below `INFINITY`; the loop on `float` distances is
`Float32.nearestStep`. -/
def nearestStep (sqrt : T → T) (rayorig raydir : Vec3 T) (st : Nearest T) (i : Nat)
    (s : Sphere T) : Nearest T :=
  match s.intersect sqrt rayorig raydir with
  | some (t0, t1) =>
    let t0 := if t0 < 0 then t1 else t0
    if (t0 : WithTop T) < st.tnear then ⟨t0, some (i, s)⟩ else st
  | none => st

/-- The search loop of `trace` from index `i` on, over the spheres still to visit. -/
def nearestLoop (sqrt : T → T) (rayorig raydir : Vec3 T) :
    Nat → List (Sphere T) → Nearest T → Nearest T
  | _, [], st => st
  | i, s :: rest, st =>
    nearestLoop sqrt rayorig raydir (i + 1) rest (nearestStep sqrt rayorig raydir st i s)

/-- Lines 113-125 of `trace`: `tnear = INFINITY`, `sphere = NULL`, then the loop. -/
def findNearest (sqrt : T → T) (spheres : List (Sphere T)) (rayorig raydir : Vec3 T) :
    Nearest T :=
  nearestLoop sqrt rayorig raydir 0 spheres ⟨INFINITY, none⟩

/-- The effective distance of a sphere, as the specification words it: for a sphere that
`intersect` reports as hit, `t0` when `t0 ≥ 0` and `t1` when `t0 < 0`; `none` for a sphere
that is not hit. -/
def effectiveDistance (sqrt : T → T) (s : Sphere T) (rayorig raydir : Vec3 T) : Option T :=
  match s.intersect sqrt rayorig raydir with
  | some (t0, t1) => some (if 0 ≤ t0 then t0 else t1)
  | none => none

/-- The inner loop of the diffuse path (over `j`), from index `j` on: the value of
`transmission` when the loop ends, `break` included. -/
def shadowLoop (sqrt : T → T) (i : Nat) (orig lightDirection : Vec3 T) :
    Nat → List (Sphere T) → Vec3 T → Vec3 T
  | _, [], transmission => transmission
  | j, s :: rest, transmission =>
    if i ≠ j then
      if (s.intersect sqrt orig lightDirection).isSome then Vec3.uniform 0
      else shadowLoop sqrt i orig lightDirection (j + 1) rest transmission
    else shadowLoop sqrt i orig lightDirection (j + 1) rest transmission

/-- The term added to `surfaceColor` for the light `li = spheres[i]` in the diffuse path. -/
def lightTerm (sqrt : T → T) (spheres : List (Sphere T)) (sphere : Sphere T)
    (pointhit normalhit : Vec3 T) (bias : T) (i : Nat) (li : Sphere T) : Vec3 T :=
  let transmission : Vec3 T := Vec3.uniform 1
  let lightDirection := (li.center - pointhit).normalize sqrt
  let transmission :=
    shadowLoop sqrt i (pointhit + normalhit * bias) lightDirection 0 spheres transmission
  sphere.surfaceColor * transmission * max 0 (normalhit.dot lightDirection) * li.emissionColor

/-- The outer loop of the diffuse path (over `i`), from index `i` on. -/
def lightLoop (sqrt : T → T) (spheres : List (Sphere T)) (sphere : Sphere T)
    (pointhit normalhit : Vec3 T) (bias : T) : Nat → List (Sphere T) → Vec3 T → Vec3 T
  | _, [], surfaceColor => surfaceColor
  | i, li :: rest, surfaceColor =>
    if li.emissionColor.x > 0 then
      lightLoop sqrt spheres sphere pointhit normalhit bias (i + 1) rest
        (surfaceColor + lightTerm sqrt spheres sphere pointhit normalhit bias i li)
    else lightLoop sqrt spheres sphere pointhit normalhit bias (i + 1) rest surfaceColor

/-- A record of one invocation of `trace`: its `depth` argument and the index of the sphere
it shades (`none` when the ray misses every sphere). -/
structure Call where
  depth : Int
  sphere : Option Nat
deriving DecidableEq

/-- Function `trace`, returning the colour together with the list of all invocations of
`trace` made to compute it (this one first, then those of the reflection ray, then those of
the refraction ray). -/
def traceAux (sqrt : T → T) (spheres : List (Sphere T)) (rayorig raydir : Vec3 T)
    (depth : Int) : Vec3 T × List Call :=
  let near := findNearest sqrt spheres rayorig raydir
  match near.sphere with
  | none => (Vec3.uniform 2, [⟨depth, none⟩])
  | some (idx, sphere) =>
    let tnear : T := near.tnear.untop' 0
    let surfaceColor : Vec3 T := Vec3.uniform 0
    let pointhit := rayorig + raydir * tnear
    let normalhit := (pointhit - sphere.center).normalize sqrt
    let bias : T := 1e-4
    let inside : Bool := decide (raydir.dot normalhit > 0)
    let normalhit := if raydir.dot normalhit > 0 then -normalhit else normalhit
    if h : (sphere.transparency > 0 ∨ sphere.reflection > 0) ∧ depth < MAX_RAY_DEPTH then
      let facingratio := -(raydir.dot normalhit)
      let fresneleffect := mix ((1 - facingratio) ^ 3) 1 0.01
      let refldir := (raydir - normalhit * (2 : T) * raydir.dot normalhit).normalize sqrt
      let reflection := traceAux sqrt spheres (pointhit + normalhit * bias) refldir (depth + 1)
      let refraction : Vec3 T × List Call :=
        if sphere.transparency ≠ 0 then
          let ior : T := 1.1
          let eta := if inside then ior else 1 / ior
          let cosi := -(normalhit.dot raydir)
          let k := 1 - eta * eta * (1 - cosi * cosi)
          let refrdir := (raydir * eta + normalhit * (eta * cosi - sqrt k)).normalize sqrt
          traceAux sqrt spheres (pointhit - normalhit * bias) refrdir (depth + 1)
        else (Vec3.uniform 0, [])
      let surfaceColor :=
        (reflection.1 * fresneleffect +
          refraction.1 * (1 - fresneleffect) * sphere.transparency) * sphere.surfaceColor
      (surfaceColor + sphere.emissionColor,
        ⟨depth, some idx⟩ :: (reflection.2 ++ refraction.2))
    else
      let surfaceColor :=
        lightLoop sqrt spheres sphere pointhit normalhit bias 0 spheres surfaceColor
      (surfaceColor + sphere.emissionColor, [⟨depth, some idx⟩])
termination_by (MAX_RAY_DEPTH - depth).toNat
decreasing_by
  all_goals simp only [MAX_RAY_DEPTH] at h ⊢
  all_goals omega

/-- Function `trace`: the colour returned. -/
def trace (sqrt : T → T) (spheres : List (Sphere T)) (rayorig raydir : Vec3 T)
    (depth : Int) : Vec3 T :=
  (traceAux sqrt spheres rayorig raydir depth).1

/-- The invocations of `trace` made by `trace(rayorig, raydir, spheres, depth)`,
the outermost one included. -/
def traceCalls (sqrt : T → T) (spheres : List (Sphere T)) (rayorig raydir : Vec3 T)
    (depth : Int) : List Call :=
  (traceAux sqrt spheres rayorig raydir depth).2

/-! ### The locals of `trace`, as functions of what they are computed from

`trace` above is written as the source writes it; the definitions below name the values
of its locals, for use in the statements of the theorems. -/

/-- The local `bias` of `trace`. -/
def bias : T := 1e-4

/-- The local `pointhit` of `trace`. -/
def pointhit (rayorig raydir : Vec3 T) (tnear : T) : Vec3 T := rayorig + raydir * tnear

/-- The local `inside` of `trace`. -/
def inside (sqrt : T → T) (rayorig raydir : Vec3 T) (tnear : T) (sphere : Sphere T) : Bool :=
  decide (raydir.dot ((pointhit rayorig raydir tnear - sphere.center).normalize sqrt) > 0)

/-- The local `normalhit` of `trace`, after the orientation step of line 144. -/
def normalhit (sqrt : T → T) (rayorig raydir : Vec3 T) (tnear : T) (sphere : Sphere T) :
    Vec3 T :=
  if raydir.dot ((pointhit rayorig raydir tnear - sphere.center).normalize sqrt) > 0 then
    -((pointhit rayorig raydir tnear - sphere.center).normalize sqrt)
  else (pointhit rayorig raydir tnear - sphere.center).normalize sqrt

/-- The local `fresneleffect` of `trace`, from the ray direction and the oriented normal.
Exact reading, with the constant `0.01`; the rounded one is `Float32.fresneleffect`. -/
def fresneleffect (raydir normalhit : Vec3 T) : T :=
  mix ((1 - -(raydir.dot normalhit)) ^ 3) 1 0.01

/-- The local `refldir` of `trace`, after its `normalize()`. -/
def refldir (sqrt : T → T) (raydir normalhit : Vec3 T) : Vec3 T :=
  (raydir - normalhit * (2 : T) * raydir.dot normalhit).normalize sqrt

/-- The local `refrdir` of `trace`, after its `normalize()`. -/
def refrdir (sqrt : T → T) (raydir normalhit : Vec3 T) (inside : Bool) : Vec3 T :=
  let ior : T := 1.1
  let eta := if inside then ior else 1 / ior
  let cosi := -(normalhit.dot raydir)
  let k := 1 - eta * eta * (1 - cosi * cosi)
  (raydir * eta + normalhit * (eta * cosi - sqrt k)).normalize sqrt

/-- The condition of line 145 of `trace`, under which the reflection / refraction path is
taken. -/
def specular (sphere : Sphere T) (depth : Int) : Prop :=
  (sphere.transparency > 0 ∨ sphere.reflection > 0) ∧ depth < MAX_RAY_DEPTH

/-- The local `k` of `trace`: the radicand of the refraction direction, from the flag
`inside` and the local `cosi`.  Exact reading, with `ior = 1.1`; the rounded one is
`Float32.refractionRadicand`. -/
def refractionRadicand (inside : Bool) (cosi : T) : T :=
  let ior : T := 1.1
  let eta := if inside then ior else 1 / ior
  1 - eta * eta * (1 - cosi * cosi)

/-- Two spheres that differ at most in their material coefficients `transparency` and
`reflection`. -/
def sameButMaterial (a b : Sphere T) : Prop :=
  a.center = b.center ∧ a.radius = b.radius ∧ a.radsquared = b.radsquared ∧
    a.surfaceColor = b.surfaceColor ∧ a.emissionColor = b.emissionColor

/-! ### Renderer: the output loop of `render` (lines 219-223) -/

/-- The conversion `(unsigned char)` of a `float`: the fractional part is discarded
(truncation towards zero); the result is `none` when the truncated value is not one of
`0..255`, where the C++ conversion has no defined result. -/
def toUChar [FloorRing T] (x : T) : Option Nat :=
  let n : Int := if 0 ≤ x then Int.floor x else Int.ceil x
  if 0 ≤ n ∧ n ≤ 255 then some n.toNat else none

/-- The byte written for one colour component `c`:
`(unsigned char)(std::min(float(1), c) * 255)`. -/
def channelByte [FloorRing T] (c : T) : Option Nat := toUChar (min 1 c * 255)

/-- The three bytes written for one pixel, in the order of the `<<` chain. -/
def pixelBytes [FloorRing T] (p : Vec3 T) : List (Option Nat) :=
  [channelByte p.x, channelByte p.y, channelByte p.z]

/-- The bytes written after the header by the loop over `image[0 .. width * height - 1]`. -/
def imageBytes [FloorRing T] : List (Vec3 T) → List (Option Nat)
  | [] => []
  | p :: rest => pixelBytes p ++ imageBytes rest

/-! ### Scenes used in the examples -/

/-- A white, diffuse, non-emitting sphere of radius 1 centred at the origin. -/
def unitSphere : Sphere T := Sphere.new ⟨0, 0, 0⟩ 1 ⟨1, 1, 1⟩ 0 0 (Vec3.uniform 0)

/-- A light of radius 1 centred at `(0, 10, 0)`, with emission `Vec3f(3)`. -/
def lightAbove : Sphere T := Sphere.new ⟨0, 10, 0⟩ 1 (Vec3.uniform 0) 0 0 (Vec3.uniform 3)

/-- A non-emitting sphere of radius 1 centred at `(0, 20, 0)`: seen from the origin it lies
beyond `lightAbove`. -/
def farSphere : Sphere T := Sphere.new ⟨0, 20, 0⟩ 1 ⟨1, 1, 1⟩ 0 0 (Vec3.uniform 0)

/-- A mirror of radius 1 centred at the origin: reflection 1, transparency 0. -/
def mirrorSphere : Sphere T := Sphere.new ⟨0, 0, 0⟩ 1 ⟨1, 1, 1⟩ 1 0 (Vec3.uniform 0)

/-- A mirror of radius 1 centred at `(0, 10, 0)`, facing `mirrorSphere`. -/
def mirrorAbove : Sphere T := Sphere.new ⟨0, 10, 0⟩ 1 ⟨1, 1, 1⟩ 1 0 (Vec3.uniform 0)

/-- A sphere of radius 1 centred at the origin with reflection 1, transparency `-1` and
emission `(0, 1, 0)`. -/
def negativeTransparencySphere : Sphere T :=
  Sphere.new ⟨0, 0, 0⟩ 1 ⟨1, 1, 1⟩ 1 (-1) ⟨0, 1, 0⟩

/-- A sphere of radius `-1` centred at the origin. -/
def negativeRadiusSphere : Sphere T :=
  Sphere.new ⟨0, 0, 0⟩ (-1) ⟨1, 1, 1⟩ 0 0 (Vec3.uniform 0)

/-- A sphere of radius 1 centred at `(0, 10, 0)` whose emission `(0, 5, 5)` has a zero
first component. -/
def greenBlueEmitter : Sphere T := Sphere.new ⟨0, 10, 0⟩ 1 (Vec3.uniform 0) 0 0 ⟨0, 5, 5⟩

/-- The point `(0, 1/2, 0)`, strictly inside the unit sphere at the origin. -/
def insidePoint : Vec3 T := ⟨0, 1 / 2, 0⟩

/-- The origin `(0, 5, 0)` of the example ray. -/
def rayFrom : Vec3 T := ⟨0, 5, 0⟩

/-- The direction `(0, -1, 0)` of the example ray: straight down. -/
def rayDown : Vec3 T := ⟨0, -1, 0⟩

/-- The direction `(0, 1, 0)`: straight up. -/
def rayUp : Vec3 T := ⟨0, 1, 0⟩

end Tracer

/-! ## Floating point: the arithmetic of `float` and `double`

The data of an IEEE 754 binary format and its operations, rounded to nearest with ties to
even.  A finite datum is kept as sign, odd significand and exponent, so that every operation
is computed on integers.  Each operation of the program on `float` operands is rounded to
`binary32`; expressions that C++ evaluates in `double` (decimal literals, `pow`, `sqrt` of
the C library) are rounded to `binary64` and converted when they are stored in a `float`.
The sign of zero is not represented: the program never divides by zero, and its comparisons
do not tell the two zeros apart. -/

/-- A binary floating-point format of IEEE 754: `prec` bits of significand, `emin` the
exponent of the last bit of the subnormal numbers, and `emax`, the power of two that every
finite value stays below. -/
structure Format where
  prec : Nat
  emin : Int
  emax : Int

/-- The format of `float`. -/
def binary32 : Format := ⟨24, -149, 128⟩

/-- The format of `double`. -/
def binary64 : Format := ⟨53, -1074, 1024⟩

/-- A floating-point datum: not-a-number, an infinity, or the finite number
`± m * 2 ^ e`, kept with `m` odd (zero is `fin false 0 0`; the sign of zero is not
represented). -/
inductive Fl where
  | nan : Fl
  | inf (neg : Bool) : Fl
  | fin (neg : Bool) (m : Nat) (e : Int) : Fl
deriving DecidableEq

namespace Fl

/-- Number of binary digits of `n`, by halving (`fuel` bounds the number of steps). -/
def bitLengthAux : Nat → Nat → Nat
  | 0, _ => 0
  | fuel + 1, n => if n = 0 then 0 else bitLengthAux fuel (n / 2) + 1

/-- Number of binary digits of `n`. -/
def bitLength (n : Nat) : Nat := bitLengthAux n n

/-- Removes the trailing zero bits of `m`, raising the exponent. -/
def stripAux : Nat → Nat → Int → Nat × Int
  | 0, m, e => (m, e)
  | fuel + 1, m, e => if m % 2 = 0 ∧ m ≠ 0 then stripAux fuel (m / 2) (e + 1) else (m, e)

/-- The zero of the model. -/
def zero : Fl := fin false 0 0

/-- The finite datum `± m * 2 ^ e` in its kept form. -/
def canon (neg : Bool) (m : Nat) (e : Int) : Fl :=
  if m = 0 then zero else fin neg (stripAux m m e).1 (stripAux m m e).2

/-- Rounding of the exact value `± m * 2 ^ e` to the format `f`, to nearest, ties to even;
values of magnitude `2 ^ emax` or more after rounding become an infinity. -/
def round (f : Format) (neg : Bool) (m : Nat) (e : Int) : Fl :=
  if m = 0 then zero
  else
    let n : Int := bitLength m
    let E : Int := max (e + n - f.prec) f.emin
    if E ≤ e then
      if e + n > f.emax then inf neg else canon neg m e
    else
      let s : Nat := (E - e).toNat
      let q := m / 2 ^ s
      let r := m % 2 ^ s
      let half := 2 ^ (s - 1)
      let q := if r > half ∨ (r = half ∧ q % 2 = 1) then q + 1 else q
      if E + (bitLength q : Int) > f.emax then inf neg else canon neg q E

/-- Conversion of a datum to the format `f` (a cast, or the rounding of a result). -/
def toFormat (f : Format) : Fl → Fl
  | fin neg m e => round f neg m e
  | x => x

/-- Unary minus. -/
def neg : Fl → Fl
  | nan => nan
  | inf s => inf (!s)
  | fin s m e => if m = 0 then zero else fin (!s) m e

/-- The integer `± m * 2 ^ (e - emin)` for a common exponent `emin ≤ e`. -/
def scaled (s : Bool) (m : Nat) (e emin : Int) : Int :=
  if s then -((m * 2 ^ (e - emin).toNat : Nat) : Int)
  else ((m * 2 ^ (e - emin).toNat : Nat) : Int)

/-- Addition in the format `f`. -/
def add (f : Format) : Fl → Fl → Fl
  | nan, _ => nan
  | _, nan => nan
  | inf s, inf t => if s = t then inf s else nan
  | inf s, fin _ _ _ => inf s
  | fin _ _ _, inf t => inf t
  | fin s m e, fin t k d =>
    let emin := min e d
    let sum : Int := scaled s m e emin + scaled t k d emin
    round f (decide (sum < 0)) sum.natAbs emin

/-- Subtraction in the format `f`. -/
def sub (f : Format) (x y : Fl) : Fl := add f x (neg y)

/-- Multiplication in the format `f`. -/
def mul (f : Format) : Fl → Fl → Fl
  | nan, _ => nan
  | _, nan => nan
  | inf s, inf t => inf (s != t)
  | inf s, fin t k _ => if k = 0 then nan else inf (s != t)
  | fin s m _, inf t => if m = 0 then nan else inf (s != t)
  | fin s m e, fin t k d => round f (s != t) (m * k) (e + d)

/-- Division in the format `f`.  The quotient is computed with more than `prec + 2` bits and
a last bit that records a non-zero remainder, then rounded. -/
def div (f : Format) : Fl → Fl → Fl
  | nan, _ => nan
  | _, nan => nan
  | inf _, inf _ => nan
  | inf s, fin t _ _ => inf (s != t)
  | fin _ _ _, inf _ => zero
  | fin s m e, fin t k d =>
    if k = 0 then (if m = 0 then nan else inf (s != t))
    else
      let sh := f.prec + 8 + bitLength k
      let q := m * 2 ^ sh / k
      let sticky := if m * 2 ^ sh % k = 0 then 0 else 1
      round f (s != t) (2 * q + sticky) (e - d - (sh : Int) - 1)

/-- Integer square root, one binary digit at a time from bit `i + 1` down to bit 0: `r`
holds the digits fixed so far, and a digit is set when the square stays at most `n`. -/
def isqrtAux (n : Nat) : Nat → Nat → Nat
  | 0, r => if (r + 1) * (r + 1) ≤ n then r + 1 else r
  | i + 1, r =>
    isqrtAux n i (if (r + 2 ^ (i + 1)) * (r + 2 ^ (i + 1)) ≤ n then r + 2 ^ (i + 1) else r)

/-- Integer square root. -/
def isqrt (n : Nat) : Nat := isqrtAux n (bitLength n / 2 + 1) 0

/-- Square root in the format `f`, correctly rounded. -/
def sqrt (f : Format) : Fl → Fl
  | nan => nan
  | inf s => if s then nan else inf false
  | fin s m e =>
    if m = 0 then zero
    else if s then nan
    else
      let m1 := if e % 2 = 0 then m else 2 * m
      let e1 := if e % 2 = 0 then e else e - 1
      let m2 := m1 * 2 ^ (2 * (f.prec + 8))
      let r := isqrt m2
      let sticky := if r * r = m2 then 0 else 1
      round f false (2 * r + sticky) (e1 / 2 - (f.prec + 8 : Nat) - 1)

/-- The comparison `<` of C++: false as soon as one side is not a number. -/
def lt : Fl → Fl → Bool
  | nan, _ => false
  | _, nan => false
  | inf s, inf t => s && !t
  | inf s, fin _ _ _ => s
  | fin _ _ _, inf t => !t
  | fin s m e, fin t k d => decide (scaled s m e (min e d) < scaled t k d (min e d))

/-- The comparison `>` of C++. -/
def gt (x y : Fl) : Bool := lt y x

/-- The integer `n` in the format `f`. -/
def ofInt (f : Format) (n : Int) : Fl := round f (decide (n < 0)) n.natAbs 0

/-- The decimal literal `digits * 10 ^ (-places)` of type `double`. -/
def literal (digits places : Nat) : Fl :=
  div binary64 (fin false digits 0) (fin false (10 ^ places) 0)

/-- The rational number `± m * 2 ^ e`, the value of a finite datum. -/
def val (s : Bool) (m : Nat) (e : Int) : ℚ :=
  (if s then -(m : ℚ) else (m : ℚ)) * (2 : ℚ) ^ e

/-- The place of a datum on the extended rational line: its value when finite, bottom and
top for the two infinities (and, by convention, bottom for not-a-number, which no
comparison orders). -/
def key : Fl → WithBot (WithTop ℚ)
  | nan => ⊥
  | inf s => if s then ⊥ else ((⊤ : WithTop ℚ) : WithBot (WithTop ℚ))
  | fin s m e => ((val s m e : WithTop ℚ) : WithBot (WithTop ℚ))

/-- The truth value of a datum used as a condition (`if (x)`): true unless it is zero. -/
def toBool : Fl → Bool
  | fin _ m _ => decide (m ≠ 0)
  | _ => true

/-- Power with an `int` exponent, `pow(x, n)` of `<cmath>`: both arguments are promoted to
`double`; the result is taken to be the exact power rounded to `double`. -/
def pow : Fl → Nat → Fl
  | nan, _ => nan
  | inf s, n => if n = 0 then fin false 1 0 else inf (s && decide (n % 2 = 1))
  | fin s m e, n => round binary64 (s && decide (n % 2 = 1)) (m ^ n) (e * (n : Int))

end Fl

/-! ## The program over `float`

The same source lines as above, computed as the compiled program computes them: every
operation on `float` operands is rounded to binary32.  The parameter `sf` is the format in
which a call `sqrt(x)` with a `float` argument is evaluated, since the unqualified name
resolves to the `float` overload of `<cmath>` on some platforms and to `sqrt(double)` of the
C library on others. -/

namespace Float32

/-! The literals and operators of the C++ type `float`. -/

instance (n : Nat) : OfNat Fl n := ⟨Fl.ofInt binary32 n⟩
instance : Add Fl := ⟨Fl.add binary32⟩
instance : Sub Fl := ⟨Fl.sub binary32⟩
instance : Mul Fl := ⟨Fl.mul binary32⟩
instance : Div Fl := ⟨Fl.div binary32⟩
instance : Neg Fl := ⟨Fl.neg⟩

instance : DecidableEq (Vec3 Fl) := fun a b =>
  decidable_of_iff (a.x = b.x ∧ a.y = b.y ∧ a.z = b.z)
    ⟨fun h => Vec3.ext h.1 h.2.1 h.2.2, fun h => by subst h; exact ⟨rfl, rfl, rfl⟩⟩

instance : DecidableEq (Sphere Fl) := fun a b =>
  decidable_of_iff
    (a.center = b.center ∧ a.radius = b.radius ∧ a.radsquared = b.radsquared ∧
      a.surfaceColor = b.surfaceColor ∧ a.emissionColor = b.emissionColor ∧
      a.transparency = b.transparency ∧ a.reflection = b.reflection)
    ⟨fun h => by
      cases a
      cases b
      simp only at h
      obtain ⟨h1, h2, h3, h4, h5, h6, h7⟩ := h
      subst h1 h2 h3 h4 h5 h6 h7
      rfl,
    fun h => by subst h; exact ⟨rfl, rfl, rfl, rfl, rfl, rfl, rfl⟩⟩

/-- A `double` expression stored in a `float`. -/
def toFloat (x : Fl) : Fl := Fl.toFormat binary32 x

namespace Vec3

/-- Constructor `Vec3(T xx)`. -/
def uniform (xx : Fl) : Vec3 Fl := ⟨xx, xx, xx⟩

/-- Operator `*` with a scalar. -/
def scale (v : Vec3 Fl) (f : Fl) : Vec3 Fl := ⟨v.x * f, v.y * f, v.z * f⟩

/-- Operator `*` with a vector. -/
def mul (u v : Vec3 Fl) : Vec3 Fl := ⟨u.x * v.x, u.y * v.y, u.z * v.z⟩

/-- Member `dot`. -/
def dot (u v : Vec3 Fl) : Fl := u.x * v.x + u.y * v.y + u.z * v.z

/-- Binary operator `-`. -/
def sub (u v : Vec3 Fl) : Vec3 Fl := ⟨u.x - v.x, u.y - v.y, u.z - v.z⟩

/-- Operator `+`. -/
def add (u v : Vec3 Fl) : Vec3 Fl := ⟨u.x + v.x, u.y + v.y, u.z + v.z⟩

/-- Unary operator `-`. -/
def neg (v : Vec3 Fl) : Vec3 Fl := ⟨-v.x, -v.y, -v.z⟩

/-- Member `length2`. -/
def length2 (v : Vec3 Fl) : Fl := v.x * v.x + v.y * v.y + v.z * v.z

/-- Member `length`. -/
def length (sf : Format) (v : Vec3 Fl) : Fl := toFloat (Fl.sqrt sf (length2 v))

/-- Member `normalize`, as the value of the vector after the call. -/
def normalize (sf : Format) (v : Vec3 Fl) : Vec3 Fl :=
  let nor2 := length2 v
  if Fl.gt nor2 0 then
    let invNor := toFloat (Fl.div sf 1 (Fl.sqrt sf nor2))
    ⟨v.x * invNor, v.y * invNor, v.z * invNor⟩
  else v

end Vec3

namespace Sphere

/-- Constructor `Sphere::Sphere`. -/
def new (c : Vec3 Fl) (r : Fl) (sc : Vec3 Fl) (refl transp : Fl) (ec : Vec3 Fl) : Sphere Fl :=
  ⟨c, r, r * r, sc, ec, transp, refl⟩

/-- Member `Sphere::intersect`. -/
def intersect (sf : Format) (s : Sphere Fl) (rayorig raydir : Vec3 Fl) : Option (Fl × Fl) :=
  let dist := Vec3.sub s.center rayorig
  let norm := Vec3.dot dist raydir
  if Fl.lt norm 0 then none
  else
    let d2 := Vec3.dot dist dist - norm * norm
    if Fl.gt d2 s.radsquared then none
    else
      let thc := toFloat (Fl.sqrt sf (s.radsquared - d2))
      some (norm - thc, norm + thc)

end Sphere

/-- Macro `INFINITY` of `<cmath>`: the `float` infinity. -/
def INFINITY : Fl := Fl.inf false

/-- Function `mix`. -/
def mix (a b mix : Fl) : Fl := b * mix + a * (1 - mix)

/-- The two locals of the search loop of `trace`. -/
structure Nearest where
  tnear : Fl
  sphere : Option (Nat × Sphere Fl)
deriving DecidableEq

/-- Body of the search loop of `trace` for the sphere `s = spheres[i]`. -/
def nearestStep (sf : Format) (rayorig raydir : Vec3 Fl) (st : Nearest) (i : Nat)
    (s : Sphere Fl) : Nearest :=
  match Sphere.intersect sf s rayorig raydir with
  | some (t0, t1) =>
    let t0 := if Fl.lt t0 0 then t1 else t0
    if Fl.lt t0 st.tnear then ⟨t0, some (i, s)⟩ else st
  | none => st

/-- The search loop of `trace` from index `i` on. -/
def nearestLoop (sf : Format) (rayorig raydir : Vec3 Fl) :
    Nat → List (Sphere Fl) → Nearest → Nearest
  | _, [], st => st
  | i, s :: rest, st =>
    nearestLoop sf rayorig raydir (i + 1) rest (nearestStep sf rayorig raydir st i s)

/-- Lines 113-125 of `trace`. -/
def findNearest (sf : Format) (spheres : List (Sphere Fl)) (rayorig raydir : Vec3 Fl) :
    Nearest :=
  nearestLoop sf rayorig raydir 0 spheres ⟨INFINITY, none⟩

/-- The distance the search loop compares for a sphere that `intersect` reports as hit:
`t1` when `t0 < 0`, else `t0`. -/
def effectiveDistance (sf : Format) (s : Sphere Fl) (rayorig raydir : Vec3 Fl) : Option Fl :=
  match Sphere.intersect sf s rayorig raydir with
  | some (t0, t1) => some (if Fl.lt t0 0 then t1 else t0)
  | none => none

/-- Function `std::max(float(0), x)`: `x` when `0 < x`, else `0`. -/
def max0 (x : Fl) : Fl := if Fl.lt 0 x then x else 0

/-- The inner loop of the diffuse path (over `j`), from index `j` on: the value of
`transmission` when the loop ends, `break` included. -/
def shadowLoop (sf : Format) (i : Nat) (orig lightDirection : Vec3 Fl) :
    Nat → List (Sphere Fl) → Vec3 Fl → Vec3 Fl
  | _, [], transmission => transmission
  | j, s :: rest, transmission =>
    if i ≠ j then
      if (Sphere.intersect sf s orig lightDirection).isSome then Vec3.uniform 0
      else shadowLoop sf i orig lightDirection (j + 1) rest transmission
    else shadowLoop sf i orig lightDirection (j + 1) rest transmission

/-- The term added to `surfaceColor` for the light `li = spheres[i]` in the diffuse path. -/
def lightTerm (sf : Format) (spheres : List (Sphere Fl)) (sphere : Sphere Fl)
    (pointhit normalhit : Vec3 Fl) (bias : Fl) (i : Nat) (li : Sphere Fl) : Vec3 Fl :=
  let transmission : Vec3 Fl := Vec3.uniform 1
  let lightDirection := Vec3.normalize sf (Vec3.sub li.center pointhit)
  let transmission :=
    shadowLoop sf i (Vec3.add pointhit (Vec3.scale normalhit bias)) lightDirection 0 spheres
      transmission
  Vec3.mul
    (Vec3.scale (Vec3.mul sphere.surfaceColor transmission)
      (max0 (Vec3.dot normalhit lightDirection)))
    li.emissionColor

/-- The outer loop of the diffuse path (over `i`), from index `i` on. -/
def lightLoop (sf : Format) (spheres : List (Sphere Fl)) (sphere : Sphere Fl)
    (pointhit normalhit : Vec3 Fl) (bias : Fl) : Nat → List (Sphere Fl) → Vec3 Fl → Vec3 Fl
  | _, [], surfaceColor => surfaceColor
  | i, li :: rest, surfaceColor =>
    if Fl.gt li.emissionColor.x 0 then
      lightLoop sf spheres sphere pointhit normalhit bias (i + 1) rest
        (Vec3.add surfaceColor (lightTerm sf spheres sphere pointhit normalhit bias i li))
    else lightLoop sf spheres sphere pointhit normalhit bias (i + 1) rest surfaceColor

/-- Function `trace` over `float`, with the list of its invocations. -/
def traceAux (sf : Format) (spheres : List (Sphere Fl)) (rayorig raydir : Vec3 Fl)
    (depth : Int) : Vec3 Fl × List Call :=
  let near := findNearest sf spheres rayorig raydir
  match near.sphere with
  | none => (Vec3.uniform 2, [⟨depth, none⟩])
  | some (idx, sphere) =>
    let tnear := near.tnear
    let surfaceColor : Vec3 Fl := Vec3.uniform 0
    let pointhit := Vec3.add rayorig (Vec3.scale raydir tnear)
    let normalhit := Vec3.normalize sf (Vec3.sub pointhit sphere.center)
    let bias : Fl := toFloat (Fl.literal 1 4)
    let inside : Bool := Fl.gt (Vec3.dot raydir normalhit) 0
    let normalhit := if Fl.gt (Vec3.dot raydir normalhit) 0 then Vec3.neg normalhit else normalhit
    if h : (Fl.gt sphere.transparency 0 ∨ Fl.gt sphere.reflection 0) ∧
        depth < MAX_RAY_DEPTH then
      let facingratio := -(Vec3.dot raydir normalhit)
      let fresneleffect :=
        mix (toFloat (Fl.pow (1 - facingratio) 3)) 1 (toFloat (Fl.literal 1 2))
      let refldir :=
        Vec3.normalize sf
          (Vec3.sub raydir (Vec3.scale (Vec3.scale normalhit 2) (Vec3.dot raydir normalhit)))
      let reflection :=
        traceAux sf spheres (Vec3.add pointhit (Vec3.scale normalhit bias)) refldir (depth + 1)
      let refraction : Vec3 Fl × List Call :=
        if Fl.toBool sphere.transparency then
          let ior : Fl := toFloat (Fl.literal 11 1)
          let eta := if inside then ior else 1 / ior
          let cosi := -(Vec3.dot normalhit raydir)
          let k := 1 - eta * eta * (1 - cosi * cosi)
          let refrdir :=
            Vec3.normalize sf
              (Vec3.add (Vec3.scale raydir eta)
                (Vec3.scale normalhit (toFloat (Fl.sub sf (eta * cosi) (Fl.sqrt sf k)))))
          traceAux sf spheres (Vec3.sub pointhit (Vec3.scale normalhit bias)) refrdir
            (depth + 1)
        else (Vec3.uniform 0, [])
      let surfaceColor :=
        Vec3.mul
          (Vec3.add (Vec3.scale reflection.1 fresneleffect)
            (Vec3.scale (Vec3.scale refraction.1 (1 - fresneleffect)) sphere.transparency))
          sphere.surfaceColor
      (Vec3.add surfaceColor sphere.emissionColor,
        ⟨depth, some idx⟩ :: (reflection.2 ++ refraction.2))
    else
      let surfaceColor :=
        lightLoop sf spheres sphere pointhit normalhit bias 0 spheres surfaceColor
      (Vec3.add surfaceColor sphere.emissionColor, [⟨depth, some idx⟩])
termination_by (MAX_RAY_DEPTH - depth).toNat
decreasing_by
  all_goals simp only [MAX_RAY_DEPTH] at h ⊢
  all_goals omega

/-- Function `trace` over `float`: the colour returned. -/
def trace (sf : Format) (spheres : List (Sphere Fl)) (rayorig raydir : Vec3 Fl)
    (depth : Int) : Vec3 Fl :=
  (traceAux sf spheres rayorig raydir depth).1

/-- The invocations of `trace` over `float`, the outermost one included. -/
def traceCalls (sf : Format) (spheres : List (Sphere Fl)) (rayorig raydir : Vec3 Fl)
    (depth : Int) : List Call :=
  (traceAux sf spheres rayorig raydir depth).2

/-- The local `bias` of `trace`: the `double` literal `1e-4` stored in a `float`. -/
def bias : Fl := toFloat (Fl.literal 1 4)

/-- The local `pointhit` of `trace`. -/
def pointhit (rayorig raydir : Vec3 Fl) (tnear : Fl) : Vec3 Fl :=
  Vec3.add rayorig (Vec3.scale raydir tnear)

/-- The local `inside` of `trace`. -/
def inside (sf : Format) (rayorig raydir : Vec3 Fl) (tnear : Fl) (sphere : Sphere Fl) : Bool :=
  Fl.gt (Vec3.dot raydir
    (Vec3.normalize sf (Vec3.sub (pointhit rayorig raydir tnear) sphere.center))) 0

/-- The local `normalhit` of `trace`, after the orientation step of line 144. -/
def normalhit (sf : Format) (rayorig raydir : Vec3 Fl) (tnear : Fl) (sphere : Sphere Fl) :
    Vec3 Fl :=
  if Fl.gt (Vec3.dot raydir
      (Vec3.normalize sf (Vec3.sub (pointhit rayorig raydir tnear) sphere.center))) 0 then
    Vec3.neg (Vec3.normalize sf (Vec3.sub (pointhit rayorig raydir tnear) sphere.center))
  else Vec3.normalize sf (Vec3.sub (pointhit rayorig raydir tnear) sphere.center)

/-- The local `facingratio` of `trace`. -/
def facingratio (raydir normalhit : Vec3 Fl) : Fl := -(Vec3.dot raydir normalhit)

/-- The local `fresneleffect` of `trace`: `pow` returns a `double`, and the `double` literal
`.01` and that result are converted to `float` for the parameters of `mix`. -/
def fresneleffect (raydir normalhit : Vec3 Fl) : Fl :=
  mix (toFloat (Fl.pow (1 - facingratio raydir normalhit) 3)) 1 (toFloat (Fl.literal 1 2))

/-- The local `refldir` of `trace`, after its `normalize()`. -/
def refldir (sf : Format) (raydir normalhit : Vec3 Fl) : Vec3 Fl :=
  Vec3.normalize sf
    (Vec3.sub raydir (Vec3.scale (Vec3.scale normalhit 2) (Vec3.dot raydir normalhit)))

/-- The local `refrdir` of `trace`, after its `normalize()`.  With `sqrt(double)` the
difference `eta * cosi - sqrt(k)` is a `double`, converted to `float` for the operator `*`. -/
def refrdir (sf : Format) (raydir normalhit : Vec3 Fl) (inside : Bool) : Vec3 Fl :=
  let ior : Fl := toFloat (Fl.literal 11 1)
  let eta := if inside then ior else 1 / ior
  let cosi := -(Vec3.dot normalhit raydir)
  let k := 1 - eta * eta * (1 - cosi * cosi)
  Vec3.normalize sf
    (Vec3.add (Vec3.scale raydir eta)
      (Vec3.scale normalhit (toFloat (Fl.sub sf (eta * cosi) (Fl.sqrt sf k)))))

/-- The condition of line 145 of `trace`. -/
def specular (sphere : Sphere Fl) (depth : Int) : Prop :=
  (Fl.gt sphere.transparency 0 = true ∨ Fl.gt sphere.reflection 0 = true) ∧
    depth < MAX_RAY_DEPTH

/-- The local `k` of `trace`, from the flag `inside` and the local `cosi`; `ior` is the
`double` literal `1.1` stored in a `float`. -/
def refractionRadicand (inside : Bool) (cosi : Fl) : Fl :=
  let ior : Fl := toFloat (Fl.literal 11 1)
  let eta := if inside then ior else 1 / ior
  1 - eta * eta * (1 - cosi * cosi)

/-! ### Scenes used in the examples over `float` -/

/-- A white sphere with the given centre, radius and reflection, not transparent and not
emitting. -/
def ball (c : Vec3 Fl) (r refl : Fl) : Sphere Fl :=
  Sphere.new c r ⟨1, 1, 1⟩ refl 0 ⟨0, 0, 0⟩

/-- The direction `(0, -1, 0)`: straight down. -/
def down : Vec3 Fl := ⟨0, -1, 0⟩

/-- The `float` of value `2 ^ k`. -/
def twoPow (k : Int) : Fl := Fl.fin false 1 k

end Float32

/-! ## Theorems -/

namespace Vec3

@[simp]
theorem uniform_x {T : Type} (a : T) : (uniform a).x = a := rfl

@[simp]
theorem uniform_y {T : Type} (a : T) : (uniform a).y = a := rfl

@[simp]
theorem uniform_z {T : Type} (a : T) : (uniform a).z = a := rfl

variable {T : Type} [LinearOrderedField T]

@[simp]
theorem zero_x : (0 : Vec3 T).x = 0 := rfl
@[simp]
theorem zero_y : (0 : Vec3 T).y = 0 := rfl
@[simp]
theorem zero_z : (0 : Vec3 T).z = 0 := rfl
@[simp]
theorem add_x (u v : Vec3 T) : (u + v).x = u.x + v.x := rfl
@[simp]
theorem add_y (u v : Vec3 T) : (u + v).y = u.y + v.y := rfl
@[simp]
theorem add_z (u v : Vec3 T) : (u + v).z = u.z + v.z := rfl
@[simp]
theorem sub_x (u v : Vec3 T) : (u - v).x = u.x - v.x := rfl
@[simp]
theorem sub_y (u v : Vec3 T) : (u - v).y = u.y - v.y := rfl
@[simp]
theorem sub_z (u v : Vec3 T) : (u - v).z = u.z - v.z := rfl
@[simp]
theorem neg_x (v : Vec3 T) : (-v).x = -v.x := rfl
@[simp]
theorem neg_y (v : Vec3 T) : (-v).y = -v.y := rfl
@[simp]
theorem neg_z (v : Vec3 T) : (-v).z = -v.z := rfl
@[simp]
theorem mul_x (u v : Vec3 T) : (u * v).x = u.x * v.x := rfl
@[simp]
theorem mul_y (u v : Vec3 T) : (u * v).y = u.y * v.y := rfl
@[simp]
theorem mul_z (u v : Vec3 T) : (u * v).z = u.z * v.z := rfl
@[simp]
theorem scale_x (v : Vec3 T) (f : T) : (v * f).x = v.x * f := rfl
@[simp]
theorem scale_y (v : Vec3 T) (f : T) : (v * f).y = v.y * f := rfl
@[simp]
theorem scale_z (v : Vec3 T) (f : T) : (v * f).z = v.z * f := rfl


theorem normalize_of_pos (sqrt : T → T) (v : Vec3 T) (h : 0 < v.length2) :
    v.normalize sqrt = v * (1 / sqrt v.length2) := by
  simp only [normalize, gt_iff_lt, if_pos h]
  rfl

theorem normalize_of_not_pos (sqrt : T → T) (v : Vec3 T) (h : ¬ 0 < v.length2) :
    v.normalize sqrt = v := by
  simp only [normalize, gt_iff_lt, if_neg h]

end Vec3

namespace Sphere

variable {T : Type} [LinearOrderedField T]

/-- C2. `Sphere::intersect` is geometrically sound: for a sphere built by the constructor,
an origin `o` and a direction `d` of length 1, a reported hit `(t0, t1)` has `t0 ≤ t1`, and
the points `o + d * t0` and `o + d * t1` are at squared distance `radius * radius` from the
centre. -/
theorem intersect_sound (c : Vec3 ℝ) (r : ℝ) (sc : Vec3 ℝ) (refl transp : ℝ) (ec : Vec3 ℝ)
    (o d : Vec3 ℝ) (t0 t1 : ℝ) (hd : d.length Real.sqrt = 1)
    (hit : (Sphere.new c r sc refl transp ec).intersect Real.sqrt o d = some (t0, t1)) :
    t0 ≤ t1 ∧ ((o + d * t0) - c).length2 = r * r ∧ ((o + d * t1) - c).length2 = r * r := by
  have hd2 : d.x * d.x + d.y * d.y + d.z * d.z = 1 := by
    have := (Real.sqrt_eq_one).1 hd
    simpa [Vec3.length2] using this
  simp only [Sphere.intersect, Sphere.new] at hit
  split_ifs at hit with h1 h2
  simp only [Option.some.injEq, Prod.mk.injEq] at hit
  obtain ⟨rfl, rfl⟩ := hit
  have h3 := Real.sqrt_nonneg (r * r - ((c - o).dot (c - o) - (c - o).dot d * (c - o).dot d))
  have h4 := Real.mul_self_sqrt (sub_nonneg.2 (not_lt.1 h2))
  refine ⟨by linarith, ?_, ?_⟩
  · simp only [Vec3.length2, Vec3.dot, Vec3.add_x, Vec3.add_y, Vec3.add_z, Vec3.sub_x,
      Vec3.sub_y, Vec3.sub_z, Vec3.scale_x, Vec3.scale_y, Vec3.scale_z] at h4 ⊢
    generalize Real.sqrt _ = w at h4 ⊢
    linear_combination h4 +
      (((c.x - o.x) * d.x + (c.y - o.y) * d.y + (c.z - o.z) * d.z) - w) ^ 2 * hd2
  · simp only [Vec3.length2, Vec3.dot, Vec3.add_x, Vec3.add_y, Vec3.add_z, Vec3.sub_x,
      Vec3.sub_y, Vec3.sub_z, Vec3.scale_x, Vec3.scale_y, Vec3.scale_z] at h4 ⊢
    generalize Real.sqrt _ = w at h4 ⊢
    linear_combination h4 +
      (((c.x - o.x) * d.x + (c.y - o.y) * d.y + (c.z - o.z) * d.z) + w) ^ 2 * hd2


/-- C3 (as amended). Head-on intersection in exact real arithmetic: for a sphere with radius
`r ≥ 0` and an origin `o` at distance `dist > r` from the centre, the ray from `o` along the
normalized vector from `o` to the centre is a hit with `t0 = dist - r` and `t1 = dist + r`,
both positive. -/
theorem head_on_hit (c : Vec3 ℝ) (r : ℝ) (sc : Vec3 ℝ) (refl transp : ℝ) (ec : Vec3 ℝ)
    (o : Vec3 ℝ) (hr : 0 ≤ r) (hd : (c - o).length Real.sqrt > r) :
    (Sphere.new c r sc refl transp ec).intersect Real.sqrt o ((c - o).normalize Real.sqrt) =
        some ((c - o).length Real.sqrt - r, (c - o).length Real.sqrt + r) ∧
      0 < (c - o).length Real.sqrt - r ∧ 0 < (c - o).length Real.sqrt + r := by
  have hlen : 0 < (c - o).length Real.sqrt := lt_of_le_of_lt hr hd
  have hL2 : 0 < (c - o).length2 := Real.sqrt_pos.1 hlen
  have hsq : (c - o).length Real.sqrt * (c - o).length Real.sqrt = (c - o).length2 :=
    Real.mul_self_sqrt hL2.le
  have hnorm : (c - o).dot ((c - o).normalize Real.sqrt) = (c - o).length Real.sqrt := by
    have e : (c - o).dot ((c - o).normalize Real.sqrt)
        = (c - o).length2 * (1 / (c - o).length Real.sqrt) := by
      rw [Vec3.normalize_of_pos _ _ hL2]
      simp only [Vec3.dot, Vec3.length2, Vec3.length, Vec3.scale_x, Vec3.scale_y, Vec3.scale_z]
      ring
    rw [e, ← hsq]
    field_simp
  have hdd : (c - o).dot (c - o) = (c - o).length2 := rfl
  refine ⟨?_, by linarith, by linarith⟩
  simp only [Sphere.intersect, Sphere.new, hnorm, hdd, ← hsq, sub_self, sub_zero]
  rw [if_neg (not_lt.2 hlen.le), if_neg (not_lt.2 (mul_self_nonneg r)), Real.sqrt_mul_self hr]

/-- C4. Aimed-away rays miss: when the origin is outside the sphere and
`dot(center - origin, direction) < 0`, `intersect` reports no intersection. -/
theorem aimed_away_miss (sqrt : T → T) (s : Sphere T) (o d : Vec3 T)
    (_houtside : (s.center - o).length2 > s.radsquared)
    (haway : (s.center - o).dot d < 0) : s.intersect sqrt o d = none := by
  simp only [Sphere.intersect, if_pos haway]

end Sphere

section Tracer

variable {T : Type} [LinearOrderedField T]

theorem nearestStep_eq (sqrt : T → T) (o d : Vec3 T) (st : Nearest T) (i : Nat) (s : Sphere T) :
    nearestStep sqrt o d st i s =
      match effectiveDistance sqrt s o d with
      | some t => if (t : WithTop T) < st.tnear then ⟨t, some (i, s)⟩ else st
      | none => st := by
  unfold nearestStep effectiveDistance
  cases h : s.intersect sqrt o d with
  | none => rfl
  | some p =>
    obtain ⟨t0, t1⟩ := p
    by_cases h0 : t0 < 0
    · simp only [if_pos h0, if_neg (not_le.2 h0)]
    · simp only [if_neg h0, if_pos (not_lt.1 h0)]

theorem nearestLoop_spec (sqrt : T → T) (o d : Vec3 T) (rest : List (Sphere T)) :
    ∀ (i : Nat) (st : Nearest T),
      (nearestLoop sqrt o d i rest st = st ∧
        ∀ (j : Nat) (sj : Sphere T) (tj : T), rest[j]? = some sj →
          effectiveDistance sqrt sj o d = some tj → st.tnear ≤ (tj : WithTop T)) ∨
      (∃ (k : Nat) (s : Sphere T) (t : T), rest[k]? = some s ∧
        effectiveDistance sqrt s o d = some t ∧
        nearestLoop sqrt o d i rest st = ⟨(t : WithTop T), some (i + k, s)⟩ ∧
        (t : WithTop T) < st.tnear ∧
        ∀ (j : Nat) (sj : Sphere T) (tj : T), rest[j]? = some sj →
          effectiveDistance sqrt sj o d = some tj → t ≤ tj ∧ (j < k → t < tj)) := by
  induction rest with
  | nil =>
    intro i st
    left
    exact ⟨rfl, fun j sj tj hj => by simp at hj⟩
  | cons s rest ih =>
    intro i st
    have hstep := nearestStep_eq sqrt o d st i s
    simp only [nearestLoop]
    cases he : effectiveDistance sqrt s o d with
    | none =>
      rw [he] at hstep
      simp only at hstep
      rw [hstep]
      rcases ih (i + 1) st with ⟨hr, hall⟩ | ⟨k, s2, t2, hk, hes, hr, hlt, hall⟩
      · left
        refine ⟨hr, ?_⟩
        intro j sj tj hj hej
        cases j with
        | zero =>
          simp only [List.getElem?_cons_zero, Option.some.injEq] at hj
          subst hj
          rw [he] at hej
          cases hej
        | succ j =>
          simp only [List.getElem?_cons_succ] at hj
          exact hall j sj tj hj hej
      · right
        refine ⟨k + 1, s2, t2, by simpa using hk, hes, ?_, hlt, ?_⟩
        · rw [hr]
          congr 3
          omega
        · intro j sj tj hj hej
          cases j with
          | zero =>
            simp only [List.getElem?_cons_zero, Option.some.injEq] at hj
            subst hj
            rw [he] at hej
            cases hej
          | succ j =>
            simp only [List.getElem?_cons_succ] at hj
            obtain ⟨h1, h2⟩ := hall j sj tj hj hej
            exact ⟨h1, fun hjk => h2 (by omega)⟩
    | some t0 =>
      rw [he] at hstep
      simp only at hstep
      by_cases hlt0 : (t0 : WithTop T) < st.tnear
      · rw [if_pos hlt0] at hstep
        rw [hstep]
        rcases ih (i + 1) ⟨(t0 : WithTop T), some (i, s)⟩ with
          ⟨hr, hall⟩ | ⟨k, s2, t2, hk, hes, hr, hlt, hall⟩
        · right
          refine ⟨0, s, t0, by simp, he, by simpa using hr, hlt0, ?_⟩
          intro j sj tj hj hej
          cases j with
          | zero =>
            simp only [List.getElem?_cons_zero, Option.some.injEq] at hj
            subst hj
            rw [he] at hej
            cases hej
            exact ⟨le_refl _, fun h => absurd h (by omega)⟩
          | succ j =>
            simp only [List.getElem?_cons_succ] at hj
            exact ⟨WithTop.coe_le_coe.1 (hall j sj tj hj hej), fun h => absurd h (by omega)⟩
        · right
          have hlt2 : t2 < t0 := WithTop.coe_lt_coe.1 hlt
          refine ⟨k + 1, s2, t2, by simpa using hk, hes, ?_, lt_trans hlt hlt0, ?_⟩
          · rw [hr]
            congr 3
            omega
          · intro j sj tj hj hej
            cases j with
            | zero =>
              simp only [List.getElem?_cons_zero, Option.some.injEq] at hj
              subst hj
              rw [he] at hej
              cases hej
              exact ⟨hlt2.le, fun _ => hlt2⟩
            | succ j =>
              simp only [List.getElem?_cons_succ] at hj
              obtain ⟨h1, h2⟩ := hall j sj tj hj hej
              exact ⟨h1, fun hjk => h2 (by omega)⟩
      · rw [if_neg hlt0] at hstep
        rw [hstep]
        have hge : st.tnear ≤ (t0 : WithTop T) := not_lt.1 hlt0
        rcases ih (i + 1) st with ⟨hr, hall⟩ | ⟨k, s2, t2, hk, hes, hr, hlt, hall⟩
        · left
          refine ⟨hr, ?_⟩
          intro j sj tj hj hej
          cases j with
          | zero =>
            simp only [List.getElem?_cons_zero, Option.some.injEq] at hj
            subst hj
            rw [he] at hej
            cases hej
            exact hge
          | succ j =>
            simp only [List.getElem?_cons_succ] at hj
            exact hall j sj tj hj hej
        · right
          have hlt2 : t2 < t0 := WithTop.coe_lt_coe.1 (lt_of_lt_of_le hlt hge)
          refine ⟨k + 1, s2, t2, by simpa using hk, hes, ?_, hlt, ?_⟩
          · rw [hr]
            congr 3
            omega
          · intro j sj tj hj hej
            cases j with
            | zero =>
              simp only [List.getElem?_cons_zero, Option.some.injEq] at hj
              subst hj
              rw [he] at hej
              cases hej
              exact ⟨hlt2.le, fun _ => hlt2⟩
            | succ j =>
              simp only [List.getElem?_cons_succ] at hj
              obtain ⟨h1, h2⟩ := hall j sj tj hj hej
              exact ⟨h1, fun hjk => h2 (by omega)⟩

theorem traceAux_miss (sqrt : T → T) (spheres : List (Sphere T)) (o d : Vec3 T) (depth : Int)
    (h : (findNearest sqrt spheres o d).sphere = none) :
    traceAux sqrt spheres o d depth = (Vec3.uniform 2, [⟨depth, none⟩]) := by
  rw [traceAux]
  simp only [h]

theorem traceAux_specular (sqrt : T → T) (spheres : List (Sphere T)) (o d : Vec3 T)
    (depth : Int) (t : T) (i : Nat) (s : Sphere T)
    (h : findNearest sqrt spheres o d = ⟨(t : WithTop T), some (i, s)⟩)
    (hs : specular s depth) :
    traceAux sqrt spheres o d depth =
      (((traceAux sqrt spheres (pointhit o d t + normalhit sqrt o d t s * (bias : T))
              (refldir sqrt d (normalhit sqrt o d t s)) (depth + 1)).1 *
            fresneleffect d (normalhit sqrt o d t s) +
          (if s.transparency ≠ 0 then
              traceAux sqrt spheres (pointhit o d t - normalhit sqrt o d t s * (bias : T))
                (refrdir sqrt d (normalhit sqrt o d t s) (inside sqrt o d t s)) (depth + 1)
            else (Vec3.uniform 0, [])).1 *
            (1 - fresneleffect d (normalhit sqrt o d t s)) * s.transparency) * s.surfaceColor +
        s.emissionColor,
      (⟨depth, some i⟩ : Call) ::
        ((traceAux sqrt spheres (pointhit o d t + normalhit sqrt o d t s * (bias : T))
              (refldir sqrt d (normalhit sqrt o d t s)) (depth + 1)).2 ++
          (if s.transparency ≠ 0 then
              traceAux sqrt spheres (pointhit o d t - normalhit sqrt o d t s * (bias : T))
                (refrdir sqrt d (normalhit sqrt o d t s) (inside sqrt o d t s)) (depth + 1)
            else (Vec3.uniform 0, [])).2)) := by
  unfold specular at hs
  rw [traceAux]
  simp only [h, WithTop.untop'_coe]
  rw [dif_pos hs]
  rfl

theorem traceAux_diffuse (sqrt : T → T) (spheres : List (Sphere T)) (o d : Vec3 T)
    (depth : Int) (t : T) (i : Nat) (s : Sphere T)
    (h : findNearest sqrt spheres o d = ⟨(t : WithTop T), some (i, s)⟩)
    (hs : ¬ specular s depth) :
    traceAux sqrt spheres o d depth =
      (lightLoop sqrt spheres s (pointhit o d t) (normalhit sqrt o d t s) bias 0 spheres
          (Vec3.uniform 0) + s.emissionColor, [⟨depth, some i⟩]) := by
  unfold specular at hs
  rw [traceAux]
  simp only [h, WithTop.untop'_coe]
  rw [dif_neg hs]
  rfl

theorem effectiveDistance_eq_none (sqrt : T → T) (s : Sphere T) (o d : Vec3 T) :
    effectiveDistance sqrt s o d = none ↔ s.intersect sqrt o d = none := by
  unfold effectiveDistance
  cases h : s.intersect sqrt o d with
  | none => simp
  | some p => simp

theorem findNearest_cases (sqrt : T → T) (spheres : List (Sphere T)) (o d : Vec3 T) :
    (findNearest sqrt spheres o d = ⟨INFINITY, none⟩ ∧
        ∀ s ∈ spheres, s.intersect sqrt o d = none) ∨
      (∃ (i : Nat) (s : Sphere T) (t : T), spheres[i]? = some s ∧
        effectiveDistance sqrt s o d = some t ∧
        findNearest sqrt spheres o d = ⟨(t : WithTop T), some (i, s)⟩ ∧
        ∀ (j : Nat) (sj : Sphere T) (tj : T), spheres[j]? = some sj →
          effectiveDistance sqrt sj o d = some tj → t ≤ tj ∧ (j < i → t < tj)) := by
  rcases nearestLoop_spec sqrt o d spheres 0 ⟨INFINITY, none⟩ with
    ⟨hr, hall⟩ | ⟨k, s, t, hk, hes, hr, _, hall⟩
  · left
    refine ⟨hr, ?_⟩
    intro s hs
    rw [← effectiveDistance_eq_none]
    cases he : effectiveDistance sqrt s o d with
    | none => rfl
    | some t =>
      obtain ⟨j, hj⟩ := List.getElem?_of_mem hs
      have := hall j s t hj he
      simp [INFINITY] at this
  · right
    refine ⟨k, s, t, hk, hes, ?_, hall⟩
    rw [findNearest, hr, Nat.zero_add]

/-- C1 in the exact reading, where every distance is a number below `INFINITY`.
Nearest-hit search in `trace`.  With the effective distance of a hit sphere being `t0`
when `t0 ≥ 0` and `t1` when `t0 < 0`: if at least one sphere of the scene is reported hit,
the search loop ends with `sphere` pointing to a hit sphere `spheres[i]` and `tnear` equal to
its effective distance `t`; `t` is at most the effective distance of every hit sphere, every
hit sphere with a lower index is strictly farther (so `i` is the lowest index among the
spheres at distance `t`), and `spheres[i]` is the sphere this invocation of `trace` shades. -/
theorem nearest_hit (sqrt : T → T) (spheres : List (Sphere T)) (o d : Vec3 T) (depth : Int)
    (hhit : ∃ s ∈ spheres, (s.intersect sqrt o d).isSome) :
    ∃ (i : Nat) (s : Sphere T) (t : T), spheres[i]? = some s ∧
      effectiveDistance sqrt s o d = some t ∧
      (∀ (j : Nat) (sj : Sphere T) (tj : T), spheres[j]? = some sj →
        effectiveDistance sqrt sj o d = some tj → t ≤ tj ∧ (tj = t → i ≤ j)) ∧
      findNearest sqrt spheres o d = ⟨(t : WithTop T), some (i, s)⟩ ∧
      (traceCalls sqrt spheres o d depth).head? = some ⟨depth, some i⟩ := by
  rcases findNearest_cases sqrt spheres o d with ⟨_, hall⟩ | ⟨i, s, t, hi, hes, hr, hall⟩
  · obtain ⟨s, hs, hsome⟩ := hhit
    rw [hall s hs] at hsome
    cases hsome
  · refine ⟨i, s, t, hi, hes, ?_, hr, ?_⟩
    · intro j sj tj hj hej
      obtain ⟨h1, h2⟩ := hall j sj tj hj hej
      refine ⟨h1, fun heq => ?_⟩
      by_contra hlt
      exact absurd (h2 (not_le.1 hlt)) (by rw [heq]; exact lt_irrefl t)
    · unfold traceCalls
      by_cases hs : specular s depth
      · rw [traceAux_specular sqrt spheres o d depth t i s hr hs]
        rfl
      · rw [traceAux_diffuse sqrt spheres o d depth t i s hr hs]
        rfl

/-- C5. Miss returns the background: on the empty scene, and on any scene in which
`intersect` reports no hit for any sphere, `trace` returns the constant colour `Vec3f(2)`,
whose three components are equal and which is not black, and the only invocation of `trace`
is the outermost one (no recursive call). -/
theorem miss_background (sqrt : T → T) (o d : Vec3 T) (depth : Int) :
    (trace sqrt [] o d depth = Vec3.uniform 2 ∧
      traceCalls sqrt [] o d depth = [⟨depth, none⟩]) ∧
    (∀ spheres : List (Sphere T), (∀ s ∈ spheres, s.intersect sqrt o d = none) →
      trace sqrt spheres o d depth = Vec3.uniform 2 ∧
      traceCalls sqrt spheres o d depth = [⟨depth, none⟩]) ∧
    ((Vec3.uniform 2 : Vec3 T).x = (Vec3.uniform 2 : Vec3 T).y ∧
      (Vec3.uniform 2 : Vec3 T).y = (Vec3.uniform 2 : Vec3 T).z ∧
      (Vec3.uniform 2 : Vec3 T) ≠ Vec3.uniform 0) := by
  have key : ∀ spheres : List (Sphere T), (∀ s ∈ spheres, s.intersect sqrt o d = none) →
      traceAux sqrt spheres o d depth = (Vec3.uniform 2, [⟨depth, none⟩]) := by
    intro spheres hmiss
    apply traceAux_miss
    rcases findNearest_cases sqrt spheres o d with ⟨hr, _⟩ | ⟨i, s, t, hi, hes, _, _⟩
    · rw [hr]
    · have hs : s ∈ spheres := List.getElem?_mem hi
      have := (effectiveDistance_eq_none sqrt s o d).2 (hmiss s hs)
      rw [this] at hes
      cases hes
  refine ⟨?_, ?_, rfl, rfl, ?_⟩
  · have := key [] (fun s hs => absurd hs (List.not_mem_nil s))
    simp only [trace, traceCalls, this, and_self]
  · intro spheres hmiss
    simp only [trace, traceCalls, key spheres hmiss, and_self]
  · intro h
    have hx := congrArg Vec3.x h
    simp only [Vec3.uniform_x] at hx
    exact two_ne_zero hx

theorem traceAux_cases (sqrt : T → T) (spheres : List (Sphere T)) (o d : Vec3 T)
    (depth : Int) :
    traceAux sqrt spheres o d depth = (Vec3.uniform 2, [⟨depth, none⟩]) ∨
    (∃ (i : Nat) (s : Sphere T), spheres[i]? = some s ∧ ¬ specular s depth ∧
      (traceAux sqrt spheres o d depth).2 = [⟨depth, some i⟩]) ∨
    (∃ (t : T) (i : Nat) (s : Sphere T), spheres[i]? = some s ∧ specular s depth ∧
      (traceAux sqrt spheres o d depth).2 =
        (⟨depth, some i⟩ : Call) ::
          ((traceAux sqrt spheres (pointhit o d t + normalhit sqrt o d t s * (bias : T))
                (refldir sqrt d (normalhit sqrt o d t s)) (depth + 1)).2 ++
            (if s.transparency ≠ 0 then
                traceAux sqrt spheres (pointhit o d t - normalhit sqrt o d t s * (bias : T))
                  (refrdir sqrt d (normalhit sqrt o d t s) (inside sqrt o d t s)) (depth + 1)
              else (Vec3.uniform 0, [])).2)) := by
  rcases findNearest_cases sqrt spheres o d with ⟨hr, _⟩ | ⟨i, s, t, hi, _, hr, _⟩
  · left
    exact traceAux_miss sqrt spheres o d depth (by rw [hr])
  · right
    by_cases hs : specular s depth
    · right
      exact ⟨t, i, s, hi, hs, by rw [traceAux_specular sqrt spheres o d depth t i s hr hs]⟩
    · left
      exact ⟨i, s, hi, hs, by rw [traceAux_diffuse sqrt spheres o d depth t i s hr hs]⟩

theorem traceCalls_length_of_depth_ge (sqrt : T → T) (spheres : List (Sphere T))
    (o d : Vec3 T) (depth : Int) (h : MAX_RAY_DEPTH ≤ depth) :
    (traceAux sqrt spheres o d depth).2.length = 1 := by
  rcases traceAux_cases sqrt spheres o d depth with
    hm | ⟨i, s, _, _, hc⟩ | ⟨t, i, s, _, hs, _⟩
  · rw [hm]
    rfl
  · rw [hc]
    rfl
  · exact absurd hs.2 (not_lt.2 h)

theorem traceCalls_length_le (sqrt : T → T) (spheres : List (Sphere T)) (n : Nat) :
    ∀ (depth : Int) (o d : Vec3 T), MAX_RAY_DEPTH - depth ≤ n →
      (traceAux sqrt spheres o d depth).2.length + 1 ≤ 2 ^ (n + 1) := by
  induction n with
  | zero =>
    intro depth o d h
    rw [traceCalls_length_of_depth_ge sqrt spheres o d depth (by omega)]
    norm_num
  | succ n ih =>
    intro depth o d h
    rcases traceAux_cases sqrt spheres o d depth with
      hm | ⟨i, s, _, _, hc⟩ | ⟨t, i, s, _, _, hc⟩
    · rw [hm]
      simp only [List.length_singleton]
      have : 2 ^ 1 ≤ 2 ^ (n + 1 + 1) := Nat.pow_le_pow_right (by norm_num) (by omega)
      omega
    · rw [hc]
      simp only [List.length_singleton]
      have : 2 ^ 1 ≤ 2 ^ (n + 1 + 1) := Nat.pow_le_pow_right (by norm_num) (by omega)
      omega
    · rw [hc]
      have h1 := ih (depth + 1) (pointhit o d t + normalhit sqrt o d t s * (bias : T))
        (refldir sqrt d (normalhit sqrt o d t s)) (by push_cast at h ⊢; omega)
      have h2 := ih (depth + 1) (pointhit o d t - normalhit sqrt o d t s * (bias : T))
        (refrdir sqrt d (normalhit sqrt o d t s) (inside sqrt o d t s))
        (by push_cast at h ⊢; omega)
      have h3 : 2 ^ (n + 1 + 1) = 2 * 2 ^ (n + 1) := by ring
      simp only [List.length_cons, List.length_append]
      split_ifs
      · omega
      · simp only [List.length_nil]
        omega

theorem traceCalls_depth_range (sqrt : T → T) (spheres : List (Sphere T)) (n : Nat) :
    ∀ (depth : Int) (o d : Vec3 T), MAX_RAY_DEPTH - depth ≤ n →
      ∀ c ∈ (traceAux sqrt spheres o d depth).2,
        depth ≤ c.depth ∧ (c.depth ≤ MAX_RAY_DEPTH ∨ c.depth = depth) := by
  induction n with
  | zero =>
    intro depth o d h c hc
    rcases traceAux_cases sqrt spheres o d depth with
      hm | ⟨i, s, _, _, hc2⟩ | ⟨t, i, s, _, hs, _⟩
    · rw [hm] at hc
      simp only [List.mem_singleton] at hc
      subst hc
      exact ⟨le_refl _, Or.inr rfl⟩
    · rw [hc2] at hc
      simp only [List.mem_singleton] at hc
      subst hc
      exact ⟨le_refl _, Or.inr rfl⟩
    · exact absurd hs.2 (by omega)
  | succ n ih =>
    intro depth o d h c hc
    rcases traceAux_cases sqrt spheres o d depth with
      hm | ⟨i, s, _, _, hc2⟩ | ⟨t, i, s, _, hs, hc2⟩
    · rw [hm] at hc
      simp only [List.mem_singleton] at hc
      subst hc
      exact ⟨le_refl _, Or.inr rfl⟩
    · rw [hc2] at hc
      simp only [List.mem_singleton] at hc
      subst hc
      exact ⟨le_refl _, Or.inr rfl⟩
    · have hlt : depth < MAX_RAY_DEPTH := hs.2
      rw [hc2] at hc
      simp only [List.mem_cons, List.mem_append] at hc
      rcases hc with rfl | hc | hc
      · exact ⟨le_refl _, Or.inr rfl⟩
      · obtain ⟨h1, h2⟩ := ih (depth + 1) _ _ (by push_cast at h ⊢; omega) c hc
        exact ⟨by omega, Or.inl (by rcases h2 with h2 | h2 <;> omega)⟩
      · split_ifs at hc
        · obtain ⟨h1, h2⟩ := ih (depth + 1) _ _ (by push_cast at h ⊢; omega) c hc
          exact ⟨by omega, Or.inl (by rcases h2 with h2 | h2 <;> omega)⟩
        · simp at hc

theorem traceCalls_length_le_of_not_transparent (sqrt : T → T) (spheres : List (Sphere T))
    (n : Nat) :
    ∀ (depth : Int) (o d : Vec3 T), MAX_RAY_DEPTH - depth ≤ n →
      (∀ c ∈ (traceAux sqrt spheres o d depth).2, ∀ (i : Nat) (s : Sphere T),
        c.sphere = some i → spheres[i]? = some s → s.transparency = 0) →
      (traceAux sqrt spheres o d depth).2.length ≤ n + 1 := by
  induction n with
  | zero =>
    intro depth o d h _
    rw [traceCalls_length_of_depth_ge sqrt spheres o d depth (by omega)]
  | succ n ih =>
    intro depth o d h hnt
    rcases traceAux_cases sqrt spheres o d depth with
      hm | ⟨i, s, _, _, hc⟩ | ⟨t, i, s, hi, _, hc⟩
    · rw [hm]
      simp only [List.length_singleton]
      omega
    · rw [hc]
      simp only [List.length_singleton]
      omega
    · rw [hc] at hnt
      have h0 : s.transparency = 0 := hnt ⟨depth, some i⟩ (List.mem_cons_self _ _) i s rfl hi
      rw [hc]
      simp only [h0, ne_eq, not_true_eq_false, if_false, List.append_nil,
        List.length_cons] at hnt ⊢
      have h1 := ih (depth + 1) (pointhit o d t + normalhit sqrt o d t s * (bias : T))
        (refldir sqrt d (normalhit sqrt o d t s)) (by push_cast at h ⊢; omega)
        (fun c hc => hnt c (List.mem_cons_of_mem _ hc))
      omega

/-- C6, the part that holds.  `trace` is a total function (it is defined by recursion on
`MAX_RAY_DEPTH - depth`, so every call terminates); a call with `depth ≥ 5` makes no
recursive call (its only invocation is itself); a trace started at depth 0 only invokes
`trace` with depths in `0..5`, makes at most 63 invocations in total, and at most 6 when
every sphere hit by one of its invocations has transparency 0. -/
theorem recursion_bounded (sqrt : T → T) (spheres : List (Sphere T)) (o d : Vec3 T) :
    (∀ depth : Int, 5 ≤ depth → (traceCalls sqrt spheres o d depth).length = 1) ∧
    (∀ c ∈ traceCalls sqrt spheres o d 0, 0 ≤ c.depth ∧ c.depth ≤ 5) ∧
    (traceCalls sqrt spheres o d 0).length ≤ 63 ∧
    ((∀ c ∈ traceCalls sqrt spheres o d 0, ∀ (i : Nat) (s : Sphere T),
        c.sphere = some i → spheres[i]? = some s → s.transparency = 0) →
      (traceCalls sqrt spheres o d 0).length ≤ 6) := by
  refine ⟨?_, ?_, ?_, ?_⟩
  · intro depth h
    exact traceCalls_length_of_depth_ge sqrt spheres o d depth h
  · intro c hc
    obtain ⟨h1, h2⟩ := traceCalls_depth_range sqrt spheres 5 0 o d (by decide) c hc
    refine ⟨h1, ?_⟩
    rcases h2 with h2 | h2
    · exact h2
    · rw [h2]
      decide
  · have := traceCalls_length_le sqrt spheres 5 0 o d (by decide)
    unfold traceCalls
    omega
  · intro h
    exact traceCalls_length_le_of_not_transparent sqrt spheres 5 0 o d (by decide) h

theorem shadowLoop_clear (sqrt : T → T) (i : Nat) (orig dir : Vec3 T)
    (rest : List (Sphere T)) :
    ∀ (j : Nat) (tr : Vec3 T),
      (∀ (k : Nat) (sk : Sphere T), rest[k]? = some sk → i ≠ j + k →
        sk.intersect sqrt orig dir = none) →
      shadowLoop sqrt i orig dir j rest tr = tr := by
  induction rest with
  | nil =>
    intro j tr _
    rfl
  | cons s rest ih =>
    intro j tr h
    have hrest : shadowLoop sqrt i orig dir (j + 1) rest tr = tr :=
      ih (j + 1) tr (fun k sk hk hne =>
        h (k + 1) sk (by simpa using hk) (by omega))
    simp only [shadowLoop]
    by_cases hij : i = j
    · subst hij
      simp only [ne_eq, not_true_eq_false, if_false]
      exact hrest
    · have hn := h 0 s (by simp) (by simpa using hij)
      simp only [ne_eq, hij, not_false_eq_true, if_true, hn, Option.isSome_none,
        Bool.false_eq_true, if_false]
      exact hrest

theorem shadowLoop_occluded (sqrt : T → T) (i : Nat) (orig dir : Vec3 T)
    (rest : List (Sphere T)) :
    ∀ (j : Nat) (tr : Vec3 T),
      (∃ (k : Nat) (sk : Sphere T), rest[k]? = some sk ∧ i ≠ j + k ∧
        (sk.intersect sqrt orig dir).isSome) →
      shadowLoop sqrt i orig dir j rest tr = Vec3.uniform 0 := by
  induction rest with
  | nil =>
    intro j tr h
    obtain ⟨k, sk, hk, _⟩ := h
    simp at hk
  | cons s rest ih =>
    intro j tr h
    obtain ⟨k, sk, hk, hne, hsome⟩ := h
    simp only [shadowLoop]
    cases k with
    | zero =>
      simp only [List.getElem?_cons_zero, Option.some.injEq] at hk
      subst hk
      have hij : i ≠ j := by simpa using hne
      simp only [ne_eq, hij, not_false_eq_true, if_true, hsome]
    | succ k =>
      simp only [List.getElem?_cons_succ] at hk
      have hrest : shadowLoop sqrt i orig dir (j + 1) rest tr = Vec3.uniform 0 :=
        ih (j + 1) tr ⟨k, sk, hk, by omega, hsome⟩
      split_ifs
      · rfl
      · exact hrest
      · exact hrest

theorem lightLoop_eq_sum (sqrt : T → T) (spheres : List (Sphere T)) (sphere : Sphere T)
    (ph nh : Vec3 T) (b : T) (rest : List (Sphere T)) :
    ∀ (i : Nat) (acc : Vec3 T),
      lightLoop sqrt spheres sphere ph nh b i rest acc =
        acc + ((rest.enumFrom i).map (fun p =>
          if p.2.emissionColor.x > 0 then lightTerm sqrt spheres sphere ph nh b p.1 p.2
          else 0)).sum := by
  induction rest with
  | nil =>
    intro i acc
    simp [lightLoop]
  | cons li rest ih =>
    intro i acc
    simp only [lightLoop, List.enumFrom_cons, List.map_cons, List.sum_cons]
    split_ifs
    · rw [ih, add_assoc]
    · rw [ih, zero_add]

theorem sum_map_filter_of_zero {α : Type} (f : α → Vec3 T) (p : α → Bool) (l : List α)
    (h : ∀ x ∈ l, p x = false → f x = 0) :
    (l.map f).sum = ((l.filter p).map f).sum := by
  induction l with
  | nil => rfl
  | cons a l ih =>
    have ih2 := ih (fun x hx => h x (List.mem_cons_of_mem _ hx))
    cases hp : p a with
    | true =>
      rw [List.filter_cons_of_pos (by simpa using hp), List.map_cons, List.map_cons,
        List.sum_cons, List.sum_cons, ih2]
    | false =>
      rw [List.filter_cons_of_neg (by simp [hp]), List.map_cons, List.sum_cons,
        h a (List.mem_cons_self _ _) hp, zero_add, ih2]

theorem lightTerm_occluded (sqrt : T → T) (spheres : List (Sphere T)) (sphere : Sphere T)
    (ph nh : Vec3 T) (b : T) (L : Nat) (light : Sphere T)
    (hocc : ∃ (j : Nat) (sj : Sphere T), spheres[j]? = some sj ∧ j ≠ L ∧
      (sj.intersect sqrt (ph + nh * b) ((light.center - ph).normalize sqrt)).isSome) :
    lightTerm sqrt spheres sphere ph nh b L light = Vec3.uniform 0 := by
  obtain ⟨j, sj, hj, hne, hsome⟩ := hocc
  have hsh := shadowLoop_occluded sqrt L (ph + nh * b) ((light.center - ph).normalize sqrt)
    spheres 0 (Vec3.uniform 1) ⟨j, sj, hj, by omega, hsome⟩
  simp only [lightTerm, hsh]
  ext <;> simp

theorem lightTerm_clear (sqrt : T → T) (spheres : List (Sphere T)) (sphere : Sphere T)
    (ph nh : Vec3 T) (b : T) (L : Nat) (light : Sphere T)
    (hclear : ∀ (j : Nat) (sj : Sphere T), spheres[j]? = some sj → j ≠ L →
      sj.intersect sqrt (ph + nh * b) ((light.center - ph).normalize sqrt) = none) :
    lightTerm sqrt spheres sphere ph nh b L light =
      sphere.surfaceColor * max 0 (nh.dot ((light.center - ph).normalize sqrt)) *
        light.emissionColor := by
  have hsh := shadowLoop_clear sqrt L (ph + nh * b) ((light.center - ph).normalize sqrt)
    spheres 0 (Vec3.uniform 1) (fun k sk hk hne => hclear k sk hk (by omega))
  simp only [lightTerm, hsh]
  ext <;> simp

theorem lightLoop_no_light (sqrt : T → T) (spheres : List (Sphere T)) (sphere : Sphere T)
    (ph nh : Vec3 T) (b : T) (rest : List (Sphere T)) :
    ∀ (i : Nat) (acc : Vec3 T), (∀ sj ∈ rest, ¬ sj.emissionColor.x > 0) →
      lightLoop sqrt spheres sphere ph nh b i rest acc = acc := by
  induction rest with
  | nil =>
    intro i acc _
    rfl
  | cons li rest ih =>
    intro i acc h
    simp only [lightLoop, if_neg (h li (List.mem_cons_self _ _))]
    exact ih (i + 1) acc (fun sj hsj => h sj (List.mem_cons_of_mem _ hsj))

theorem lightLoop_one_light (sqrt : T → T) (spheres : List (Sphere T)) (sphere : Sphere T)
    (ph nh : Vec3 T) (b : T) (light : Sphere T) (hpos : light.emissionColor.x > 0)
    (rest : List (Sphere T)) :
    ∀ (i k : Nat) (acc : Vec3 T), rest[k]? = some light →
      (∀ (j : Nat) (sj : Sphere T), rest[j]? = some sj → sj.emissionColor.x > 0 → j = k) →
      lightLoop sqrt spheres sphere ph nh b i rest acc =
        acc + lightTerm sqrt spheres sphere ph nh b (i + k) light := by
  induction rest with
  | nil =>
    intro i k acc hk _
    simp at hk
  | cons li rest ih =>
    intro i k acc hk honly
    cases k with
    | zero =>
      simp only [List.getElem?_cons_zero, Option.some.injEq] at hk
      subst hk
      simp only [lightLoop, if_pos hpos, Nat.add_zero]
      apply lightLoop_no_light
      intro sj hsj hsjpos
      obtain ⟨j, hj⟩ := List.getElem?_of_mem hsj
      have := honly (j + 1) sj (by simpa using hj) hsjpos
      omega
    | succ k =>
      simp only [List.getElem?_cons_succ] at hk
      have hli : ¬ li.emissionColor.x > 0 := by
        intro hlipos
        have := honly 0 li (by simp) hlipos
        omega
      simp only [lightLoop, if_neg hli]
      rw [ih (i + 1) k acc hk (fun j sj hj hsjpos => by
        have := honly (j + 1) sj (by simpa using hj) hsjpos
        omega)]
      congr 2
      omega

/-- C7. Lambertian shading: when the ray hits a sphere `s` with reflection 0,
transparency 0 and zero emission, the scene has exactly one light (`spheres[L]`, the only
sphere whose emission has a positive first component), and the shadow ray from the biased hit
point towards that light is intersected by no sphere other than the light, `trace` returns
`surfaceColor * max(0, dot(normal, lightDir)) * lightEmission`, with `normal` the oriented
unit normal at the hit point and `lightDir` the normalized direction to the light's centre. -/
theorem lambertian (sqrt : T → T) (spheres : List (Sphere T)) (o d : Vec3 T) (depth : Int)
    (t : T) (i : Nat) (s : Sphere T) (L : Nat) (light : Sphere T)
    (hnear : findNearest sqrt spheres o d = ⟨(t : WithTop T), some (i, s)⟩)
    (hrefl : s.reflection = 0) (htransp : s.transparency = 0)
    (hem : s.emissionColor = Vec3.uniform 0)
    (hL : spheres[L]? = some light) (hpos : light.emissionColor.x > 0)
    (honly : ∀ (k : Nat) (sk : Sphere T), spheres[k]? = some sk →
      sk.emissionColor.x > 0 → k = L)
    (hclear : ∀ (j : Nat) (sj : Sphere T), spheres[j]? = some sj → j ≠ L →
      sj.intersect sqrt (pointhit o d t + normalhit sqrt o d t s * (bias : T))
        ((light.center - pointhit o d t).normalize sqrt) = none) :
    trace sqrt spheres o d depth =
      s.surfaceColor *
          max 0 ((normalhit sqrt o d t s).dot
            ((light.center - pointhit o d t).normalize sqrt)) *
        light.emissionColor := by
  have hdiff : ¬ specular s depth := by
    unfold specular
    rw [hrefl, htransp]
    simp
  unfold trace
  rw [traceAux_diffuse sqrt spheres o d depth t i s hnear hdiff]
  simp only
  rw [lightLoop_one_light sqrt spheres s _ _ _ light hpos spheres 0 L _ hL honly,
    Nat.zero_add, lightTerm_clear sqrt spheres s _ _ _ L light hclear, hem]
  ext <;> simp

/-- C8. Binary occlusion: on the diffuse path of `trace`, if the shadow ray of the light
`spheres[L]` (from the hit point plus `1e-4` times the normal, along the normalized direction
to the light's centre) is reported hit by some sphere of the scene other than `spheres[L]`,
at whatever distance, then the term of that light is the zero colour, and the colour returned
is the sum of the terms of the other lights plus the emission of the hit sphere. -/
theorem binary_occlusion (sqrt : T → T) (spheres : List (Sphere T)) (o d : Vec3 T)
    (depth : Int) (t : T) (i : Nat) (s : Sphere T) (L : Nat) (light : Sphere T)
    (hnear : findNearest sqrt spheres o d = ⟨(t : WithTop T), some (i, s)⟩)
    (hdiff : ¬ specular s depth)
    (hL : spheres[L]? = some light)
    (hocc : ∃ (j : Nat) (sj : Sphere T), spheres[j]? = some sj ∧ j ≠ L ∧
      (sj.intersect sqrt (pointhit o d t + normalhit sqrt o d t s * (bias : T))
        ((light.center - pointhit o d t).normalize sqrt)).isSome) :
    lightTerm sqrt spheres s (pointhit o d t) (normalhit sqrt o d t s) bias L light =
        Vec3.uniform 0 ∧
      trace sqrt spheres o d depth =
        ((spheres.enum.filter (fun p => decide (p.1 ≠ L))).map (fun p =>
          if p.2.emissionColor.x > 0 then
            lightTerm sqrt spheres s (pointhit o d t) (normalhit sqrt o d t s) bias p.1 p.2
          else 0)).sum + s.emissionColor := by
  have hterm := lightTerm_occluded sqrt spheres s (pointhit o d t) (normalhit sqrt o d t s)
    bias L light hocc
  refine ⟨hterm, ?_⟩
  unfold trace
  rw [traceAux_diffuse sqrt spheres o d depth t i s hnear hdiff]
  simp only
  rw [lightLoop_eq_sum, ← List.enum]
  rw [sum_map_filter_of_zero _ (fun p => decide (p.1 ≠ L)) spheres.enum]
  · congr 1
    exact zero_add _
  · intro p hp hpL
    have hpL2 : p.1 = L := by simpa using hpL
    have hp2 : spheres[p.1]? = some p.2 := List.mem_enum_iff_getElem?.1 hp
    rw [hpL2, hL] at hp2
    have hp3 : light = p.2 := Option.some.inj hp2
    rw [← hp3, hpL2, hterm]
    split_ifs <;> rfl

theorem intersect_congr (sqrt : T → T) (a b : Sphere T) (h : sameButMaterial a b)
    (o d : Vec3 T) : a.intersect sqrt o d = b.intersect sqrt o d := by
  obtain ⟨hc, _, hr, _, _⟩ := h
  simp only [Sphere.intersect, hc, hr]

theorem nearestStep_congr (sqrt : T → T) (o d : Vec3 T) (a b : Sphere T)
    (hab : sameButMaterial a b) (i : Nat) (st st2 : Nearest T) (ht : st.tnear = st2.tnear)
    (hs : (st.sphere = none ∧ st2.sphere = none) ∨
      ∃ (k : Nat) (a b : Sphere T), st.sphere = some (k, a) ∧ st2.sphere = some (k, b) ∧
        sameButMaterial a b) :
    (nearestStep sqrt o d st i a).tnear = (nearestStep sqrt o d st2 i b).tnear ∧
      (((nearestStep sqrt o d st i a).sphere = none ∧
          (nearestStep sqrt o d st2 i b).sphere = none) ∨
        ∃ (k : Nat) (x y : Sphere T), (nearestStep sqrt o d st i a).sphere = some (k, x) ∧
          (nearestStep sqrt o d st2 i b).sphere = some (k, y) ∧ sameButMaterial x y) := by
  have he : effectiveDistance sqrt a o d = effectiveDistance sqrt b o d := by
    simp only [effectiveDistance, intersect_congr sqrt a b hab o d]
  rw [nearestStep_eq, nearestStep_eq, he]
  cases effectiveDistance sqrt b o d with
  | none => exact ⟨ht, hs⟩
  | some e =>
    simp only [ht]
    by_cases hlt : (e : WithTop T) < st2.tnear
    · simp only [if_pos hlt]
      exact ⟨trivial, Or.inr ⟨i, a, b, rfl, rfl, hab⟩⟩
    · simp only [if_neg hlt]
      exact ⟨ht, hs⟩

theorem nearestLoop_congr (sqrt : T → T) (o d : Vec3 T) (rest rest2 : List (Sphere T))
    (h : List.Forall₂ sameButMaterial rest rest2) :
    ∀ (i : Nat) (st st2 : Nearest T), st.tnear = st2.tnear →
      ((st.sphere = none ∧ st2.sphere = none) ∨
        ∃ (k : Nat) (a b : Sphere T), st.sphere = some (k, a) ∧ st2.sphere = some (k, b) ∧
          sameButMaterial a b) →
      (nearestLoop sqrt o d i rest st).tnear = (nearestLoop sqrt o d i rest2 st2).tnear ∧
      (((nearestLoop sqrt o d i rest st).sphere = none ∧
          (nearestLoop sqrt o d i rest2 st2).sphere = none) ∨
        ∃ (k : Nat) (a b : Sphere T), (nearestLoop sqrt o d i rest st).sphere = some (k, a) ∧
          (nearestLoop sqrt o d i rest2 st2).sphere = some (k, b) ∧ sameButMaterial a b) := by
  induction h with
  | nil =>
    intro i st st2 ht hs
    exact ⟨ht, hs⟩
  | @cons a b l l2 hab _ ih =>
    intro i st st2 ht hs
    simp only [nearestLoop]
    obtain ⟨h1, h2⟩ := nearestStep_congr sqrt o d a b hab i st st2 ht hs
    exact ih (i + 1) _ _ h1 h2

theorem findNearest_congr (sqrt : T → T) (o d : Vec3 T) (spheres spheres2 : List (Sphere T))
    (h : List.Forall₂ sameButMaterial spheres spheres2) (t : T) (i : Nat) (s : Sphere T)
    (hnear : findNearest sqrt spheres o d = ⟨(t : WithTop T), some (i, s)⟩) :
    ∃ s2 : Sphere T, sameButMaterial s s2 ∧
      findNearest sqrt spheres2 o d = ⟨(t : WithTop T), some (i, s2)⟩ := by
  obtain ⟨ht, hs⟩ := nearestLoop_congr sqrt o d spheres spheres2 h 0 ⟨INFINITY, none⟩
    ⟨INFINITY, none⟩ rfl (Or.inl ⟨rfl, rfl⟩)
  unfold findNearest at hnear ⊢
  rw [hnear] at ht hs
  rcases hs with ⟨h1, _⟩ | ⟨k, a, b, h1, h2, hab⟩
  · cases h1
  · simp only [Option.some.injEq, Prod.mk.injEq] at h1
    obtain ⟨rfl, rfl⟩ := h1
    refine ⟨b, hab, ?_⟩
    cases hn : nearestLoop sqrt o d 0 spheres2 ⟨INFINITY, none⟩ with
    | mk tn sp =>
      rw [hn] at ht h2
      simp only at ht h2
      rw [← ht, h2]

theorem shadowLoop_congr (sqrt : T → T) (i : Nat) (orig dir : Vec3 T)
    (rest rest2 : List (Sphere T)) (h : List.Forall₂ sameButMaterial rest rest2) :
    ∀ (j : Nat) (tr : Vec3 T),
      shadowLoop sqrt i orig dir j rest tr = shadowLoop sqrt i orig dir j rest2 tr := by
  induction h with
  | nil =>
    intro j tr
    rfl
  | @cons a b l l2 hab _ ih =>
    intro j tr
    simp only [shadowLoop, intersect_congr sqrt a b hab orig dir, ih (j + 1) tr]

theorem lightLoop_congr (sqrt : T → T) (spheres spheres2 : List (Sphere T))
    (hsc : List.Forall₂ sameButMaterial spheres spheres2) (s s2 : Sphere T)
    (hs : sameButMaterial s s2) (ph nh : Vec3 T) (b : T) (rest rest2 : List (Sphere T))
    (h : List.Forall₂ sameButMaterial rest rest2) :
    ∀ (i : Nat) (acc : Vec3 T),
      lightLoop sqrt spheres s ph nh b i rest acc =
        lightLoop sqrt spheres2 s2 ph nh b i rest2 acc := by
  induction h with
  | nil =>
    intro i acc
    rfl
  | @cons li li2 l l2 hab _ ih =>
    intro i acc
    obtain ⟨hc, _, _, _, he⟩ := hab
    obtain ⟨_, _, _, hcol, _⟩ := hs
    simp only [lightLoop, lightTerm, hc, he, hcol,
      shadowLoop_congr sqrt i _ _ spheres spheres2 hsc 0 (Vec3.uniform 1), ih]

theorem traceAux_calls_ne_nil (sqrt : T → T) (spheres : List (Sphere T)) (o d : Vec3 T)
    (depth : Int) : 1 ≤ (traceAux sqrt spheres o d depth).2.length := by
  rcases traceAux_cases sqrt spheres o d depth with
    hm | ⟨i, s, _, _, hc⟩ | ⟨t, i, s, _, _, hc⟩
  · rw [hm]
    exact le_refl _
  · rw [hc]
    exact le_refl _
  · rw [hc]
    simp

theorem specular_iff (s : Sphere T) (depth : Int) :
    specular s depth ↔ ((s.reflection > 0 ∨ s.transparency > 0) ∧ depth < 5) := by
  unfold specular MAX_RAY_DEPTH
  rw [or_comm]

theorem trace_diffuse_congr (sqrt : T → T) (spheres spheres2 : List (Sphere T))
    (o d : Vec3 T) (depth : Int) (t : T) (i : Nat) (s : Sphere T)
    (hnear : findNearest sqrt spheres o d = ⟨(t : WithTop T), some (i, s)⟩)
    (hdiff : ¬ specular s depth)
    (h : List.Forall₂ sameButMaterial spheres spheres2)
    (hdiff2 : ∀ s2 : Sphere T, spheres2[i]? = some s2 → ¬ specular s2 depth) :
    trace sqrt spheres2 o d depth = trace sqrt spheres o d depth := by
  obtain ⟨s2, hs2, hnear2⟩ := findNearest_congr sqrt o d spheres spheres2 h t i s hnear
  have hi2 : spheres2[i]? = some s2 := by
    rcases findNearest_cases sqrt spheres2 o d with ⟨hr, _⟩ | ⟨k, x, u, hk, _, hr, _⟩
    · rw [hr] at hnear2
      simp [INFINITY] at hnear2
    · rw [hr] at hnear2
      simp only [Nearest.mk.injEq, Option.some.injEq, Prod.mk.injEq] at hnear2
      obtain ⟨_, rfl, rfl⟩ := hnear2
      exact hk
  have hn : normalhit sqrt o d t s2 = normalhit sqrt o d t s := by
    simp only [normalhit, hs2.1]
  unfold trace
  rw [traceAux_diffuse sqrt spheres o d depth t i s hnear hdiff,
    traceAux_diffuse sqrt spheres2 o d depth t i s2 hnear2 (hdiff2 s2 hi2)]
  simp only
  rw [hn, ← lightLoop_congr sqrt spheres spheres2 h s s2 hs2 _ _ _ spheres spheres2 h,
    hs2.2.2.2.2]

/-- C9. Branch selection in `trace`, for a ray whose nearest hit is `spheres[i] = s` at
distance `t`.  The reflection / refraction path, recognisable by its recursive invocation of
`trace`, is taken if and only if `(reflection > 0 or transparency > 0) and depth < 5`, and
then the colour is `(reflectionColor * fresnel + refractionColor * (1 - fresnel) *
transparency) * surfaceColor + emission`.  In every other case the colour is the diffuse
light sum plus the emission, no recursive invocation is made, and the colour is the same in
every scene that differs from this one only in material coefficients (as long as the hit
sphere stays outside the reflection / refraction path, which at `depth ≥ 5` always holds). -/
theorem branch_selection (sqrt : T → T) (spheres : List (Sphere T)) (o d : Vec3 T)
    (depth : Int) (t : T) (i : Nat) (s : Sphere T)
    (hnear : findNearest sqrt spheres o d = ⟨(t : WithTop T), some (i, s)⟩) :
    (2 ≤ (traceCalls sqrt spheres o d depth).length ↔
      ((s.reflection > 0 ∨ s.transparency > 0) ∧ depth < 5)) ∧
    (((s.reflection > 0 ∨ s.transparency > 0) ∧ depth < 5) →
      trace sqrt spheres o d depth =
        (trace sqrt spheres (pointhit o d t + normalhit sqrt o d t s * (bias : T))
              (refldir sqrt d (normalhit sqrt o d t s)) (depth + 1) *
            fresneleffect d (normalhit sqrt o d t s) +
          (if s.transparency ≠ 0 then
              trace sqrt spheres (pointhit o d t - normalhit sqrt o d t s * (bias : T))
                (refrdir sqrt d (normalhit sqrt o d t s) (inside sqrt o d t s)) (depth + 1)
            else Vec3.uniform 0) *
            (1 - fresneleffect d (normalhit sqrt o d t s)) * s.transparency) *
          s.surfaceColor + s.emissionColor) ∧
    (¬ ((s.reflection > 0 ∨ s.transparency > 0) ∧ depth < 5) →
      trace sqrt spheres o d depth =
          lightLoop sqrt spheres s (pointhit o d t) (normalhit sqrt o d t s) bias 0 spheres
            (Vec3.uniform 0) + s.emissionColor ∧
        traceCalls sqrt spheres o d depth = [⟨depth, some i⟩] ∧
        ∀ spheres2 : List (Sphere T), List.Forall₂ sameButMaterial spheres spheres2 →
          (∀ s2 : Sphere T, spheres2[i]? = some s2 →
            ¬ ((s2.reflection > 0 ∨ s2.transparency > 0) ∧ depth < 5)) →
          trace sqrt spheres2 o d depth = trace sqrt spheres o d depth) ∧
    (5 ≤ depth →
      ∀ spheres2 : List (Sphere T), List.Forall₂ sameButMaterial spheres spheres2 →
        trace sqrt spheres2 o d depth = trace sqrt spheres o d depth) := by
  refine ⟨?_, ?_, ?_, ?_⟩
  · rw [← specular_iff]
    unfold traceCalls
    constructor
    · intro hlen
      by_contra hdiff
      rw [traceAux_diffuse sqrt spheres o d depth t i s hnear hdiff] at hlen
      simp at hlen
    · intro hs
      rw [traceAux_specular sqrt spheres o d depth t i s hnear hs]
      have := traceAux_calls_ne_nil sqrt spheres
        (pointhit o d t + normalhit sqrt o d t s * (bias : T))
        (refldir sqrt d (normalhit sqrt o d t s)) (depth + 1)
      simp only [List.length_cons, List.length_append]
      omega
  · intro hs
    rw [← specular_iff] at hs
    unfold trace
    rw [traceAux_specular sqrt spheres o d depth t i s hnear hs]
    split_ifs <;> rfl
  · intro hdiff
    rw [← specular_iff] at hdiff
    refine ⟨?_, ?_, ?_⟩
    · unfold trace
      rw [traceAux_diffuse sqrt spheres o d depth t i s hnear hdiff]
    · unfold traceCalls
      rw [traceAux_diffuse sqrt spheres o d depth t i s hnear hdiff]
    · intro spheres2 h hdiff2
      exact trace_diffuse_congr sqrt spheres spheres2 o d depth t i s hnear hdiff h
        (fun s2 hs2 => by rw [specular_iff]; exact hdiff2 s2 hs2)
  · intro hdepth spheres2 h
    have hno : ∀ x : Sphere T, ¬ specular x depth := fun x hx =>
      absurd hx.2 (not_lt.2 hdepth)
    exact trace_diffuse_congr sqrt spheres spheres2 o d depth t i s hnear (hno s) h
      (fun s2 _ => hno s2)

/-- The part of C10 that holds: for a hit at `depth < 5` on a sphere with `reflection > 0` and
transparency exactly 0, `trace` makes no invocation for a refraction ray and returns
`reflectionColor * fresnel * surfaceColor + emission`. -/
theorem reflection_only (sqrt : T → T) (spheres : List (Sphere T)) (o d : Vec3 T)
    (depth : Int) (t : T) (i : Nat) (s : Sphere T)
    (hnear : findNearest sqrt spheres o d = ⟨(t : WithTop T), some (i, s)⟩)
    (hrefl : s.reflection > 0) (htransp : s.transparency = 0) (hdepth : depth < 5) :
    trace sqrt spheres o d depth =
        trace sqrt spheres (pointhit o d t + normalhit sqrt o d t s * (bias : T))
            (refldir sqrt d (normalhit sqrt o d t s)) (depth + 1) *
          fresneleffect d (normalhit sqrt o d t s) * s.surfaceColor + s.emissionColor ∧
      traceCalls sqrt spheres o d depth =
        ⟨depth, some i⟩ ::
          traceCalls sqrt spheres (pointhit o d t + normalhit sqrt o d t s * (bias : T))
            (refldir sqrt d (normalhit sqrt o d t s)) (depth + 1) := by
  have hs : specular s depth := ⟨Or.inr hrefl, hdepth⟩
  unfold trace traceCalls
  rw [traceAux_specular sqrt spheres o d depth t i s hnear hs]
  simp only [htransp, ne_eq, not_true_eq_false, if_false, List.append_nil, and_true]
  ext <;> simp

end Tracer

/-! ### The example scenes, evaluated over the reals -/

section Examples

theorem normalize_up (y : ℝ) (hy : 0 < y) :
    (⟨0, y, 0⟩ : Vec3 ℝ).normalize Real.sqrt = ⟨0, 1, 0⟩ := by
  have h2 : (0 : ℝ) < y * y := mul_pos hy hy
  simp only [Vec3.normalize, Vec3.length2, mul_zero, zero_add, add_zero, gt_iff_lt, if_pos h2,
    Real.sqrt_mul_self hy.le, zero_mul]
  rw [mul_one_div_cancel hy.ne.symm]

theorem normalize_down (y : ℝ) (hy : 0 < y) :
    (⟨0, -y, 0⟩ : Vec3 ℝ).normalize Real.sqrt = ⟨0, -1, 0⟩ := by
  have h2 : (0 : ℝ) < y * y := mul_pos hy hy
  have h3 : -y * -y = y * y := by ring
  simp only [Vec3.normalize, Vec3.length2, mul_zero, zero_add, add_zero, gt_iff_lt, h3,
    if_pos h2, Real.sqrt_mul_self hy.le, zero_mul]
  rw [neg_mul, mul_one_div_cancel hy.ne.symm]

theorem intersect_from_above (sc ec : Vec3 ℝ) (refl transp : ℝ) (y : ℝ) (hy : 0 ≤ y) :
    (Sphere.new ⟨0, 0, 0⟩ 1 sc refl transp ec).intersect Real.sqrt ⟨0, y, 0⟩ rayDown =
      some (y - 1, y + 1) := by
  have hy0 : ¬ (y < 0) := not_lt.2 hy
  simp [Sphere.intersect, Sphere.new, Vec3.dot, rayDown, hy0]

theorem intersect_below_ray_up (c sc ec : Vec3 ℝ) (refl transp r : ℝ) (y : ℝ)
    (hc : c.x = 0 ∧ c.y < y ∧ c.z = 0) :
    (Sphere.new c r sc refl transp ec).intersect Real.sqrt ⟨0, y, 0⟩ ⟨0, 1, 0⟩ = none := by
  obtain ⟨h1, h2, h3⟩ := hc
  have : (c.x - 0) * 0 + (c.y - y) * 1 + (c.z - 0) * 0 < 0 := by
    rw [h1, h3]
    linarith
  simp only [Sphere.intersect, Sphere.new, Vec3.dot, Vec3.sub_x, Vec3.sub_y, Vec3.sub_z,
    if_pos this]

theorem intersect_above_ray_down (c sc ec : Vec3 ℝ) (refl transp r : ℝ) (y : ℝ)
    (hc : c.x = 0 ∧ y < c.y ∧ c.z = 0) :
    (Sphere.new c r sc refl transp ec).intersect Real.sqrt ⟨0, y, 0⟩ rayDown = none := by
  obtain ⟨h1, h2, h3⟩ := hc
  have : (c.x - 0) * 0 + (c.y - y) * (-1) + (c.z - 0) * 0 < 0 := by
    rw [h1, h3]
    linarith
  simp only [Sphere.intersect, Sphere.new, Vec3.dot, Vec3.sub_x, Vec3.sub_y, Vec3.sub_z,
    rayDown, if_pos this]

theorem pointhit_top : pointhit (rayFrom : Vec3 ℝ) rayDown 4 = ⟨0, 1, 0⟩ := by
  ext <;> norm_num [pointhit, rayFrom, rayDown]

theorem normalhit_top (s : Sphere ℝ) (hs : s.center = ⟨0, 0, 0⟩) :
    normalhit Real.sqrt rayFrom rayDown 4 s = ⟨0, 1, 0⟩ := by
  have h1 : pointhit (rayFrom : Vec3 ℝ) rayDown 4 - s.center = ⟨0, 1, 0⟩ := by
    rw [pointhit_top, hs]
    ext <;> norm_num
  simp only [normalhit, h1, normalize_up 1 one_pos]
  norm_num [rayDown, Vec3.dot]

theorem inside_top (s : Sphere ℝ) (hs : s.center = ⟨0, 0, 0⟩) :
    inside Real.sqrt rayFrom rayDown 4 s = false := by
  have h1 : pointhit (rayFrom : Vec3 ℝ) rayDown 4 - s.center = ⟨0, 1, 0⟩ := by
    rw [pointhit_top, hs]
    ext <;> norm_num
  simp only [inside, h1, normalize_up 1 one_pos]
  norm_num [rayDown, Vec3.dot]

theorem shadow_origin_top :
    (⟨0, 1, 0⟩ : Vec3 ℝ) + (⟨0, 1, 0⟩ : Vec3 ℝ) * (bias : ℝ) = ⟨0, 1 + 1e-4, 0⟩ := by
  ext <;> norm_num [bias]

theorem lightDirection_top :
    ((lightAbove : Sphere ℝ).center - ⟨0, 1, 0⟩).normalize Real.sqrt = ⟨0, 1, 0⟩ := by
  have h : (lightAbove : Sphere ℝ).center - ⟨0, 1, 0⟩ = ⟨0, 9, 0⟩ := by
    ext <;> norm_num [lightAbove, Sphere.new]
  rw [h, normalize_up 9 (by norm_num)]

theorem findNearest_single (s : Sphere ℝ) (t0 t1 : ℝ) (o d : Vec3 ℝ)
    (h : s.intersect Real.sqrt o d = some (t0, t1)) (h0 : 0 ≤ t0) :
    findNearest Real.sqrt [s] o d = ⟨(t0 : WithTop ℝ), some (0, s)⟩ := by
  simp [findNearest, nearestLoop, nearestStep, h, INFINITY, not_lt.2 h0]

theorem intersect_unitSphere_top :
    (unitSphere : Sphere ℝ).intersect Real.sqrt rayFrom rayDown = some (4, 6) := by
  have h := intersect_from_above ⟨1, 1, 1⟩ (Vec3.uniform 0) 0 0 5 (by norm_num)
  norm_num at h
  exact h

theorem intersect_lightAbove_top :
    (lightAbove : Sphere ℝ).intersect Real.sqrt rayFrom rayDown = none :=
  intersect_above_ray_down ⟨0, 10, 0⟩ (Vec3.uniform 0) (Vec3.uniform 3) 0 0 1 5
    ⟨rfl, by norm_num, rfl⟩

theorem intersect_farSphere_top :
    (farSphere : Sphere ℝ).intersect Real.sqrt rayFrom rayDown = none :=
  intersect_above_ray_down ⟨0, 20, 0⟩ ⟨1, 1, 1⟩ (Vec3.uniform 0) 0 0 1 5
    ⟨rfl, by norm_num, rfl⟩

theorem findNearest_lit :
    findNearest Real.sqrt [unitSphere, lightAbove] rayFrom rayDown =
      ⟨((4 : ℝ) : WithTop ℝ), some (0, unitSphere)⟩ := by
  simp [findNearest, nearestLoop, nearestStep, intersect_unitSphere_top,
    intersect_lightAbove_top, INFINITY]

theorem findNearest_shadowed :
    findNearest Real.sqrt [unitSphere, lightAbove, farSphere] rayFrom rayDown =
      ⟨((4 : ℝ) : WithTop ℝ), some (0, unitSphere)⟩ := by
  simp [findNearest, nearestLoop, nearestStep, intersect_unitSphere_top,
    intersect_lightAbove_top, intersect_farSphere_top, INFINITY]

theorem findNearest_twins :
    findNearest Real.sqrt [unitSphere, unitSphere] rayFrom rayDown =
      ⟨((4 : ℝ) : WithTop ℝ), some (0, unitSphere)⟩ := by
  simp [findNearest, nearestLoop, nearestStep, intersect_unitSphere_top, INFINITY]

theorem toCentre_from_above (s : Sphere ℝ) (hs : s.center = ⟨0, 0, 0⟩) :
    (s.center - rayFrom).length Real.sqrt = 5 ∧
      (s.center - rayFrom).normalize Real.sqrt = rayDown := by
  have h : s.center - (rayFrom : Vec3 ℝ) = ⟨0, -5, 0⟩ := by
    rw [hs]
    ext <;> norm_num [rayFrom]
  rw [h, normalize_down 5 (by norm_num)]
  refine ⟨?_, rfl⟩
  have h25 : (0 : ℝ) * 0 + -5 * -5 + 0 * 0 = 5 * 5 := by norm_num
  simp only [Vec3.length, Vec3.length2, h25]
  exact Real.sqrt_mul_self (by norm_num)

/-- C2 (witness). Unit sphere at the origin, ray from `(0, 5, 0)` straight down:
the hit is `(4, 6)`, and the two points `(0, 1, 0)` and `(0, -1, 0)` are on the sphere. -/
theorem intersect_sound_witness :
    (unitSphere : Sphere ℝ).intersect Real.sqrt rayFrom rayDown = some (4, 6) ∧
      ((4 : ℝ) ≤ 6 ∧
        (((rayFrom : Vec3 ℝ) + (rayDown : Vec3 ℝ) * (4 : ℝ)) -
            (⟨0, 0, 0⟩ : Vec3 ℝ)).length2 = 1 * 1 ∧
        (((rayFrom : Vec3 ℝ) + (rayDown : Vec3 ℝ) * (6 : ℝ)) -
            (⟨0, 0, 0⟩ : Vec3 ℝ)).length2 = 1 * 1) :=
  ⟨intersect_unitSphere_top,
    Sphere.intersect_sound (⟨0, 0, 0⟩ : Vec3 ℝ) 1 ⟨1, 1, 1⟩ 0 0 (Vec3.uniform 0) rayFrom rayDown
      4 6 (by norm_num [Vec3.length, Vec3.length2, rayDown]) intersect_unitSphere_top⟩

/-- C3 (witness). Unit sphere at the origin seen from `(0, 5, 0)`, at distance 5. -/
theorem head_on_hit_witness :
    ((unitSphere : Sphere ℝ).center - rayFrom).length Real.sqrt = 5 ∧
      ((unitSphere : Sphere ℝ).intersect Real.sqrt rayFrom
          (((unitSphere : Sphere ℝ).center - rayFrom).normalize Real.sqrt) =
        some (((unitSphere : Sphere ℝ).center - rayFrom).length Real.sqrt - 1,
          ((unitSphere : Sphere ℝ).center - rayFrom).length Real.sqrt + 1) ∧
        0 < ((unitSphere : Sphere ℝ).center - rayFrom).length Real.sqrt - 1 ∧
        0 < ((unitSphere : Sphere ℝ).center - rayFrom).length Real.sqrt + 1) :=
  ⟨(toCentre_from_above unitSphere rfl).1,
    Sphere.head_on_hit (⟨0, 0, 0⟩ : Vec3 ℝ) 1 ⟨1, 1, 1⟩ 0 0 (Vec3.uniform 0) rayFrom
      (by norm_num)
      (by
        have h := (toCentre_from_above unitSphere rfl).1
        rw [show (unitSphere : Sphere ℝ).center = ⟨0, 0, 0⟩ from rfl] at h
        rw [h]
        norm_num)⟩

/-- C3, the counterexample in exact arithmetic. Sphere of radius `-1` centred at the origin,
ray origin `(0, 5, 0)` at distance `5 > -1`, aimed at the centre: `intersect` reports `(t0, t1) = (4, 6)`, which is
not `(dist - radius, dist + radius) = (6, 4)`. -/
theorem head_on_negative_radius :
    ((negativeRadiusSphere : Sphere ℝ).center - rayFrom).length Real.sqrt >
        (negativeRadiusSphere : Sphere ℝ).radius ∧
      (negativeRadiusSphere : Sphere ℝ).intersect Real.sqrt rayFrom
          (((negativeRadiusSphere : Sphere ℝ).center - rayFrom).normalize Real.sqrt) =
        some (4, 6) ∧
      (negativeRadiusSphere : Sphere ℝ).intersect Real.sqrt rayFrom
          (((negativeRadiusSphere : Sphere ℝ).center - rayFrom).normalize Real.sqrt) ≠
        some (((negativeRadiusSphere : Sphere ℝ).center - rayFrom).length Real.sqrt -
            (negativeRadiusSphere : Sphere ℝ).radius,
          ((negativeRadiusSphere : Sphere ℝ).center - rayFrom).length Real.sqrt +
            (negativeRadiusSphere : Sphere ℝ).radius) := by
  obtain ⟨hl, hn⟩ := toCentre_from_above negativeRadiusSphere rfl
  have hr : (negativeRadiusSphere : Sphere ℝ).radius = -1 := rfl
  have hi : (negativeRadiusSphere : Sphere ℝ).intersect Real.sqrt rayFrom rayDown =
      some (4, 6) := by
    norm_num [Sphere.intersect, negativeRadiusSphere, Sphere.new, Vec3.dot, rayFrom, rayDown]
  rw [hl, hn, hr, hi]
  refine ⟨by norm_num, rfl, ?_⟩
  norm_num

/-- C4 (witness). Unit sphere at the origin, ray from `(0, 5, 0)` straight up. -/
theorem aimed_away_miss_witness :
    (unitSphere : Sphere ℝ).intersect Real.sqrt rayFrom rayUp = none :=
  Sphere.aimed_away_miss Real.sqrt unitSphere rayFrom rayUp
    (by norm_num [unitSphere, Sphere.new, Vec3.length2, rayFrom])
    (by norm_num [unitSphere, Sphere.new, Vec3.dot, rayFrom, rayUp])

theorem shadow_ray_unitSphere :
    (unitSphere : Sphere ℝ).intersect Real.sqrt
      (pointhit rayFrom rayDown 4 + normalhit Real.sqrt rayFrom rayDown 4 unitSphere *
        (bias : ℝ))
      (((lightAbove : Sphere ℝ).center - pointhit rayFrom rayDown 4).normalize Real.sqrt) =
        none := by
  rw [pointhit_top, normalhit_top unitSphere rfl, shadow_origin_top, lightDirection_top]
  exact intersect_below_ray_up ⟨0, 0, 0⟩ ⟨1, 1, 1⟩ (Vec3.uniform 0) 0 0 1 _
    ⟨rfl, by norm_num, rfl⟩

theorem shadow_ray_farSphere :
    ((farSphere : Sphere ℝ).intersect Real.sqrt
      (pointhit rayFrom rayDown 4 + normalhit Real.sqrt rayFrom rayDown 4 unitSphere *
        (bias : ℝ))
      (((lightAbove : Sphere ℝ).center - pointhit rayFrom rayDown 4).normalize
        Real.sqrt)).isSome := by
  rw [pointhit_top, normalhit_top unitSphere rfl, shadow_origin_top, lightDirection_top]
  norm_num [Sphere.intersect, farSphere, Sphere.new, Vec3.dot]

/-- C1 in the exact reading, at two coincident unit spheres, both hit at distance 4 by the
ray from `(0, 5, 0)` straight down: the search returns index 0. -/
theorem nearest_hit_witness :
    ∃ (i : Nat) (s : Sphere ℝ) (t : ℝ),
      ([unitSphere, unitSphere] : List (Sphere ℝ))[i]? = some s ∧
      effectiveDistance Real.sqrt s rayFrom rayDown = some t ∧
      (∀ (j : Nat) (sj : Sphere ℝ) (tj : ℝ),
        ([unitSphere, unitSphere] : List (Sphere ℝ))[j]? = some sj →
        effectiveDistance Real.sqrt sj rayFrom rayDown = some tj → t ≤ tj ∧ (tj = t → i ≤ j)) ∧
      findNearest Real.sqrt [unitSphere, unitSphere] rayFrom rayDown =
        ⟨(t : WithTop ℝ), some (i, s)⟩ ∧
      (traceCalls Real.sqrt [unitSphere, unitSphere] rayFrom rayDown 0).head? =
        some ⟨0, some i⟩ :=
  nearest_hit Real.sqrt [unitSphere, unitSphere] rayFrom rayDown 0
    ⟨unitSphere, List.mem_cons_self _ _, by rw [intersect_unitSphere_top]; rfl⟩

/-- C5 (witness). The ray from `(0, 5, 0)` straight down misses the light above it. -/
theorem miss_background_witness :
    trace Real.sqrt [lightAbove] rayFrom rayDown 0 = Vec3.uniform 2 ∧
      traceCalls Real.sqrt [lightAbove] rayFrom rayDown 0 = [⟨0, none⟩] :=
  (miss_background Real.sqrt rayFrom rayDown 0).2.1 [lightAbove] (fun s hs => by
    rw [List.mem_singleton.1 hs]
    exact intersect_lightAbove_top)

/-- C6, the part that holds, at the mirror scene, two mirrors facing each other: no sphere
has a non-zero transparency, so there are at most 6 invocations. -/
theorem recursion_bounded_witness :
    (traceCalls Real.sqrt [mirrorSphere, mirrorAbove] rayFrom rayDown 0).length ≤ 6 :=
  (recursion_bounded Real.sqrt [mirrorSphere, mirrorAbove] rayFrom rayDown).2.2.2
    (fun _ _ i s _ hi => by
      have hs : s ∈ [(mirrorSphere : Sphere ℝ), mirrorAbove] := List.getElem?_mem hi
      simp only [List.mem_cons, List.mem_singleton, List.not_mem_nil, or_false] at hs
      rcases hs with rfl | rfl <;> rfl)

/-- C7 (witness). Unit sphere at the origin, light directly above, ray hitting the top of the
sphere: the cosine is 1 and the colour is `surfaceColor * lightEmission`. -/
theorem lambertian_witness :
    (normalhit Real.sqrt rayFrom rayDown 4 unitSphere).dot
        (((lightAbove : Sphere ℝ).center - pointhit rayFrom rayDown 4).normalize Real.sqrt) =
          1 ∧
      trace Real.sqrt [unitSphere, lightAbove] rayFrom rayDown 0 =
        (unitSphere : Sphere ℝ).surfaceColor * (lightAbove : Sphere ℝ).emissionColor := by
  have hcos : (normalhit Real.sqrt rayFrom rayDown 4 unitSphere).dot
      (((lightAbove : Sphere ℝ).center - pointhit rayFrom rayDown 4).normalize Real.sqrt) =
        1 := by
    rw [pointhit_top, normalhit_top unitSphere rfl, lightDirection_top]
    norm_num [Vec3.dot]
  refine ⟨hcos, ?_⟩
  rw [lambertian Real.sqrt [unitSphere, lightAbove] rayFrom rayDown 0 4 0 unitSphere 1
    lightAbove findNearest_lit rfl rfl rfl rfl (by norm_num [lightAbove, Sphere.new])
    (fun k sk hk hpos => by
      match k, hk with
      | 0, hk =>
        simp only [List.getElem?_cons_zero, Option.some.injEq] at hk
        rw [← hk] at hpos
        norm_num [unitSphere, Sphere.new] at hpos
      | 1, _ => rfl
      | k + 2, hk => simp at hk)
    (fun j sj hj hne => by
      match j, hj, hne with
      | 0, hj, _ =>
        simp only [List.getElem?_cons_zero, Option.some.injEq] at hj
        rw [← hj]
        exact shadow_ray_unitSphere
      | 1, _, hne => exact absurd rfl hne
      | j + 2, hj, _ => simp at hj), hcos]
  ext <;> simp

/-- C8 (witness). The unit sphere lit from above, with a further sphere beyond the light on
the line of the shadow ray: the light is occluded and the colour returned is black. -/
theorem binary_occlusion_witness :
    lightTerm Real.sqrt [unitSphere, lightAbove, farSphere] unitSphere
        (pointhit rayFrom rayDown 4) (normalhit Real.sqrt rayFrom rayDown 4 unitSphere) bias 1
        lightAbove = Vec3.uniform 0 ∧
      trace Real.sqrt [unitSphere, lightAbove, farSphere] rayFrom rayDown 0 =
        Vec3.uniform 0 := by
  have h := binary_occlusion Real.sqrt [unitSphere, lightAbove, farSphere] rayFrom rayDown 0 4
    0 unitSphere 1 lightAbove findNearest_shadowed
    (by norm_num [specular, unitSphere, Sphere.new]) rfl
    ⟨2, farSphere, rfl, by decide, shadow_ray_farSphere⟩
  refine ⟨h.1, ?_⟩
  rw [h.2]
  simp [List.enum, List.enumFrom, List.filter, unitSphere, farSphere, Sphere.new]

/-- C9 (witness). The diffuse unit sphere hit at depth 0: no recursive invocation. -/
theorem branch_selection_witness :
    traceCalls Real.sqrt [unitSphere] rayFrom rayDown 0 = [⟨0, some 0⟩] :=
  ((branch_selection Real.sqrt [unitSphere] rayFrom rayDown 0 4 0 unitSphere
    (findNearest_single unitSphere 4 6 rayFrom rayDown intersect_unitSphere_top
      (by norm_num))).2.2.1 (by norm_num [unitSphere, Sphere.new])).2.1

theorem findNearest_single_inside (s : Sphere ℝ) (t0 t1 : ℝ) (o d : Vec3 ℝ)
    (h : s.intersect Real.sqrt o d = some (t0, t1)) (h0 : t0 < 0) :
    findNearest Real.sqrt [s] o d = ⟨(t1 : WithTop ℝ), some (0, s)⟩ := by
  simp [findNearest, nearestLoop, nearestStep, h, INFINITY, h0]

theorem findNearest_single_miss (s : Sphere ℝ) (o d : Vec3 ℝ)
    (h : s.intersect Real.sqrt o d = none) :
    (findNearest Real.sqrt [s] o d).sphere = none := by
  simp [findNearest, nearestLoop, nearestStep, h]

theorem refldir_top : refldir Real.sqrt (rayDown : Vec3 ℝ) ⟨0, 1, 0⟩ = ⟨0, 1, 0⟩ := by
  have h : (rayDown : Vec3 ℝ) - (⟨0, 1, 0⟩ : Vec3 ℝ) * (2 : ℝ) *
      (rayDown : Vec3 ℝ).dot ⟨0, 1, 0⟩ = ⟨0, 1, 0⟩ := by
    ext <;> norm_num [rayDown, Vec3.dot]
  rw [refldir, h, normalize_up 1 one_pos]

theorem refrdir_top : refrdir Real.sqrt (rayDown : Vec3 ℝ) ⟨0, 1, 0⟩ false = rayDown := by
  have h : (rayDown : Vec3 ℝ) * (1 / 1.1 : ℝ) + (⟨0, 1, 0⟩ : Vec3 ℝ) *
      ((1 / 1.1 : ℝ) * -((⟨0, 1, 0⟩ : Vec3 ℝ).dot rayDown) -
        Real.sqrt (1 - (1 / 1.1 : ℝ) * (1 / 1.1 : ℝ) *
          (1 - -((⟨0, 1, 0⟩ : Vec3 ℝ).dot rayDown) * -((⟨0, 1, 0⟩ : Vec3 ℝ).dot rayDown)))) =
      ⟨0, -1, 0⟩ := by
    ext <;> norm_num [rayDown, Vec3.dot]
  simp only [refrdir, Bool.false_eq_true, if_false, h]
  rw [normalize_down 1 one_pos]
  rfl

theorem fresneleffect_top : fresneleffect (rayDown : Vec3 ℝ) ⟨0, 1, 0⟩ = 0.01 := by
  norm_num [fresneleffect, mix, rayDown, Vec3.dot]

theorem intersect_negative_top :
    (negativeTransparencySphere : Sphere ℝ).intersect Real.sqrt rayFrom rayDown =
      some (4, 6) := by
  have h := intersect_from_above ⟨1, 1, 1⟩ ⟨0, 1, 0⟩ 1 (-1) 5 (by norm_num)
  norm_num at h
  exact h

theorem reflection_call_negative (depth : Int) :
    traceAux Real.sqrt [negativeTransparencySphere]
      (pointhit rayFrom rayDown 4 +
        normalhit Real.sqrt rayFrom rayDown 4 negativeTransparencySphere * (bias : ℝ))
      (refldir Real.sqrt rayDown (normalhit Real.sqrt rayFrom rayDown 4
        negativeTransparencySphere)) depth = (Vec3.uniform 2, [⟨depth, none⟩]) := by
  rw [pointhit_top, normalhit_top negativeTransparencySphere rfl, shadow_origin_top,
    refldir_top]
  apply traceAux_miss
  apply findNearest_single_miss
  exact intersect_below_ray_up ⟨0, 0, 0⟩ ⟨1, 1, 1⟩ ⟨0, 1, 0⟩ 1 (-1) 1 _
    ⟨rfl, by norm_num, rfl⟩

theorem refraction_call_negative (depth : Int) (hdepth : 5 ≤ depth) :
    traceAux Real.sqrt [negativeTransparencySphere]
      (pointhit rayFrom rayDown 4 -
        normalhit Real.sqrt rayFrom rayDown 4 negativeTransparencySphere * (bias : ℝ))
      (refrdir Real.sqrt rayDown (normalhit Real.sqrt rayFrom rayDown 4
          negativeTransparencySphere)
        (inside Real.sqrt rayFrom rayDown 4 negativeTransparencySphere)) depth =
      (⟨0, 1, 0⟩, [⟨depth, some 0⟩]) := by
  have horig : (⟨0, 1, 0⟩ : Vec3 ℝ) - (⟨0, 1, 0⟩ : Vec3 ℝ) * (bias : ℝ) =
      ⟨0, 1 - 1e-4, 0⟩ := by
    ext <;> norm_num [bias]
  rw [pointhit_top, normalhit_top negativeTransparencySphere rfl,
    inside_top negativeTransparencySphere rfl, refrdir_top, horig]
  have hint := intersect_from_above ⟨1, 1, 1⟩ ⟨0, 1, 0⟩ 1 (-1) (1 - 1e-4) (by norm_num)
  have hnear := findNearest_single_inside _ _ _ _ _ hint (by norm_num)
  have hdiff : ¬ specular (negativeTransparencySphere : Sphere ℝ) depth := fun h =>
    absurd h.2 (not_lt.2 hdepth)
  rw [show (Sphere.new ⟨0, 0, 0⟩ 1 ⟨1, 1, 1⟩ 1 (-1) ⟨0, 1, 0⟩ : Sphere ℝ) =
    negativeTransparencySphere from rfl] at hnear
  rw [traceAux_diffuse Real.sqrt _ _ _ depth _ 0 _ hnear hdiff]
  rw [lightLoop_no_light Real.sqrt _ _ _ _ _ _ 0 _ (fun sj hsj => by
    rw [List.mem_singleton.1 hsj]
    norm_num [negativeTransparencySphere, Sphere.new])]
  congr 1
  ext <;> simp [negativeTransparencySphere, Sphere.new]

/-- C10 (failing input). The sphere with reflection 1, transparency `-1`, white surface and
emission `(0, 1, 0)`, hit at depth 4 by the ray from `(0, 5, 0)` straight down: the hit has
`reflection > 0`, `transparency ≤ 0` and `depth < 5`, yet `trace` invokes itself for a
refraction ray (third invocation, which hits the sphere again from inside) and returns
`(0.02, 0.03, 0.02)`, whereas `reflectionColor * fresnel * surfaceColor + emission` is
`(0.02, 1.02, 0.02)`. -/
theorem refraction_at_negative_transparency :
    ((negativeTransparencySphere : Sphere ℝ).reflection > 0 ∧
      (negativeTransparencySphere : Sphere ℝ).transparency ≤ 0 ∧ (4 : Int) < 5) ∧
    findNearest Real.sqrt [negativeTransparencySphere] rayFrom rayDown =
      ⟨((4 : ℝ) : WithTop ℝ), some (0, negativeTransparencySphere)⟩ ∧
    traceCalls Real.sqrt [negativeTransparencySphere] rayFrom rayDown 4 =
      [⟨4, some 0⟩, ⟨5, none⟩, ⟨5, some 0⟩] ∧
    trace Real.sqrt [negativeTransparencySphere] rayFrom rayDown 4 = ⟨0.02, 0.03, 0.02⟩ ∧
    trace Real.sqrt [negativeTransparencySphere]
          (pointhit rayFrom rayDown 4 +
            normalhit Real.sqrt rayFrom rayDown 4 negativeTransparencySphere * (bias : ℝ))
          (refldir Real.sqrt rayDown (normalhit Real.sqrt rayFrom rayDown 4
            negativeTransparencySphere)) (4 + 1) *
          fresneleffect rayDown (normalhit Real.sqrt rayFrom rayDown 4
            negativeTransparencySphere) *
          (negativeTransparencySphere : Sphere ℝ).surfaceColor +
        (negativeTransparencySphere : Sphere ℝ).emissionColor = ⟨0.02, 1.02, 0.02⟩ := by
  have hnear := findNearest_single negativeTransparencySphere 4 6 rayFrom rayDown
    intersect_negative_top (by norm_num)
  have hspec : specular (negativeTransparencySphere : Sphere ℝ) 4 := by
    norm_num [specular, negativeTransparencySphere, Sphere.new, MAX_RAY_DEPTH]
  have hne : (negativeTransparencySphere : Sphere ℝ).transparency ≠ 0 := by
    norm_num [negativeTransparencySphere, Sphere.new]
  have haux := traceAux_specular Real.sqrt [negativeTransparencySphere] rayFrom rayDown 4 4 0
    negativeTransparencySphere hnear hspec
  rw [if_pos hne, reflection_call_negative, refraction_call_negative _ (by norm_num)] at haux
  refine ⟨?_, hnear, ?_, ?_, ?_⟩
  · norm_num [negativeTransparencySphere, Sphere.new]
  · rw [traceCalls, haux]
    norm_num
  · rw [trace, haux, normalhit_top negativeTransparencySphere rfl, fresneleffect_top]
    ext <;> norm_num [negativeTransparencySphere, Sphere.new]
  · rw [trace, reflection_call_negative, normalhit_top negativeTransparencySphere rfl,
      fresneleffect_top]
    ext <;> norm_num [negativeTransparencySphere, Sphere.new]

/-! #### The sphere of negative transparency, traced from depth 0 -/

theorem intersect_from_inside_up (sc ec : Vec3 ℝ) (refl transp : ℝ) (y : ℝ) (hy : y ≤ 0) :
    (Sphere.new ⟨0, 0, 0⟩ 1 sc refl transp ec).intersect Real.sqrt ⟨0, y, 0⟩ rayUp =
      some (-y - 1, -y + 1) := by
  have hy0 : ¬ (0 < y) := not_lt.2 hy
  simp only [Sphere.intersect, Sphere.new, Vec3.dot, rayUp, Vec3.sub_x, Vec3.sub_y,
    Vec3.sub_z]
  norm_num [hy0]

theorem refrdir_inside_down :
    refrdir Real.sqrt (rayDown : Vec3 ℝ) ⟨0, 1, 0⟩ true = rayDown := by
  have h : (rayDown : Vec3 ℝ) * (1.1 : ℝ) + (⟨0, 1, 0⟩ : Vec3 ℝ) *
      ((1.1 : ℝ) * -((⟨0, 1, 0⟩ : Vec3 ℝ).dot rayDown) -
        Real.sqrt (1 - (1.1 : ℝ) * (1.1 : ℝ) *
          (1 - -((⟨0, 1, 0⟩ : Vec3 ℝ).dot rayDown) * -((⟨0, 1, 0⟩ : Vec3 ℝ).dot rayDown)))) =
      ⟨0, -1, 0⟩ := by
    ext <;> norm_num [rayDown, Vec3.dot]
  simp only [refrdir, if_true, h]
  rw [normalize_down 1 one_pos]
  rfl

theorem refrdir_inside_up :
    refrdir Real.sqrt (rayUp : Vec3 ℝ) ⟨0, -1, 0⟩ true = rayUp := by
  have h : (rayUp : Vec3 ℝ) * (1.1 : ℝ) + (⟨0, -1, 0⟩ : Vec3 ℝ) *
      ((1.1 : ℝ) * -((⟨0, -1, 0⟩ : Vec3 ℝ).dot rayUp) -
        Real.sqrt (1 - (1.1 : ℝ) * (1.1 : ℝ) *
          (1 - -((⟨0, -1, 0⟩ : Vec3 ℝ).dot rayUp) * -((⟨0, -1, 0⟩ : Vec3 ℝ).dot rayUp)))) =
      ⟨0, 1, 0⟩ := by
    ext <;> norm_num [rayUp, Vec3.dot]
  simp only [refrdir, if_true, h]
  rw [normalize_up 1 one_pos]
  rfl

theorem refldir_bottom : refldir Real.sqrt (rayUp : Vec3 ℝ) ⟨0, -1, 0⟩ = rayDown := by
  have h : (rayUp : Vec3 ℝ) - (⟨0, -1, 0⟩ : Vec3 ℝ) * (2 : ℝ) *
      (rayUp : Vec3 ℝ).dot ⟨0, -1, 0⟩ = ⟨0, -1, 0⟩ := by
    ext <;> norm_num [rayUp, Vec3.dot]
  rw [refldir, h, normalize_down 1 one_pos]
  rfl

theorem traceCalls_both (spheres : List (Sphere ℝ)) (o d : Vec3 ℝ) (depth : Int) (t : ℝ)
    (i : Nat) (s : Sphere ℝ)
    (hnear : findNearest Real.sqrt spheres o d = ⟨(t : WithTop ℝ), some (i, s)⟩)
    (hs : specular s depth) (hne : s.transparency ≠ 0) :
    traceCalls Real.sqrt spheres o d depth =
      ⟨depth, some i⟩ ::
        (traceCalls Real.sqrt spheres
            (pointhit o d t + normalhit Real.sqrt o d t s * (bias : ℝ))
            (refldir Real.sqrt d (normalhit Real.sqrt o d t s)) (depth + 1) ++
          traceCalls Real.sqrt spheres
            (pointhit o d t - normalhit Real.sqrt o d t s * (bias : ℝ))
            (refrdir Real.sqrt d (normalhit Real.sqrt o d t s) (inside Real.sqrt o d t s))
            (depth + 1)) := by
  unfold traceCalls
  rw [traceAux_specular Real.sqrt spheres o d depth t i s hnear hs, if_pos hne]

theorem specular_negative (depth : Int) (hdepth : depth < 5) :
    specular (negativeTransparencySphere : Sphere ℝ) depth :=
  ⟨Or.inr (by norm_num [negativeTransparencySphere, Sphere.new]), hdepth⟩

theorem transparency_negative :
    (negativeTransparencySphere : Sphere ℝ).transparency ≠ 0 := by
  norm_num [negativeTransparencySphere, Sphere.new]

theorem miss_below (depth : Int) :
    traceCalls Real.sqrt [negativeTransparencySphere] ⟨0, -1 - 1e-4, 0⟩ rayDown depth =
      [⟨depth, none⟩] := by
  unfold traceCalls
  rw [traceAux_miss]
  apply findNearest_single_miss
  exact intersect_above_ray_down ⟨0, 0, 0⟩ ⟨1, 1, 1⟩ ⟨0, 1, 0⟩ 1 (-1) 1 _
    ⟨rfl, by norm_num, rfl⟩

theorem miss_above (depth : Int) :
    traceCalls Real.sqrt [negativeTransparencySphere] ⟨0, 1 + 1e-4, 0⟩ rayUp depth =
      [⟨depth, none⟩] := by
  unfold traceCalls
  rw [traceAux_miss]
  apply findNearest_single_miss
  exact intersect_below_ray_up ⟨0, 0, 0⟩ ⟨1, 1, 1⟩ ⟨0, 1, 0⟩ 1 (-1) 1 _
    ⟨rfl, by norm_num, rfl⟩

theorem findNearest_inside_down :
    findNearest Real.sqrt [negativeTransparencySphere] ⟨0, 1 - 1e-4, 0⟩ rayDown =
      ⟨((1 - 1e-4 + 1 : ℝ) : WithTop ℝ), some (0, negativeTransparencySphere)⟩ :=
  findNearest_single_inside negativeTransparencySphere _ _ _ _
    (intersect_from_above ⟨1, 1, 1⟩ ⟨0, 1, 0⟩ 1 (-1) (1 - 1e-4) (by norm_num)) (by norm_num)

theorem findNearest_inside_up :
    findNearest Real.sqrt [negativeTransparencySphere] ⟨0, -1 + 1e-4, 0⟩ rayUp =
      ⟨((-(-1 + 1e-4) + 1 : ℝ) : WithTop ℝ), some (0, negativeTransparencySphere)⟩ :=
  findNearest_single_inside negativeTransparencySphere _ _ _ _
    (intersect_from_inside_up ⟨1, 1, 1⟩ ⟨0, 1, 0⟩ 1 (-1) (-1 + 1e-4) (by norm_num))
    (by norm_num)

theorem inside_down_facts :
    pointhit (⟨0, 1 - 1e-4, 0⟩ : Vec3 ℝ) rayDown (1 - 1e-4 + 1) = ⟨0, -1, 0⟩ ∧
      normalhit Real.sqrt (⟨0, 1 - 1e-4, 0⟩ : Vec3 ℝ) rayDown (1 - 1e-4 + 1)
        negativeTransparencySphere = ⟨0, 1, 0⟩ ∧
      inside Real.sqrt (⟨0, 1 - 1e-4, 0⟩ : Vec3 ℝ) rayDown (1 - 1e-4 + 1)
        negativeTransparencySphere = true := by
  have hp : pointhit (⟨0, 1 - 1e-4, 0⟩ : Vec3 ℝ) rayDown (1 - 1e-4 + 1) = ⟨0, -1, 0⟩ := by
    ext <;> norm_num [pointhit, rayDown]
  have h : (⟨0, -1, 0⟩ : Vec3 ℝ) - (negativeTransparencySphere : Sphere ℝ).center =
      ⟨0, -1, 0⟩ := by
    ext <;> norm_num [negativeTransparencySphere, Sphere.new]
  refine ⟨hp, ?_, ?_⟩
  · simp only [normalhit, hp, h, normalize_down 1 one_pos]
    norm_num [rayDown, Vec3.dot]
    ext <;> simp
  · simp only [inside, hp, h, normalize_down 1 one_pos]
    norm_num [rayDown, Vec3.dot]

theorem inside_up_facts :
    pointhit (⟨0, -1 + 1e-4, 0⟩ : Vec3 ℝ) rayUp (-(-1 + 1e-4) + 1) = ⟨0, 1, 0⟩ ∧
      normalhit Real.sqrt (⟨0, -1 + 1e-4, 0⟩ : Vec3 ℝ) rayUp (-(-1 + 1e-4) + 1)
        negativeTransparencySphere = ⟨0, -1, 0⟩ ∧
      inside Real.sqrt (⟨0, -1 + 1e-4, 0⟩ : Vec3 ℝ) rayUp (-(-1 + 1e-4) + 1)
        negativeTransparencySphere = true := by
  have hp : pointhit (⟨0, -1 + 1e-4, 0⟩ : Vec3 ℝ) rayUp (-(-1 + 1e-4) + 1) = ⟨0, 1, 0⟩ := by
    ext <;> norm_num [pointhit, rayUp]
  have h : (⟨0, 1, 0⟩ : Vec3 ℝ) - (negativeTransparencySphere : Sphere ℝ).center =
      ⟨0, 1, 0⟩ := by
    ext <;> norm_num [negativeTransparencySphere, Sphere.new]
  refine ⟨hp, ?_, ?_⟩
  · simp only [normalhit, hp, h, normalize_up 1 one_pos]
    norm_num [rayUp, Vec3.dot]
    ext <;> simp
  · simp only [inside, hp, h, normalize_up 1 one_pos]
    norm_num [rayUp, Vec3.dot]

theorem inside_down_step (depth : Int) (hdepth : depth < 5) :
    traceCalls Real.sqrt [negativeTransparencySphere] ⟨0, 1 - 1e-4, 0⟩ rayDown depth =
      ⟨depth, some 0⟩ ::
        (traceCalls Real.sqrt [negativeTransparencySphere] ⟨0, -1 + 1e-4, 0⟩ rayUp
            (depth + 1) ++ [⟨depth + 1, none⟩]) := by
  obtain ⟨hp, hn, hi⟩ := inside_down_facts
  have ho1 : (⟨0, -1, 0⟩ : Vec3 ℝ) + (⟨0, 1, 0⟩ : Vec3 ℝ) * (bias : ℝ) =
      ⟨0, -1 + 1e-4, 0⟩ := by
    ext <;> norm_num [bias]
  have ho2 : (⟨0, -1, 0⟩ : Vec3 ℝ) - (⟨0, 1, 0⟩ : Vec3 ℝ) * (bias : ℝ) =
      ⟨0, -1 - 1e-4, 0⟩ := by
    ext <;> norm_num [bias]
  rw [traceCalls_both _ _ _ depth _ 0 _ findNearest_inside_down
    (specular_negative depth hdepth) transparency_negative, hp, hn, hi, ho1, ho2,
    refldir_top, refrdir_inside_down, miss_below]
  rfl

theorem inside_up_step (depth : Int) (hdepth : depth < 5) :
    traceCalls Real.sqrt [negativeTransparencySphere] ⟨0, -1 + 1e-4, 0⟩ rayUp depth =
      ⟨depth, some 0⟩ ::
        (traceCalls Real.sqrt [negativeTransparencySphere] ⟨0, 1 - 1e-4, 0⟩ rayDown
            (depth + 1) ++ [⟨depth + 1, none⟩]) := by
  obtain ⟨hp, hn, hi⟩ := inside_up_facts
  have ho1 : (⟨0, 1, 0⟩ : Vec3 ℝ) + (⟨0, -1, 0⟩ : Vec3 ℝ) * (bias : ℝ) =
      ⟨0, 1 - 1e-4, 0⟩ := by
    ext <;> norm_num [bias]
  have ho2 : (⟨0, 1, 0⟩ : Vec3 ℝ) - (⟨0, -1, 0⟩ : Vec3 ℝ) * (bias : ℝ) =
      ⟨0, 1 + 1e-4, 0⟩ := by
    ext <;> norm_num [bias]
  rw [traceCalls_both _ _ _ depth _ 0 _ findNearest_inside_up
    (specular_negative depth hdepth) transparency_negative, hp, hn, hi, ho1, ho2,
    refldir_bottom, refrdir_inside_up, miss_above]

theorem outside_step (depth : Int) (hdepth : depth < 5) :
    traceCalls Real.sqrt [negativeTransparencySphere] rayFrom rayDown depth =
      ⟨depth, some 0⟩ ::
        ([⟨depth + 1, none⟩] ++
          traceCalls Real.sqrt [negativeTransparencySphere] ⟨0, 1 - 1e-4, 0⟩ rayDown
            (depth + 1)) := by
  have hnear := findNearest_single negativeTransparencySphere 4 6 rayFrom rayDown
    intersect_negative_top (by norm_num)
  have horig : (⟨0, 1, 0⟩ : Vec3 ℝ) - (⟨0, 1, 0⟩ : Vec3 ℝ) * (bias : ℝ) =
      ⟨0, 1 - 1e-4, 0⟩ := by
    ext <;> norm_num [bias]
  have hrefl : traceCalls Real.sqrt [negativeTransparencySphere]
      (pointhit rayFrom rayDown 4 +
        normalhit Real.sqrt rayFrom rayDown 4 negativeTransparencySphere * (bias : ℝ))
      (refldir Real.sqrt rayDown (normalhit Real.sqrt rayFrom rayDown 4
        negativeTransparencySphere)) (depth + 1) = [⟨depth + 1, none⟩] := by
    unfold traceCalls
    rw [reflection_call_negative]
  rw [traceCalls_both _ _ _ depth _ 0 _ hnear (specular_negative depth hdepth)
    transparency_negative, hrefl, pointhit_top, normalhit_top negativeTransparencySphere rfl,
    inside_top negativeTransparencySphere rfl, refrdir_top, horig]

/-- C6 (failing input). The sphere with reflection 1 and transparency `-1` (not transparent:
its transparency is not above 0), traced from depth 0 by the ray from `(0, 5, 0)` straight
down.  Line 145 is passed through `reflection > 0`, and line 155, `if (sphere->transparency)`,
is true for `-1`, so every hit below depth 5 traces a refraction ray next to the reflection
ray: the ray enters the sphere and bounces inside it, and `trace` is invoked 11 times, not at
most 6. -/
theorem recursion_at_negative_transparency :
    ((negativeTransparencySphere : Sphere ℝ).reflection > 0 ∧
      ¬ (negativeTransparencySphere : Sphere ℝ).transparency > 0) ∧
    traceCalls Real.sqrt [negativeTransparencySphere] rayFrom rayDown 0 =
      [⟨0, some 0⟩, ⟨1, none⟩, ⟨1, some 0⟩, ⟨2, some 0⟩, ⟨3, some 0⟩, ⟨4, some 0⟩,
        ⟨5, some 0⟩, ⟨5, none⟩, ⟨4, none⟩, ⟨3, none⟩, ⟨2, none⟩] ∧
    (traceCalls Real.sqrt [negativeTransparencySphere] rayFrom rayDown 0).length = 11 ∧
    ¬ (traceCalls Real.sqrt [negativeTransparencySphere] rayFrom rayDown 0).length ≤ 6 := by
  have hlast : traceCalls Real.sqrt [negativeTransparencySphere] ⟨0, 1 - 1e-4, 0⟩ rayDown 5 =
      [⟨5, some 0⟩] := by
    unfold traceCalls
    rw [traceAux_diffuse Real.sqrt _ _ _ 5 _ 0 negativeTransparencySphere
      findNearest_inside_down (fun h => absurd h.2 (by decide))]
  have hcalls : traceCalls Real.sqrt [negativeTransparencySphere] rayFrom rayDown 0 =
      [⟨0, some 0⟩, ⟨1, none⟩, ⟨1, some 0⟩, ⟨2, some 0⟩, ⟨3, some 0⟩, ⟨4, some 0⟩,
        ⟨5, some 0⟩, ⟨5, none⟩, ⟨4, none⟩, ⟨3, none⟩, ⟨2, none⟩] := by
    rw [outside_step 0 (by decide), inside_down_step (0 + 1) (by decide),
      inside_up_step (0 + 1 + 1) (by decide), inside_down_step (0 + 1 + 1 + 1) (by decide),
      inside_up_step (0 + 1 + 1 + 1 + 1) (by decide),
      show ((0 : Int) + 1 + 1 + 1 + 1 + 1) = 5 from rfl, hlast]
    rfl
  refine ⟨?_, hcalls, ?_, ?_⟩
  · norm_num [negativeTransparencySphere, Sphere.new]
  · rw [hcalls]
    rfl
  · rw [hcalls]
    decide

/-! #### The mirror scene: two mirrors facing each other -/

theorem intersect_from_below (sc ec : Vec3 ℝ) (refl transp : ℝ) (y : ℝ) (hy : y ≤ 10) :
    (Sphere.new ⟨0, 10, 0⟩ 1 sc refl transp ec).intersect Real.sqrt ⟨0, y, 0⟩ rayUp =
      some (9 - y, 11 - y) := by
  have hy0 : ¬ (10 - y < 0) := by linarith
  simp only [Sphere.intersect, Sphere.new, Vec3.dot, rayUp, Vec3.sub_x, Vec3.sub_y,
    Vec3.sub_z]
  norm_num [hy0]
  constructor <;> ring

theorem findNearest_mirrors_down (y : ℝ) (h1 : 1 ≤ y) (h2 : y < 10) :
    findNearest Real.sqrt [mirrorSphere, mirrorAbove] ⟨0, y, 0⟩ rayDown =
      ⟨((y - 1 : ℝ) : WithTop ℝ), some (0, mirrorSphere)⟩ := by
  have ha : (mirrorSphere : Sphere ℝ).intersect Real.sqrt ⟨0, y, 0⟩ rayDown =
      some (y - 1, y + 1) :=
    intersect_from_above ⟨1, 1, 1⟩ (Vec3.uniform 0) 1 0 y (by linarith)
  have hb : (mirrorAbove : Sphere ℝ).intersect Real.sqrt ⟨0, y, 0⟩ rayDown = none :=
    intersect_above_ray_down ⟨0, 10, 0⟩ ⟨1, 1, 1⟩ (Vec3.uniform 0) 1 0 1 y ⟨rfl, h2, rfl⟩
  have h0 : ¬ (y - 1 < 0) := by linarith
  simp [findNearest, nearestLoop, nearestStep, ha, hb, INFINITY, h0]

theorem findNearest_mirrors_up (y : ℝ) (h1 : 0 < y) (h2 : y ≤ 9) :
    findNearest Real.sqrt [mirrorSphere, mirrorAbove] ⟨0, y, 0⟩ rayUp =
      ⟨((9 - y : ℝ) : WithTop ℝ), some (1, mirrorAbove)⟩ := by
  have ha : (mirrorSphere : Sphere ℝ).intersect Real.sqrt ⟨0, y, 0⟩ rayUp = none :=
    intersect_below_ray_up ⟨0, 0, 0⟩ ⟨1, 1, 1⟩ (Vec3.uniform 0) 1 0 1 y ⟨rfl, h1, rfl⟩
  have hb : (mirrorAbove : Sphere ℝ).intersect Real.sqrt ⟨0, y, 0⟩ rayUp =
      some (9 - y, 11 - y) :=
    intersect_from_below ⟨1, 1, 1⟩ (Vec3.uniform 0) 1 0 y (by linarith)
  have h0 : ¬ (9 - y < 0) := by linarith
  simp [findNearest, nearestLoop, nearestStep, ha, hb, INFINITY, h0]

theorem mirrors_down_step (y : ℝ) (h1 : 1 ≤ y) (h2 : y < 10) (depth : Int)
    (hdepth : depth < 5) :
    traceCalls Real.sqrt [mirrorSphere, mirrorAbove] ⟨0, y, 0⟩ rayDown depth =
      ⟨depth, some 0⟩ ::
        traceCalls Real.sqrt [mirrorSphere, mirrorAbove] ⟨0, 1 + 1e-4, 0⟩ rayUp
          (depth + 1) := by
  have hp : pointhit (⟨0, y, 0⟩ : Vec3 ℝ) rayDown (y - 1) = ⟨0, 1, 0⟩ := by
    ext <;> norm_num [pointhit, rayDown]
  have hn : normalhit Real.sqrt (⟨0, y, 0⟩ : Vec3 ℝ) rayDown (y - 1) mirrorSphere =
      ⟨0, 1, 0⟩ := by
    have h : (⟨0, 1, 0⟩ : Vec3 ℝ) - (mirrorSphere : Sphere ℝ).center = ⟨0, 1, 0⟩ := by
      ext <;> norm_num [mirrorSphere, Sphere.new]
    simp only [normalhit, hp, h, normalize_up 1 one_pos]
    norm_num [rayDown, Vec3.dot]
  have h := (reflection_only Real.sqrt [mirrorSphere, mirrorAbove] ⟨0, y, 0⟩ rayDown depth
    (y - 1) 0 mirrorSphere (findNearest_mirrors_down y h1 h2)
    (by norm_num [mirrorSphere, Sphere.new]) rfl hdepth).2
  rw [hp, hn, shadow_origin_top, refldir_top] at h
  exact h

theorem mirrors_up_facts (y : ℝ) :
    pointhit (⟨0, y, 0⟩ : Vec3 ℝ) rayUp (9 - y) = ⟨0, 9, 0⟩ ∧
      normalhit Real.sqrt (⟨0, y, 0⟩ : Vec3 ℝ) rayUp (9 - y) mirrorAbove = ⟨0, -1, 0⟩ := by
  have hp : pointhit (⟨0, y, 0⟩ : Vec3 ℝ) rayUp (9 - y) = ⟨0, 9, 0⟩ := by
    ext <;> norm_num [pointhit, rayUp]
  refine ⟨hp, ?_⟩
  have h : (⟨0, 9, 0⟩ : Vec3 ℝ) - (mirrorAbove : Sphere ℝ).center = ⟨0, -1, 0⟩ := by
    ext <;> norm_num [mirrorAbove, Sphere.new]
  simp only [normalhit, hp, h, normalize_down 1 one_pos]
  norm_num [rayUp, Vec3.dot]

theorem mirrors_up_step (y : ℝ) (h1 : 0 < y) (h2 : y ≤ 9) (depth : Int)
    (hdepth : depth < 5) :
    traceCalls Real.sqrt [mirrorSphere, mirrorAbove] ⟨0, y, 0⟩ rayUp depth =
      ⟨depth, some 1⟩ ::
        traceCalls Real.sqrt [mirrorSphere, mirrorAbove] ⟨0, 9 - 1e-4, 0⟩ rayDown
          (depth + 1) := by
  obtain ⟨hp, hn⟩ := mirrors_up_facts y
  have ho : (⟨0, 9, 0⟩ : Vec3 ℝ) + (⟨0, -1, 0⟩ : Vec3 ℝ) * (bias : ℝ) =
      ⟨0, 9 - 1e-4, 0⟩ := by
    ext <;> norm_num [bias]
  have hr : refldir Real.sqrt (rayUp : Vec3 ℝ) ⟨0, -1, 0⟩ = rayDown := by
    have h : (rayUp : Vec3 ℝ) - (⟨0, -1, 0⟩ : Vec3 ℝ) * (2 : ℝ) *
        (rayUp : Vec3 ℝ).dot ⟨0, -1, 0⟩ = ⟨0, -1, 0⟩ := by
      ext <;> norm_num [rayUp, Vec3.dot]
    rw [refldir, h, normalize_down 1 one_pos]
    rfl
  have h := (reflection_only Real.sqrt [mirrorSphere, mirrorAbove] ⟨0, y, 0⟩ rayUp depth
    (9 - y) 1 mirrorAbove (findNearest_mirrors_up y h1 h2)
    (by norm_num [mirrorAbove, Sphere.new]) rfl hdepth).2
  rw [hp, hn, ho, hr] at h
  exact h

/-- The mirror scene attains the bound of C6: started at depth 0 between two facing mirrors,
`trace` is invoked exactly 6 times, at depths 0 to 5, bouncing between the two spheres. -/
theorem mirror_scene_calls :
    traceCalls Real.sqrt [mirrorSphere, mirrorAbove] rayFrom rayDown 0 =
      [⟨0, some 0⟩, ⟨1, some 1⟩, ⟨2, some 0⟩, ⟨3, some 1⟩, ⟨4, some 0⟩, ⟨5, some 1⟩] := by
  have hlast : traceCalls Real.sqrt [mirrorSphere, mirrorAbove] ⟨0, 1 + 1e-4, 0⟩ rayUp 5 =
      [⟨5, some 1⟩] := by
    unfold traceCalls
    rw [traceAux_diffuse Real.sqrt _ _ _ 5 _ 1 mirrorAbove
      (findNearest_mirrors_up (1 + 1e-4) (by norm_num) (by norm_num))
      (fun h => absurd h.2 (by decide))]
  rw [show (rayFrom : Vec3 ℝ) = ⟨0, 5, 0⟩ from rfl,
    mirrors_down_step 5 (by norm_num) (by norm_num) 0 (by decide),
    mirrors_up_step (1 + 1e-4) (by norm_num) (by norm_num) (0 + 1) (by decide),
    mirrors_down_step (9 - 1e-4) (by norm_num) (by norm_num) (0 + 1 + 1) (by decide),
    mirrors_up_step (1 + 1e-4) (by norm_num) (by norm_num) (0 + 1 + 1 + 1) (by decide),
    mirrors_down_step (9 - 1e-4) (by norm_num) (by norm_num) (0 + 1 + 1 + 1 + 1) (by decide),
    show ((0 : Int) + 1 + 1 + 1 + 1 + 1) = 5 from rfl, hlast]
  rfl

end Examples

/-! ### Vector algebra over the reals -/

section RealVectors

theorem length2_nonneg (v : Vec3 ℝ) : 0 ≤ v.length2 := by
  unfold Vec3.length2
  nlinarith [mul_self_nonneg v.x, mul_self_nonneg v.y, mul_self_nonneg v.z]

theorem length_eq_one_iff (v : Vec3 ℝ) : v.length Real.sqrt = 1 ↔ v.length2 = 1 := by
  unfold Vec3.length
  exact Real.sqrt_eq_one

theorem length2_scale (v : Vec3 ℝ) (k : ℝ) : (v * k).length2 = k * k * v.length2 := by
  simp only [Vec3.length2, Vec3.scale_x, Vec3.scale_y, Vec3.scale_z]
  ring

theorem length2_normalize (v : Vec3 ℝ) (h : 0 < v.length2) :
    (v.normalize Real.sqrt).length2 = 1 := by
  have hs : 0 < Real.sqrt v.length2 := Real.sqrt_pos.2 h
  rw [Vec3.normalize_of_pos _ _ h, length2_scale]
  field_simp

/-- C13. `Vec3::normalize` over the reals: a vector with non-zero squared length is
replaced by a positive multiple of itself whose length is exactly 1; the zero vector is left
unchanged. -/
theorem normalize_spec (v : Vec3 ℝ) :
    (v.length2 ≠ 0 →
      (v.normalize Real.sqrt).length Real.sqrt = 1 ∧
        ∃ k : ℝ, 0 < k ∧ v.normalize Real.sqrt = v * k) ∧
      (Vec3.zero : Vec3 ℝ).normalize Real.sqrt = Vec3.zero := by
  constructor
  · intro hne
    have hpos : 0 < v.length2 := lt_of_le_of_ne (length2_nonneg v) (Ne.symm hne)
    refine ⟨(length_eq_one_iff _).2 (length2_normalize v hpos), 1 / Real.sqrt v.length2,
      one_div_pos.2 (Real.sqrt_pos.2 hpos), Vec3.normalize_of_pos _ _ hpos⟩
  · apply Vec3.normalize_of_not_pos
    simp [Vec3.length2, Vec3.zero]

/-- C14 in exact real arithmetic. For every vector `v`, `v.dot(v)` equals `v.length2()` and
equals the square of `v.length()`, the square root of the sum of the squared components. -/
theorem dot_self_eq_length2 (v : Vec3 ℝ) :
    v.dot v = v.length2 ∧ v.dot v = v.length Real.sqrt ^ 2 ∧
      v.length Real.sqrt = Real.sqrt (v.x * v.x + v.y * v.y + v.z * v.z) := by
  refine ⟨rfl, ?_, rfl⟩
  rw [Vec3.length, Real.sq_sqrt (length2_nonneg v)]
  rfl

theorem length2_reflected (d n : Vec3 ℝ) (hd : d.length2 = 1) (hn : n.length2 = 1) :
    (d - n * (2 : ℝ) * d.dot n).length2 = 1 := by
  simp only [Vec3.length2, Vec3.dot, Vec3.sub_x, Vec3.sub_y, Vec3.sub_z, Vec3.scale_x,
    Vec3.scale_y, Vec3.scale_z] at hd hn ⊢
  linear_combination hd + 4 * (d.x * n.x + d.y * n.y + d.z * n.z) ^ 2 * hn

/-- C19. The reflection direction is already of unit length: for a direction `d` and a
normal `n` both of length 1, the vector `d - n * 2 * dot(d, n)` has length 1, its dot product
with `n` is `-dot(d, n)`, and the `normalize()` applied to it in `trace` leaves it
unchanged. -/
theorem reflection_unit (d n : Vec3 ℝ) (hd : d.length Real.sqrt = 1)
    (hn : n.length Real.sqrt = 1) :
    (d - n * (2 : ℝ) * d.dot n).length Real.sqrt = 1 ∧
      (d - n * (2 : ℝ) * d.dot n).dot n = -(d.dot n) ∧
      refldir Real.sqrt d n = d - n * (2 : ℝ) * d.dot n := by
  have hd2 := (length_eq_one_iff d).1 hd
  have hn2 := (length_eq_one_iff n).1 hn
  have hr := length2_reflected d n hd2 hn2
  refine ⟨(length_eq_one_iff _).2 hr, ?_, ?_⟩
  · simp only [Vec3.length2, Vec3.dot, Vec3.sub_x, Vec3.sub_y, Vec3.sub_z, Vec3.scale_x,
      Vec3.scale_y, Vec3.scale_z] at hn2 ⊢
    linear_combination (-2 * (d.x * n.x + d.y * n.y + d.z * n.z)) * hn2
  · rw [refldir, Vec3.normalize_of_pos _ _ (by rw [hr]; exact one_pos), hr, Real.sqrt_one]
    ext <;> simp

theorem length_rayDown : (rayDown : Vec3 ℝ).length Real.sqrt = 1 := by
  norm_num [Vec3.length, Vec3.length2, rayDown]

theorem length_rayUp : (rayUp : Vec3 ℝ).length Real.sqrt = 1 := by
  norm_num [Vec3.length, Vec3.length2, rayUp]

/-- C13 (witness). The vector `(0, 5, 0)`, of squared length 25. -/
theorem normalize_spec_witness :
    ((rayFrom : Vec3 ℝ).normalize Real.sqrt).length Real.sqrt = 1 ∧
      ∃ k : ℝ, 0 < k ∧ (rayFrom : Vec3 ℝ).normalize Real.sqrt = (rayFrom : Vec3 ℝ) * k :=
  (normalize_spec rayFrom).1 (by norm_num [Vec3.length2, rayFrom])

/-- C19 (witness). The direction straight down reflected on the normal straight up. -/
theorem reflection_unit_witness :
    ((rayDown : Vec3 ℝ) - (rayUp : Vec3 ℝ) * (2 : ℝ) *
        Vec3.dot (rayDown : Vec3 ℝ) rayUp).length Real.sqrt = 1 ∧
      ((rayDown : Vec3 ℝ) - (rayUp : Vec3 ℝ) * (2 : ℝ) *
        Vec3.dot (rayDown : Vec3 ℝ) rayUp).dot rayUp = -(Vec3.dot (rayDown : Vec3 ℝ) rayUp) ∧
      refldir Real.sqrt (rayDown : Vec3 ℝ) rayUp =
        (rayDown : Vec3 ℝ) - (rayUp : Vec3 ℝ) * (2 : ℝ) * Vec3.dot (rayDown : Vec3 ℝ) rayUp :=
  reflection_unit rayDown rayUp length_rayDown length_rayUp

end RealVectors

/-! ### `Sphere::intersect` over the reals: which rays are hit, and the sign of `t0` -/

section RealIntersect

theorem intersect_eq_some_iff (s : Sphere ℝ) (o d : Vec3 ℝ) (t0 t1 : ℝ) :
    s.intersect Real.sqrt o d = some (t0, t1) ↔
      0 ≤ (s.center - o).dot d ∧
      (s.center - o).dot (s.center - o) - (s.center - o).dot d * (s.center - o).dot d ≤
        s.radsquared ∧
      t0 = (s.center - o).dot d - Real.sqrt (s.radsquared -
        ((s.center - o).dot (s.center - o) - (s.center - o).dot d * (s.center - o).dot d)) ∧
      t1 = (s.center - o).dot d + Real.sqrt (s.radsquared -
        ((s.center - o).dot (s.center - o) - (s.center - o).dot d * (s.center - o).dot d)) := by
  simp only [Sphere.intersect]
  by_cases h1 : (s.center - o).dot d < 0
  · simp only [if_pos h1]
    constructor
    · intro h
      cases h
    · intro h
      exact absurd h.1 (not_le.2 h1)
  · simp only [if_neg h1]
    by_cases h2 : (s.center - o).dot (s.center - o) -
        (s.center - o).dot d * (s.center - o).dot d > s.radsquared
    · simp only [if_pos h2]
      constructor
      · intro h
        cases h
      · intro h
        exact absurd h.2.1 (not_le.2 h2)
    · simp only [if_neg h2, Option.some.injEq, Prod.mk.injEq]
      constructor
      · intro h
        exact ⟨not_lt.1 h1, not_lt.1 h2, h.1.symm, h.2.symm⟩
      · intro h
        exact ⟨h.2.2.1.symm, h.2.2.2.symm⟩

theorem sign_of_t0 (N w DD rr : ℝ) (hN : 0 ≤ N) (hw : 0 ≤ w)
    (hww : w * w = rr - (DD - N * N)) :
    (N - w < 0 ↔ DD < rr) ∧ (N - w < 0 → 0 < N + w) := by
  refine ⟨⟨fun h => ?_, fun h => ?_⟩, fun h => ?_⟩
  · nlinarith
  · by_contra hge
    have h1 : w ≤ N := by linarith
    nlinarith
  · linarith

theorem length2_along (D d : Vec3 ℝ) (hd : d.length2 = 1) :
    (D - d * D.dot d).length2 = D.dot D - D.dot d * D.dot d := by
  simp only [Vec3.length2, Vec3.dot, Vec3.sub_x, Vec3.sub_y, Vec3.sub_z, Vec3.scale_x,
    Vec3.scale_y, Vec3.scale_z] at hd ⊢
  linear_combination (D.x * d.x + D.y * d.y + D.z * d.z) ^ 2 * hd

theorem length2_point_on_ray (c o d : Vec3 ℝ) (t : ℝ) (hd : d.length2 = 1) :
    ((o + d * t) - c).length2 = (c - o).dot (c - o) - 2 * t * (c - o).dot d + t * t := by
  simp only [Vec3.length2, Vec3.dot, Vec3.sub_x, Vec3.sub_y, Vec3.sub_z, Vec3.add_x,
    Vec3.add_y, Vec3.add_z, Vec3.scale_x, Vec3.scale_y, Vec3.scale_z] at hd ⊢
  linear_combination t ^ 2 * hd

end RealIntersect

/-! ### The Fresnel weight and the refraction radicand -/

section Fresnel

theorem dot_sq_le (a b : Vec3 ℝ) : a.dot b * a.dot b ≤ a.length2 * b.length2 := by
  have h : a.length2 * b.length2 - a.dot b * a.dot b =
      (a.x * b.y - a.y * b.x) ^ 2 + (a.x * b.z - a.z * b.x) ^ 2 +
        (a.y * b.z - a.z * b.y) ^ 2 := by
    simp only [Vec3.length2, Vec3.dot]
    ring
  nlinarith [sq_nonneg (a.x * b.y - a.y * b.x), sq_nonneg (a.x * b.z - a.z * b.x),
    sq_nonneg (a.y * b.z - a.z * b.y)]

theorem length2_normalize_le_one (v : Vec3 ℝ) : (v.normalize Real.sqrt).length2 ≤ 1 := by
  by_cases h : 0 < v.length2
  · exact (length2_normalize v h).le
  · rw [Vec3.normalize_of_not_pos _ _ h]
    linarith [length2_nonneg v]

theorem length2_neg (v : Vec3 ℝ) : (-v).length2 = v.length2 := by
  simp only [Vec3.length2, Vec3.neg_x, Vec3.neg_y, Vec3.neg_z]
  ring

theorem dot_neg (a b : Vec3 ℝ) : a.dot (-b) = -(a.dot b) := by
  simp only [Vec3.dot, Vec3.neg_x, Vec3.neg_y, Vec3.neg_z]
  ring

theorem normalhit_facing (o d : Vec3 ℝ) (t : ℝ) (s : Sphere ℝ) :
    d.dot (normalhit Real.sqrt o d t s) ≤ 0 ∧
      (normalhit Real.sqrt o d t s).length2 ≤ 1 := by
  unfold normalhit
  by_cases h : d.dot ((pointhit o d t - s.center).normalize Real.sqrt) > 0
  · rw [if_pos h, dot_neg, length2_neg]
    exact ⟨by linarith, length2_normalize_le_one _⟩
  · rw [if_neg h]
    exact ⟨not_lt.1 h, length2_normalize_le_one _⟩

theorem fresnel_of_facing (f : ℝ) (h0 : 0 ≤ f) (h1 : f ≤ 1) :
    mix ((1 - f) ^ 3) 1 0.01 = 0.01 + 0.99 * (1 - f) ^ 3 ∧
      0.01 ≤ mix ((1 - f) ^ 3) 1 0.01 ∧ mix ((1 - f) ^ 3) 1 0.01 ≤ 1 := by
  have hu0 : 0 ≤ 1 - f := by linarith
  have hu1 : 1 - f ≤ 1 := by linarith
  have hc0 : 0 ≤ (1 - f) ^ 3 := pow_nonneg hu0 3
  have hc1 : (1 - f) ^ 3 ≤ 1 := pow_le_one₀ hu0 hu1
  have he : mix ((1 - f) ^ 3) 1 0.01 = 0.01 + 0.99 * (1 - f) ^ 3 := by
    unfold mix
    norm_num
    ring
  rw [he]
  refine ⟨rfl, ?_, ?_⟩
  · nlinarith
  · nlinarith

end Fresnel

section Radicand

variable {T : Type} [LinearOrderedField T]

end Radicand

/-! ### Renderer: pixel quantisation -/

section Quantisation

variable {T : Type} [LinearOrderedField T]

theorem scaled_range (c : T) (hc : 0 ≤ c) : 0 ≤ min 1 c * 255 ∧ min 1 c * 255 ≤ 255 := by
  have h0 : 0 ≤ min 1 c := le_min zero_le_one hc
  have h1 : min 1 c ≤ 1 := min_le_left 1 c
  constructor
  · exact mul_nonneg h0 (by norm_num)
  · nlinarith

theorem toUChar_of_range [FloorRing T] (x : T) (h0 : 0 ≤ x) (h1 : x ≤ 255) :
    toUChar x = some ⌊x⌋₊ ∧ ⌊x⌋₊ ≤ 255 := by
  have hf0 : 0 ≤ Int.floor x := Int.floor_nonneg.2 h0
  have hf1 : Int.floor x ≤ 255 := by
    have := Int.floor_le x
    have h2 : ((Int.floor x : Int) : T) ≤ ((255 : Int) : T) := by
      push_cast
      linarith
    exact_mod_cast h2
  have hn : (Int.floor x).toNat = ⌊x⌋₊ := Int.floor_toNat x
  constructor
  · simp only [toUChar, if_pos h0, hf0, hf1, and_self, if_true, hn]
  · rw [← hn]
    omega

/-- C15. Pixel quantisation in `render`: for a colour component `c ≥ 0` the byte written is
the integer part of `min(1, c) * 255`, which lies in `0..255`; it is 255 for every `c ≥ 1`,
so the background colour is written as 255 in all three channels; it is non-decreasing in
`c`; and the three bytes of a pixel are written in the order `x, y, z`, pixel after pixel. -/
theorem pixel_quantisation [FloorRing T] :
    (∀ c : T, 0 ≤ c →
      channelByte c = some ⌊min 1 c * 255⌋₊ ∧ ⌊min 1 c * 255⌋₊ ≤ 255) ∧
    (∀ c : T, 1 ≤ c → channelByte c = some 255) ∧
    (∀ c c2 : T, 0 ≤ c → c ≤ c2 → ⌊min 1 c * 255⌋₊ ≤ ⌊min 1 c2 * 255⌋₊) ∧
    pixelBytes (Vec3.uniform 2 : Vec3 T) = [some 255, some 255, some 255] ∧
    (∀ p : Vec3 T, pixelBytes p = [channelByte p.x, channelByte p.y, channelByte p.z]) ∧
    (∀ (p : Vec3 T) (rest : List (Vec3 T)),
      imageBytes (p :: rest) =
        channelByte p.x :: channelByte p.y :: channelByte p.z :: imageBytes rest) := by
  have hbyte : ∀ c : T, 0 ≤ c →
      channelByte c = some ⌊min 1 c * 255⌋₊ ∧ ⌊min 1 c * 255⌋₊ ≤ 255 := by
    intro c hc
    obtain ⟨h0, h1⟩ := scaled_range c hc
    exact toUChar_of_range _ h0 h1
  have hone : ∀ c : T, 1 ≤ c → channelByte c = some 255 := by
    intro c hc
    rw [(hbyte c (by linarith)).1, min_eq_left hc, one_mul]
    congr 1
    exact Nat.floor_ofNat 255
  refine ⟨hbyte, hone, ?_, ?_, fun p => rfl, fun p rest => rfl⟩
  · intro c c2 _ hcc
    apply Nat.floor_mono
    exact mul_le_mul_of_nonneg_right (min_le_min_left 1 hcc) (by norm_num)
  · simp only [pixelBytes, Vec3.uniform_x, Vec3.uniform_y, Vec3.uniform_z,
      hone 2 (by norm_num)]

/-- C15 (witness). The component `1/2` is written as the byte 127. -/
theorem pixel_quantisation_witness : channelByte (1 / 2 : ℝ) = some 127 := by
  rw [((@pixel_quantisation ℝ _ _).1 (1 / 2) (by norm_num)).1]
  congr 1
  rw [Nat.floor_eq_iff (by norm_num)]
  norm_num

end Quantisation

/-! ### Lights: which spheres illuminate, and emission seen directly -/

section Lights

variable {T : Type} [LinearOrderedField T]

theorem shadowLoop_values (sqrt : T → T) (i : Nat) (orig dir : Vec3 T)
    (rest : List (Sphere T)) :
    ∀ (j : Nat) (tr : Vec3 T),
      shadowLoop sqrt i orig dir j rest tr = Vec3.uniform 0 ∨
        shadowLoop sqrt i orig dir j rest tr = tr := by
  induction rest with
  | nil =>
    intro j tr
    exact Or.inr rfl
  | cons s rest ih =>
    intro j tr
    simp only [shadowLoop]
    split_ifs
    · exact Or.inl rfl
    · exact ih (j + 1) tr
    · exact ih (j + 1) tr

theorem lightLoop_eq_sum_lights (sqrt : T → T) (spheres : List (Sphere T)) (sphere : Sphere T)
    (ph nh : Vec3 T) (b : T) :
    lightLoop sqrt spheres sphere ph nh b 0 spheres (Vec3.uniform 0) =
      ((spheres.enum.filter (fun p => decide (p.2.emissionColor.x > 0))).map (fun p =>
        lightTerm sqrt spheres sphere ph nh b p.1 p.2)).sum := by
  rw [lightLoop_eq_sum, ← List.enum,
    sum_map_filter_of_zero _ (fun p => decide (p.2.emissionColor.x > 0)) spheres.enum
      (fun p _ hp => by
        have hp2 : ¬ p.2.emissionColor.x > 0 := by simpa using hp
        simp only [if_neg hp2])]
  have hz : (Vec3.uniform 0 : Vec3 T) = 0 := rfl
  rw [hz, zero_add]
  congr 1
  apply List.map_congr_left
  intro p hp
  have hp2 : p.2.emissionColor.x > 0 := by
    have := (List.mem_filter.1 hp).2
    simpa using this
  simp only [if_pos hp2]

/-- C12. Light classification on the diffuse path of `trace`: the colour returned is the sum,
over exactly the spheres of the scene whose emission has a first component greater than
zero, of `surfaceColor * transmission * max(0, dot(normal, lightDirection)) * emission`,
plus the emission of the hit sphere, where `transmission` (the visibility of the light) is
the colour `1` or the colour `0`.  A sphere whose emission has `x ≤ 0` is not part of the
sum, whatever its `y` and `z` components: in a scene with no sphere of positive `x`
emission the light sum is zero. -/
theorem light_classification (sqrt : T → T) (spheres : List (Sphere T)) (o d : Vec3 T)
    (depth : Int) (t : T) (i : Nat) (s : Sphere T)
    (hnear : findNearest sqrt spheres o d = ⟨(t : WithTop T), some (i, s)⟩)
    (hdiff : ¬ specular s depth) :
    trace sqrt spheres o d depth =
        ((spheres.enum.filter (fun p => decide (p.2.emissionColor.x > 0))).map (fun p =>
          s.surfaceColor *
              shadowLoop sqrt p.1 (pointhit o d t + normalhit sqrt o d t s * (bias : T))
                ((p.2.center - pointhit o d t).normalize sqrt) 0 spheres (Vec3.uniform 1) *
              max 0 ((normalhit sqrt o d t s).dot
                ((p.2.center - pointhit o d t).normalize sqrt)) *
            p.2.emissionColor)).sum + s.emissionColor ∧
      (∀ (k : Nat) (orig dir : Vec3 T),
        shadowLoop sqrt k orig dir 0 spheres (Vec3.uniform 1) = Vec3.uniform 0 ∨
          shadowLoop sqrt k orig dir 0 spheres (Vec3.uniform 1) = Vec3.uniform 1) ∧
      ((∀ sj ∈ spheres, sj.emissionColor.x ≤ 0) →
        trace sqrt spheres o d depth = s.emissionColor) := by
  have htr : trace sqrt spheres o d depth =
      lightLoop sqrt spheres s (pointhit o d t) (normalhit sqrt o d t s) bias 0 spheres
        (Vec3.uniform 0) + s.emissionColor := by
    unfold trace
    rw [traceAux_diffuse sqrt spheres o d depth t i s hnear hdiff]
  refine ⟨?_, fun k orig dir => shadowLoop_values sqrt k orig dir spheres 0 _, ?_⟩
  · rw [htr, lightLoop_eq_sum_lights]
    rfl
  · intro hno
    rw [htr, lightLoop_no_light sqrt spheres s _ _ _ spheres 0 _
      (fun sj hsj => not_lt.2 (hno sj hsj))]
    ext <;> simp

end Lights

section RealLights

theorem normalize_neg (v : Vec3 ℝ) : (-v).normalize Real.sqrt = -(v.normalize Real.sqrt) := by
  by_cases h : 0 < v.length2
  · rw [Vec3.normalize_of_pos _ _ (by rw [length2_neg]; exact h),
      Vec3.normalize_of_pos _ _ h, length2_neg]
    ext <;> simp
  · rw [Vec3.normalize_of_not_pos _ _ (by rw [length2_neg]; exact h),
      Vec3.normalize_of_not_pos _ _ h]

theorem sub_eq_neg_sub (a b : Vec3 ℝ) : a - b = -(b - a) := by
  ext <;> simp

theorem dot_normalize_nonpos (d v : Vec3 ℝ) (h : d.dot v ≤ 0) :
    d.dot (v.normalize Real.sqrt) ≤ 0 := by
  by_cases hv : 0 < v.length2
  · rw [Vec3.normalize_of_pos _ _ hv]
    have hk : 0 < 1 / Real.sqrt v.length2 := one_div_pos.2 (Real.sqrt_pos.2 hv)
    have he : d.dot (v * (1 / Real.sqrt v.length2)) =
        d.dot v * (1 / Real.sqrt v.length2) := by
      simp only [Vec3.dot, Vec3.scale_x, Vec3.scale_y, Vec3.scale_z]
      ring
    rw [he]
    exact mul_nonpos_of_nonpos_of_nonneg h hk.le
  · rw [Vec3.normalize_of_not_pos _ _ hv]
    exact h

theorem dot_direction_pointhit (c o d : Vec3 ℝ) (t : ℝ) (hd : d.length2 = 1) :
    d.dot (pointhit o d t - c) = t - (c - o).dot d := by
  simp only [pointhit, Vec3.length2, Vec3.dot, Vec3.sub_x, Vec3.sub_y, Vec3.sub_z, Vec3.add_x,
    Vec3.add_y, Vec3.add_z, Vec3.scale_x, Vec3.scale_y, Vec3.scale_z] at hd ⊢
  linear_combination t * hd

theorem single_emitter (c : Vec3 ℝ) (r : ℝ) (sc ec : Vec3 ℝ) (o d : Vec3 ℝ) (depth : Int)
    (hd : d.length Real.sqrt = 1) (hout : (o - c).length2 > r * r)
    (hhit : (Sphere.new c r sc 0 0 ec).intersect Real.sqrt o d ≠ none) :
    trace Real.sqrt [Sphere.new c r sc 0 0 ec] o d depth = ec ∧
      ∃ t0 : ℝ,
        findNearest Real.sqrt [Sphere.new c r sc 0 0 ec] o d =
          ⟨(t0 : WithTop ℝ), some (0, Sphere.new c r sc 0 0 ec)⟩ ∧
        lightTerm Real.sqrt [Sphere.new c r sc 0 0 ec] (Sphere.new c r sc 0 0 ec)
          (pointhit o d t0) (normalhit Real.sqrt o d t0 (Sphere.new c r sc 0 0 ec)) bias 0
          (Sphere.new c r sc 0 0 ec) = Vec3.uniform 0 := by
  have hd2 := (length_eq_one_iff d).1 hd
  cases hint : (Sphere.new c r sc 0 0 ec).intersect Real.sqrt o d with
  | none => exact absurd hint hhit
  | some p =>
    obtain ⟨t0, t1⟩ := p
    obtain ⟨hN, hdd, ht0, _⟩ := (intersect_eq_some_iff _ o d t0 t1).1 hint
    simp only [Sphere.new] at hN hdd ht0
    have hDD : (o - c).length2 = (c - o).dot (c - o) := by
      simp only [Vec3.length2, Vec3.dot, Vec3.sub_x, Vec3.sub_y, Vec3.sub_z]
      ring
    have hw := Real.sqrt_nonneg
      (r * r - ((c - o).dot (c - o) - (c - o).dot d * (c - o).dot d))
    have hww := Real.mul_self_sqrt (sub_nonneg.2 hdd)
    obtain ⟨h1, _⟩ := sign_of_t0 _ _ _ _ hN hw hww
    rw [← ht0, ← hDD] at h1
    have h0 : 0 ≤ t0 := not_lt.1 (fun hneg => absurd (h1.1 hneg) (not_lt.2 hout.le))
    have hnear := findNearest_single _ t0 t1 o d hint h0
    have hdiff : ¬ specular (Sphere.new c r sc 0 0 ec) depth := by
      simp [specular, Sphere.new]
    have hface : d.dot ((pointhit o d t0 - c).normalize Real.sqrt) ≤ 0 := by
      apply dot_normalize_nonpos
      rw [dot_direction_pointhit c o d t0 hd2, ht0]
      linarith
    have hn : normalhit Real.sqrt o d t0 (Sphere.new c r sc 0 0 ec) =
        (pointhit o d t0 - c).normalize Real.sqrt := by
      simp only [normalhit, Sphere.new, gt_iff_lt, if_neg (not_lt.2 hface)]
    have hcos : (normalhit Real.sqrt o d t0 (Sphere.new c r sc 0 0 ec)).dot
        ((c - pointhit o d t0).normalize Real.sqrt) ≤ 0 := by
      rw [hn, sub_eq_neg_sub c (pointhit o d t0), normalize_neg, dot_neg]
      have := length2_nonneg ((pointhit o d t0 - c).normalize Real.sqrt)
      have he : ((pointhit o d t0 - c).normalize Real.sqrt).dot
          ((pointhit o d t0 - c).normalize Real.sqrt) =
          ((pointhit o d t0 - c).normalize Real.sqrt).length2 := rfl
      rw [he]
      linarith
    have hterm : lightTerm Real.sqrt [Sphere.new c r sc 0 0 ec] (Sphere.new c r sc 0 0 ec)
        (pointhit o d t0) (normalhit Real.sqrt o d t0 (Sphere.new c r sc 0 0 ec)) bias 0
        (Sphere.new c r sc 0 0 ec) = Vec3.uniform 0 := by
      rw [lightTerm_clear Real.sqrt _ _ _ _ _ 0 _ (fun j sj hj hne => by
          match j, hj, hne with
          | 0, _, hne => exact absurd rfl hne
          | j + 1, hj, _ => simp at hj)]
      simp only [Sphere.new] at hcos ⊢
      rw [max_eq_left hcos]
      ext <;> simp
    refine ⟨?_, t0, hnear, hterm⟩
    unfold trace
    rw [traceAux_diffuse Real.sqrt _ o d depth t0 0 _ hnear hdiff]
    simp only
    by_cases hx : ec.x > 0
    · rw [lightLoop_one_light Real.sqrt _ _ _ _ _ (Sphere.new c r sc 0 0 ec) hx _ 0 0 _ rfl
        (fun j sj hj _ => by
          match j, hj with
          | 0, _ => rfl
          | j + 1, hj => simp at hj), hterm]
      ext <;> simp [Sphere.new]
    · rw [lightLoop_no_light Real.sqrt _ _ _ _ _ _ 0 _ (fun sj hsj => by
        rw [List.mem_singleton.1 hsj]
        exact hx)]
      ext <;> simp [Sphere.new]

/-- C12 (witness). The unit sphere under a sphere of emission `(0, 5, 5)`: that sphere is
no light, and the top of the unit sphere is black. -/
theorem light_classification_witness :
    trace Real.sqrt [unitSphere, greenBlueEmitter] rayFrom rayDown 0 = Vec3.uniform 0 := by
  have hg : (greenBlueEmitter : Sphere ℝ).intersect Real.sqrt rayFrom rayDown = none :=
    intersect_above_ray_down ⟨0, 10, 0⟩ (Vec3.uniform 0) ⟨0, 5, 5⟩ 0 0 1 5
      ⟨rfl, by norm_num, rfl⟩
  have hnear : findNearest Real.sqrt [unitSphere, greenBlueEmitter] rayFrom rayDown =
      ⟨((4 : ℝ) : WithTop ℝ), some (0, unitSphere)⟩ := by
    simp [findNearest, nearestLoop, nearestStep, intersect_unitSphere_top, hg, INFINITY]
  exact (light_classification Real.sqrt [unitSphere, greenBlueEmitter] rayFrom rayDown 0 4 0
    unitSphere hnear (by norm_num [specular, unitSphere, Sphere.new])).2.2
    (fun sj hsj => by
      simp only [List.mem_cons, List.mem_singleton, List.not_mem_nil, or_false] at hsj
      rcases hsj with rfl | rfl
      · norm_num [unitSphere, Sphere.new]
      · norm_num [greenBlueEmitter, Sphere.new])

end RealLights

/-! ### The arithmetic of `float`, on examples -/

section FloatArithmetic

set_option maxRecDepth 1000000

/-- Rounding to binary32 on examples: ties go to the even significand
(`2 ^ 24 + 1` to `2 ^ 24`, `2 ^ 24 + 3` to `2 ^ 24 + 4`), `2 ^ 128` overflows to `+inf`,
the smallest subnormal `2 ^ (-149)` is kept and `2 ^ (-150)` rounds to zero; the literals
`.01`, `1.1` and `1e-4` stored in a `float` are `0.00999999978`, `1.10000002` and
`0.0000999999975`; `1 / 3` and `sqrt(2)` are rounded to 24 bits; `inf - inf` and `0 * inf`
are NaN, and no comparison with NaN holds. -/
theorem float_arithmetic_examples :
    (Fl.round binary32 false 16777217 0 = Fl.fin false 1 24 ∧
      Fl.round binary32 false 16777219 0 = Fl.fin false 4194305 2 ∧
      Fl.round binary32 false 1 128 = Fl.inf false ∧
      Fl.round binary32 true 1 (-149) = Fl.fin true 1 (-149) ∧
      Fl.round binary32 false 1 (-150) = Fl.zero) ∧
    (Float32.toFloat (Fl.literal 1 2) = Fl.fin false 5368709 (-29) ∧
      Float32.toFloat (Fl.literal 11 1) = Fl.fin false 9227469 (-23) ∧
      Float32.toFloat (Fl.literal 1 4) = Fl.fin false 13743895 (-37)) ∧
    ((1 : Fl) / 3 = Fl.fin false 11184811 (-25) ∧
      Fl.sqrt binary32 2 = Fl.fin false 11863283 (-23) ∧
      Fl.sqrt binary64 2 = Fl.fin false 6369051672525773 (-52)) ∧
    (Fl.inf false - Fl.inf false = Fl.nan ∧ (0 : Fl) * Fl.inf false = Fl.nan ∧
      Fl.lt Fl.nan 0 = false ∧ Fl.lt 0 Fl.nan = false ∧
      Fl.lt Fl.nan (Fl.inf false) = false ∧
      Fl.lt (Fl.inf false) (Fl.inf false) = false) := by
  decide

end FloatArithmetic

/-! ### The comparison `<` on `float` data -/

namespace Fl

theorem scaled_cast (s : Bool) (m : Nat) (e c : Int) (h : c ≤ e) :
    ((scaled s m e c : Int) : ℚ) = val s m e * (2 : ℚ) ^ (-c) := by
  have h2 : ((2 : ℚ) ^ (e - c).toNat) = (2 : ℚ) ^ e * (2 : ℚ) ^ (-c) := by
    rw [← zpow_natCast, Int.toNat_of_nonneg (by omega), ← zpow_add₀ (by norm_num)]
    congr 1
  unfold scaled val
  cases s
  · simp only [Bool.false_eq_true, if_false]
    push_cast
    rw [h2]
    ring
  · simp only [if_true]
    push_cast
    rw [h2]
    ring

theorem lt_fin_iff (s : Bool) (m : Nat) (e : Int) (t : Bool) (k : Nat) (d : Int) :
    lt (fin s m e) (fin t k d) = true ↔ val s m e < val t k d := by
  have hpos : (0 : ℚ) < (2 : ℚ) ^ (-(min e d)) := zpow_pos (by norm_num) _
  simp only [lt, decide_eq_true_eq]
  rw [← Int.cast_lt (R := ℚ), scaled_cast s m e _ (min_le_left e d),
    scaled_cast t k d _ (min_le_right e d)]
  exact mul_lt_mul_right hpos

theorem lt_iff_key (x y : Fl) (hx : x ≠ nan) (hy : y ≠ nan) :
    lt x y = true ↔ key x < key y := by
  cases x with
  | nan => exact absurd rfl hx
  | inf s =>
    cases y with
    | nan => exact absurd rfl hy
    | inf t => cases s <;> cases t <;> simp [lt, key]
    | fin t k d => cases s <;> simp [lt, key]
  | fin s m e =>
    cases y with
    | nan => exact absurd rfl hy
    | inf t =>
      cases t
      · simp only [lt, key, Bool.not_false, Bool.false_eq_true, if_false, true_iff]
        exact WithBot.coe_lt_coe.2 (WithTop.coe_lt_top _)
      · simp [lt, key]
    | fin t k d =>
      rw [lt_fin_iff]
      simp [key]

theorem ne_nan_of_lt {x y : Fl} (h : lt x y = true) : x ≠ nan ∧ y ≠ nan := by
  cases x <;> cases y <;> simp [lt] at h ⊢

theorem not_lt_self (x : Fl) : ¬ lt x x = true := by
  intro h
  have hx := (ne_nan_of_lt h).1
  exact absurd ((lt_iff_key x x hx hx).1 h) (lt_irrefl _)

theorem lt_of_lt_of_lt {x y z : Fl} (h1 : lt x y = true) (h2 : lt y z = true) :
    lt x z = true := by
  have hx := (ne_nan_of_lt h1).1
  have hy := (ne_nan_of_lt h1).2
  have hz := (ne_nan_of_lt h2).2
  exact (lt_iff_key x z hx hz).2
    (lt_trans ((lt_iff_key x y hx hy).1 h1) ((lt_iff_key y z hy hz).1 h2))

theorem not_lt_of_lt {x y : Fl} (h : lt x y = true) : ¬ lt y x = true :=
  fun h2 => not_lt_self x (lt_of_lt_of_lt h h2)

theorem lt_of_lt_of_not_lt {x y z : Fl} (h1 : lt x y = true) (h2 : ¬ lt z y = true)
    (hz : z ≠ nan) : lt x z = true := by
  have hx := (ne_nan_of_lt h1).1
  have hy := (ne_nan_of_lt h1).2
  rw [lt_iff_key z y hz hy, not_lt] at h2
  exact (lt_iff_key x z hx hz).2 (lt_of_lt_of_le ((lt_iff_key x y hx hy).1 h1) h2)

end Fl

/-! ### The search loop of `trace` over `float` -/

namespace Float32

theorem nearestStep_eq_float (sf : Format) (o d : Vec3 Fl) (st : Nearest) (i : Nat)
    (s : Sphere Fl) :
    nearestStep sf o d st i s =
      match effectiveDistance sf s o d with
      | some t => if Fl.lt t st.tnear then ⟨t, some (i, s)⟩ else st
      | none => st := by
  unfold nearestStep effectiveDistance
  cases h : Sphere.intersect sf s o d with
  | none => rfl
  | some p => rfl

theorem nearestLoop_spec_float (sf : Format) (o d : Vec3 Fl) (rest : List (Sphere Fl)) :
    ∀ (i : Nat) (st : Nearest),
      (nearestLoop sf o d i rest st = st ∧
        ∀ (j : Nat) (sj : Sphere Fl) (tj : Fl), rest[j]? = some sj →
          effectiveDistance sf sj o d = some tj → ¬ Fl.lt tj st.tnear = true) ∨
      (∃ (k : Nat) (s : Sphere Fl) (t : Fl), rest[k]? = some s ∧
        effectiveDistance sf s o d = some t ∧
        nearestLoop sf o d i rest st = ⟨t, some (i + k, s)⟩ ∧
        Fl.lt t st.tnear = true ∧
        ∀ (j : Nat) (sj : Sphere Fl) (tj : Fl), rest[j]? = some sj →
          effectiveDistance sf sj o d = some tj →
            ¬ Fl.lt tj t = true ∧ (j < k → tj ≠ Fl.nan → Fl.lt t tj = true)) := by
  induction rest with
  | nil =>
    intro i st
    left
    exact ⟨rfl, fun j sj tj hj => by simp at hj⟩
  | cons s rest ih =>
    intro i st
    have hstep := nearestStep_eq_float sf o d st i s
    simp only [nearestLoop]
    cases he : effectiveDistance sf s o d with
    | none =>
      rw [he] at hstep
      simp only at hstep
      rw [hstep]
      rcases ih (i + 1) st with ⟨hr, hall⟩ | ⟨k, s2, t2, hk, hes, hr, hlt, hall⟩
      · left
        refine ⟨hr, ?_⟩
        intro j sj tj hj hej
        cases j with
        | zero =>
          simp only [List.getElem?_cons_zero, Option.some.injEq] at hj
          subst hj
          rw [he] at hej
          cases hej
        | succ j =>
          simp only [List.getElem?_cons_succ] at hj
          exact hall j sj tj hj hej
      · right
        refine ⟨k + 1, s2, t2, by simpa using hk, hes, ?_, hlt, ?_⟩
        · rw [hr]
          congr 3
          omega
        · intro j sj tj hj hej
          cases j with
          | zero =>
            simp only [List.getElem?_cons_zero, Option.some.injEq] at hj
            subst hj
            rw [he] at hej
            cases hej
          | succ j =>
            simp only [List.getElem?_cons_succ] at hj
            obtain ⟨h1, h2⟩ := hall j sj tj hj hej
            exact ⟨h1, fun hjk => h2 (by omega)⟩
    | some t0 =>
      rw [he] at hstep
      simp only at hstep
      by_cases hlt0 : Fl.lt t0 st.tnear = true
      · rw [if_pos hlt0] at hstep
        rw [hstep]
        rcases ih (i + 1) ⟨t0, some (i, s)⟩ with
          ⟨hr, hall⟩ | ⟨k, s2, t2, hk, hes, hr, hlt, hall⟩
        · right
          refine ⟨0, s, t0, by simp, he, by simpa using hr, hlt0, ?_⟩
          intro j sj tj hj hej
          cases j with
          | zero =>
            simp only [List.getElem?_cons_zero, Option.some.injEq] at hj
            subst hj
            rw [he] at hej
            cases hej
            exact ⟨Fl.not_lt_self _, fun h => absurd h (by omega)⟩
          | succ j =>
            simp only [List.getElem?_cons_succ] at hj
            exact ⟨hall j sj tj hj hej, fun h => absurd h (by omega)⟩
        · right
          have hlt2 : Fl.lt t2 t0 = true := hlt
          refine ⟨k + 1, s2, t2, by simpa using hk, hes, ?_, Fl.lt_of_lt_of_lt hlt2 hlt0, ?_⟩
          · rw [hr]
            congr 3
            omega
          · intro j sj tj hj hej
            cases j with
            | zero =>
              simp only [List.getElem?_cons_zero, Option.some.injEq] at hj
              subst hj
              rw [he] at hej
              cases hej
              exact ⟨Fl.not_lt_of_lt hlt2, fun _ _ => hlt2⟩
            | succ j =>
              simp only [List.getElem?_cons_succ] at hj
              obtain ⟨h1, h2⟩ := hall j sj tj hj hej
              exact ⟨h1, fun hjk => h2 (by omega)⟩
      · rw [if_neg hlt0] at hstep
        rw [hstep]
        rcases ih (i + 1) st with ⟨hr, hall⟩ | ⟨k, s2, t2, hk, hes, hr, hlt, hall⟩
        · left
          refine ⟨hr, ?_⟩
          intro j sj tj hj hej
          cases j with
          | zero =>
            simp only [List.getElem?_cons_zero, Option.some.injEq] at hj
            subst hj
            rw [he] at hej
            cases hej
            exact hlt0
          | succ j =>
            simp only [List.getElem?_cons_succ] at hj
            exact hall j sj tj hj hej
        · right
          refine ⟨k + 1, s2, t2, by simpa using hk, hes, ?_, hlt, ?_⟩
          · rw [hr]
            congr 3
            omega
          · intro j sj tj hj hej
            cases j with
            | zero =>
              simp only [List.getElem?_cons_zero, Option.some.injEq] at hj
              subst hj
              rw [he] at hej
              cases hej
              exact ⟨fun h => hlt0 (Fl.lt_of_lt_of_lt h hlt),
                fun _ hnan => Fl.lt_of_lt_of_not_lt hlt hlt0 hnan⟩
            | succ j =>
              simp only [List.getElem?_cons_succ] at hj
              obtain ⟨h1, h2⟩ := hall j sj tj hj hej
              exact ⟨h1, fun hjk => h2 (by omega)⟩

theorem findNearest_cases_float (sf : Format) (spheres : List (Sphere Fl)) (o d : Vec3 Fl) :
    (findNearest sf spheres o d = ⟨INFINITY, none⟩ ∧
        ∀ (j : Nat) (sj : Sphere Fl) (tj : Fl), spheres[j]? = some sj →
          effectiveDistance sf sj o d = some tj → ¬ Fl.lt tj INFINITY = true) ∨
      (∃ (i : Nat) (s : Sphere Fl) (t : Fl), spheres[i]? = some s ∧
        effectiveDistance sf s o d = some t ∧
        findNearest sf spheres o d = ⟨t, some (i, s)⟩ ∧
        Fl.lt t INFINITY = true ∧
        ∀ (j : Nat) (sj : Sphere Fl) (tj : Fl), spheres[j]? = some sj →
          effectiveDistance sf sj o d = some tj →
            ¬ Fl.lt tj t = true ∧ (j < i → tj ≠ Fl.nan → Fl.lt t tj = true)) := by
  rcases nearestLoop_spec_float sf o d spheres 0 ⟨INFINITY, none⟩ with
    ⟨hr, hall⟩ | ⟨k, s, t, hk, hes, hr, hlt, hall⟩
  · left
    exact ⟨hr, hall⟩
  · right
    refine ⟨k, s, t, hk, hes, ?_, hlt, hall⟩
    rw [findNearest, hr, Nat.zero_add]

theorem traceAux_miss_float (sf : Format) (spheres : List (Sphere Fl)) (o d : Vec3 Fl)
    (depth : Int) (h : (findNearest sf spheres o d).sphere = none) :
    traceAux sf spheres o d depth = (Vec3.uniform 2, [⟨depth, none⟩]) := by
  rw [traceAux]
  simp only [h]

theorem traceCalls_head_float (sf : Format) (spheres : List (Sphere Fl)) (o d : Vec3 Fl)
    (depth : Int) (i : Nat) (s : Sphere Fl)
    (h : (findNearest sf spheres o d).sphere = some (i, s)) :
    (traceCalls sf spheres o d depth).head? = some ⟨depth, some i⟩ := by
  unfold traceCalls
  rw [traceAux]
  simp only [h]
  split <;> rfl

theorem traceAux_specular_float (sf : Format) (spheres : List (Sphere Fl)) (o d : Vec3 Fl)
    (depth : Int) (t : Fl) (i : Nat) (s : Sphere Fl)
    (h : findNearest sf spheres o d = ⟨t, some (i, s)⟩) (hs : specular s depth) :
    traceAux sf spheres o d depth =
      (Vec3.add
        (Vec3.mul
          (Vec3.add
            (Vec3.scale
              (traceAux sf spheres
                (Vec3.add (pointhit o d t) (Vec3.scale (normalhit sf o d t s) bias))
                (refldir sf d (normalhit sf o d t s)) (depth + 1)).1
              (fresneleffect d (normalhit sf o d t s)))
            (Vec3.scale
              (Vec3.scale
                (if Fl.toBool s.transparency = true then
                  traceAux sf spheres
                    (Vec3.sub (pointhit o d t) (Vec3.scale (normalhit sf o d t s) bias))
                    (refrdir sf d (normalhit sf o d t s) (inside sf o d t s)) (depth + 1)
                else (Vec3.uniform 0, [])).1
                (1 - fresneleffect d (normalhit sf o d t s)))
              s.transparency))
          s.surfaceColor)
        s.emissionColor,
      (⟨depth, some i⟩ : Call) ::
        ((traceAux sf spheres
              (Vec3.add (pointhit o d t) (Vec3.scale (normalhit sf o d t s) bias))
              (refldir sf d (normalhit sf o d t s)) (depth + 1)).2 ++
          (if Fl.toBool s.transparency = true then
              traceAux sf spheres
                (Vec3.sub (pointhit o d t) (Vec3.scale (normalhit sf o d t s) bias))
                (refrdir sf d (normalhit sf o d t s) (inside sf o d t s)) (depth + 1)
            else (Vec3.uniform 0, [])).2)) := by
  unfold specular at hs
  rw [traceAux]
  simp only [h]
  rw [dif_pos hs]
  rfl

theorem traceAux_diffuse_float (sf : Format) (spheres : List (Sphere Fl)) (o d : Vec3 Fl)
    (depth : Int) (t : Fl) (i : Nat) (s : Sphere Fl)
    (h : findNearest sf spheres o d = ⟨t, some (i, s)⟩) (hs : ¬ specular s depth) :
    traceAux sf spheres o d depth =
      (Vec3.add
        (lightLoop sf spheres s (pointhit o d t) (normalhit sf o d t s) bias 0 spheres
          (Vec3.uniform 0))
        s.emissionColor, [⟨depth, some i⟩]) := by
  unfold specular at hs
  rw [traceAux]
  simp only [h]
  rw [dif_neg hs]
  rfl

theorem refrdir_radicand_float (sf : Format) (d n : Vec3 Fl) (ins : Bool) :
    refrdir sf d n ins =
      Vec3.normalize sf
        (Vec3.add
          (Vec3.scale d (if ins then toFloat (Fl.literal 11 1)
            else 1 / toFloat (Fl.literal 11 1)))
          (Vec3.scale n
            (toFloat (Fl.sub sf
              ((if ins then toFloat (Fl.literal 11 1) else 1 / toFloat (Fl.literal 11 1)) *
                -(Vec3.dot n d))
              (Fl.sqrt sf (refractionRadicand ins (-(Vec3.dot n d)))))))) :=
  rfl

/-- C1 (as amended). Nearest-hit search in `trace`, over `float`, distances being compared
with the `<` of the program (false whenever an operand is NaN).  The effective distance of
a sphere that `intersect` reports as hit is `t1` when `t0 < 0` and `t0` otherwise.  If at
least one sphere is reported hit with an effective distance below `INFINITY`, the search
loop ends with `sphere` pointing to such a sphere `spheres[i]` and `tnear` equal to its
effective distance `t`; no hit sphere has an effective distance below `t`, every hit sphere
of lower index whose effective distance is not NaN is strictly farther (so `i` is the lowest
index among the spheres at distance `t`), and `spheres[i]` is the sphere this invocation of
`trace` shades.  It holds for either overload of `sqrt`. -/
theorem nearest_hit_float (sf : Format) (spheres : List (Sphere Fl)) (o d : Vec3 Fl)
    (depth : Int)
    (hhit : ∃ s ∈ spheres, ∃ t : Fl, effectiveDistance sf s o d = some t ∧
      Fl.lt t INFINITY = true) :
    ∃ (i : Nat) (s : Sphere Fl) (t : Fl), spheres[i]? = some s ∧
      effectiveDistance sf s o d = some t ∧ Fl.lt t INFINITY = true ∧
      (∀ (j : Nat) (sj : Sphere Fl) (tj : Fl), spheres[j]? = some sj →
        effectiveDistance sf sj o d = some tj →
          ¬ Fl.lt tj t = true ∧ (j < i → tj ≠ Fl.nan → Fl.lt t tj = true)) ∧
      findNearest sf spheres o d = ⟨t, some (i, s)⟩ ∧
      (traceCalls sf spheres o d depth).head? = some ⟨depth, some i⟩ := by
  rcases findNearest_cases_float sf spheres o d with
    ⟨_, hall⟩ | ⟨i, s, t, hi, hes, hr, hlt, hall⟩
  · obtain ⟨s, hs, t, het, hlt⟩ := hhit
    obtain ⟨j, hj⟩ := List.getElem?_of_mem hs
    exact absurd hlt (hall j s t hj het)
  · exact ⟨i, s, t, hi, hes, hlt, hall, hr,
      traceCalls_head_float sf spheres o d depth i s (by rw [hr])⟩

end Float32

/-! ### The program over `float`: where rounding departs from the exact reading

Each statement below is evaluated on the `float` reading of the program, for the `float`
overload of `sqrt` (`binary32`) and, where the value of a square root matters, also for
`sqrt(double)` (`binary64`). -/

section FloatExamples

open Float32

set_option maxRecDepth 1000000

/-- C1 (counterexample). Over `float`, the sphere of radius `2 ^ 70` centred at the origin,
seen from `(0, 2 ^ 71, 0)` straight down: `radsquared`, `dist.dot(dist)` and `norm * norm`
overflow to `+inf`, `d2 = inf - inf` is NaN, the test `d2 > radsquared` is false and
`intersect` returns true with `t0 = t1 = NaN`.  In `trace` neither `t0 < 0` nor `t0 < tnear`
holds, the pointer stays `NULL` and `trace` returns `Vec3f(2)`: a sphere is reported hit and
no sphere is shaded.  Likewise the sphere of radius `2 ^ 64` seen from its centre is reported
hit with `t0 = -inf` and `t1 = +inf`; its effective distance `+inf` is not below
`tnear = INFINITY`, and again no sphere is shaded. -/
theorem nearest_hit_overflow :
    (Float32.Sphere.intersect binary32 (ball ⟨0, 0, 0⟩ (twoPow 70) 0) ⟨0, twoPow 71, 0⟩ down =
        some (Fl.nan, Fl.nan) ∧
      (Float32.findNearest binary32 [ball ⟨0, 0, 0⟩ (twoPow 70) 0] ⟨0, twoPow 71, 0⟩
        down).sphere = none ∧
      Float32.trace binary32 [ball ⟨0, 0, 0⟩ (twoPow 70) 0] ⟨0, twoPow 71, 0⟩ down 0 =
        Float32.Vec3.uniform 2) ∧
    (Float32.Sphere.intersect binary32 (ball ⟨0, 0, 0⟩ (twoPow 64) 0) ⟨0, 0, 0⟩ down =
        some (Fl.inf true, Fl.inf false) ∧
      Float32.effectiveDistance binary32 (ball ⟨0, 0, 0⟩ (twoPow 64) 0) ⟨0, 0, 0⟩ down =
        some Float32.INFINITY ∧
      (Float32.findNearest binary32 [ball ⟨0, 0, 0⟩ (twoPow 64) 0] ⟨0, 0, 0⟩ down).sphere =
        none ∧
      Float32.trace binary32 [ball ⟨0, 0, 0⟩ (twoPow 64) 0] ⟨0, 0, 0⟩ down 0 =
        Float32.Vec3.uniform 2) := by
  refine ⟨⟨by decide, by decide, ?_⟩, by decide, by decide, by decide, ?_⟩
  · rw [Float32.trace, Float32.traceAux_miss_float _ _ _ _ _ (by decide)]
  · rw [Float32.trace, Float32.traceAux_miss_float _ _ _ _ _ (by decide)]

/-- C1 (witness). Over `float`, two coincident unit spheres, both hit at distance 4 by the
ray from `(0, 5, 0)` straight down: the search returns index 0. -/
theorem nearest_hit_float_witness :
    ∃ (i : Nat) (s : Sphere Fl) (t : Fl),
      [ball ⟨0, 0, 0⟩ 1 0, ball ⟨0, 0, 0⟩ 1 0][i]? = some s ∧
      Float32.effectiveDistance binary32 s ⟨0, 5, 0⟩ down = some t ∧
      Fl.lt t Float32.INFINITY = true ∧
      (∀ (j : Nat) (sj : Sphere Fl) (tj : Fl),
        [ball ⟨0, 0, 0⟩ 1 0, ball ⟨0, 0, 0⟩ 1 0][j]? = some sj →
        Float32.effectiveDistance binary32 sj ⟨0, 5, 0⟩ down = some tj →
          ¬ Fl.lt tj t = true ∧ (j < i → tj ≠ Fl.nan → Fl.lt t tj = true)) ∧
      Float32.findNearest binary32 [ball ⟨0, 0, 0⟩ 1 0, ball ⟨0, 0, 0⟩ 1 0] ⟨0, 5, 0⟩ down =
        ⟨t, some (i, s)⟩ ∧
      (Float32.traceCalls binary32 [ball ⟨0, 0, 0⟩ 1 0, ball ⟨0, 0, 0⟩ 1 0] ⟨0, 5, 0⟩ down
        0).head? = some ⟨0, some i⟩ :=
  Float32.nearest_hit_float binary32 [ball ⟨0, 0, 0⟩ 1 0, ball ⟨0, 0, 0⟩ 1 0] ⟨0, 5, 0⟩ down 0
    ⟨ball ⟨0, 0, 0⟩ 1 0, List.mem_cons_self _ _, 4, by decide, by decide⟩

/-- The selected sphere of the witness of C1 over `float`, evaluated: index 0 at distance 4. -/
theorem findNearest_twins_float :
    Float32.findNearest binary32 [ball ⟨0, 0, 0⟩ 1 0, ball ⟨0, 0, 0⟩ 1 0] ⟨0, 5, 0⟩ down =
      ⟨4, some (0, ball ⟨0, 0, 0⟩ 1 0)⟩ := by
  decide

/-- Head-on rays over `float`.  `Sphere((3000, 4000, 0), 1)` seen from the origin, at distance
`5000 > 1`, along the direction the program's own `normalize` gives for `center - rayorig`:
`norm = 4999.9995`, `d2 = 25000000 - 24999996 = 4 > 1` and `intersect` returns false.  The
unit sphere at the origin seen from `(0, 2 ^ 70, 0)` along the exactly unit `(0, -1, 0)`:
the squares overflow, `d2` is NaN and `intersect` returns true with `t0 = t1 = NaN`. -/
theorem head_on_float :
    (Float32.Vec3.length binary32
        (Float32.Vec3.sub (ball ⟨3000, 4000, 0⟩ 1 0).center ⟨0, 0, 0⟩) = 5000 ∧
      Fl.gt 5000 (ball ⟨3000, 4000, 0⟩ 1 0).radius = true ∧
      Float32.Sphere.intersect binary32 (ball ⟨3000, 4000, 0⟩ 1 0) ⟨0, 0, 0⟩
        (Float32.Vec3.normalize binary32
          (Float32.Vec3.sub (ball ⟨3000, 4000, 0⟩ 1 0).center ⟨0, 0, 0⟩)) = none ∧
      Float32.Sphere.intersect binary64 (ball ⟨3000, 4000, 0⟩ 1 0) ⟨0, 0, 0⟩
        (Float32.Vec3.normalize binary64
          (Float32.Vec3.sub (ball ⟨3000, 4000, 0⟩ 1 0).center ⟨0, 0, 0⟩)) = none) ∧
    (Float32.Vec3.sub (ball ⟨0, 0, 0⟩ 1 0).center ⟨0, twoPow 70, 0⟩ =
        Float32.Vec3.scale down (twoPow 70) ∧
      Float32.Vec3.length2 down = 1 ∧
      Float32.Sphere.intersect binary32 (ball ⟨0, 0, 0⟩ 1 0) ⟨0, twoPow 70, 0⟩ down =
        some (Fl.nan, Fl.nan) ∧
      Float32.Sphere.intersect binary64 (ball ⟨0, 0, 0⟩ 1 0) ⟨0, twoPow 70, 0⟩ down =
        some (Fl.nan, Fl.nan)) := by
  decide

/-- C3 (counterexample). First, in exact arithmetic: the sphere of radius `-1` centred at the
origin, seen from `(0, 5, 0)` at distance `5 > -1` and aimed at the centre, is reported hit
with `(t0, t1) = (4, 6)`, not `(dist - radius, dist + radius) = (6, 4)`.  Second, over
`float`: `Sphere((3000, 4000, 0), 1)` seen from the origin at distance `5000 > 1`, along the
direction the program's `normalize` gives for `center - rayorig`, is reported a miss
(`d2 = 4 > 1`); and the unit sphere seen from `(0, 2 ^ 70, 0)` along the exactly unit
`(0, -1, 0)` is reported hit with `t0 = t1 = NaN`, which are not positive. -/
theorem head_on_fails :
    (((negativeRadiusSphere : Sphere ℝ).center - rayFrom).length Real.sqrt >
        (negativeRadiusSphere : Sphere ℝ).radius ∧
      (negativeRadiusSphere : Sphere ℝ).intersect Real.sqrt rayFrom
          (((negativeRadiusSphere : Sphere ℝ).center - rayFrom).normalize Real.sqrt) =
        some (4, 6) ∧
      (negativeRadiusSphere : Sphere ℝ).intersect Real.sqrt rayFrom
          (((negativeRadiusSphere : Sphere ℝ).center - rayFrom).normalize Real.sqrt) ≠
        some (((negativeRadiusSphere : Sphere ℝ).center - rayFrom).length Real.sqrt -
            (negativeRadiusSphere : Sphere ℝ).radius,
          ((negativeRadiusSphere : Sphere ℝ).center - rayFrom).length Real.sqrt +
            (negativeRadiusSphere : Sphere ℝ).radius)) ∧
    (Float32.Vec3.length binary32
        (Float32.Vec3.sub (ball ⟨3000, 4000, 0⟩ 1 0).center ⟨0, 0, 0⟩) = 5000 ∧
      Fl.gt 5000 (ball ⟨3000, 4000, 0⟩ 1 0).radius = true ∧
      Float32.Sphere.intersect binary32 (ball ⟨3000, 4000, 0⟩ 1 0) ⟨0, 0, 0⟩
        (Float32.Vec3.normalize binary32
          (Float32.Vec3.sub (ball ⟨3000, 4000, 0⟩ 1 0).center ⟨0, 0, 0⟩)) = none ∧
      Float32.Sphere.intersect binary64 (ball ⟨3000, 4000, 0⟩ 1 0) ⟨0, 0, 0⟩
        (Float32.Vec3.normalize binary64
          (Float32.Vec3.sub (ball ⟨3000, 4000, 0⟩ 1 0).center ⟨0, 0, 0⟩)) = none) ∧
    (Float32.Vec3.length2 down = 1 ∧
      Float32.Sphere.intersect binary32 (ball ⟨0, 0, 0⟩ 1 0) ⟨0, twoPow 70, 0⟩ down =
        some (Fl.nan, Fl.nan) ∧
      Fl.gt Fl.nan 0 = false) :=
  ⟨head_on_negative_radius, head_on_float.1, head_on_float.2.2.1, head_on_float.2.2.2.1,
    rfl⟩

/-- C14 (counterexample). Over `float`, for `v = (1, 2, 3)`: `v.dot(v)` and `v.length2()` are
`14`, `v.length()` is `3.7416575`, and `v.length() * v.length()` is
`14680065 * 2 ^ (-20) = 14.000001`, not `14`, for either overload of `sqrt`. -/
theorem length_squared_rounds :
    Float32.Vec3.dot ⟨1, 2, 3⟩ ⟨1, 2, 3⟩ = 14 ∧
    Float32.Vec3.length2 ⟨1, 2, 3⟩ = 14 ∧
    Float32.Vec3.length binary32 ⟨1, 2, 3⟩ = Fl.fin false 15693649 (-22) ∧
    Float32.Vec3.length binary32 ⟨1, 2, 3⟩ * Float32.Vec3.length binary32 ⟨1, 2, 3⟩ =
      Fl.fin false 14680065 (-20) ∧
    Float32.Vec3.length binary64 ⟨1, 2, 3⟩ * Float32.Vec3.length binary64 ⟨1, 2, 3⟩ =
      Fl.fin false 14680065 (-20) ∧
    Fl.fin false 14680065 (-20) ≠ (14 : Fl) ∧
    Fl.val false 14680065 (-20) ≠ 14 := by
  refine ⟨by decide, by decide, by decide, by decide, by decide, by decide, ?_⟩
  norm_num [Fl.val]

/-- C14 (as amended). For every vector `v`, `v.dot(v)` equals `v.length2()`, over `float` as
well as in exact arithmetic (it is the same expression); in exact real arithmetic both equal
the square of `v.length()`, the square root of the sum of the squared components. -/
theorem dot_self_length2 :
    (∀ v : Vec3 Fl, Float32.Vec3.dot v v = Float32.Vec3.length2 v) ∧
    (∀ v : Vec3 ℝ, v.dot v = v.length2 ∧ v.dot v = v.length Real.sqrt ^ 2 ∧
      v.length Real.sqrt = Real.sqrt (v.x * v.x + v.y * v.y + v.z * v.z)) :=
  ⟨fun _ => rfl, dot_self_eq_length2⟩

end FloatExamples

end RayTracer
